import Mathlib

/-!
# Slate texture atlas: packing and blitting

A shallow embedding of `FSlateTextureAtlas` (TextureAtlas.cpp): the slot tree,
the packer `FindSlotForTexture`, the blitter `CopyDataIntoSlot` / `CopyRow` /
`ZeroRow`, the entry point `AddTexture`, the set-up `InitAtlasData` and the
tear-down `Empty` / `DestroyNodes`; and of the constructor of
`FVisualLoggerBinaryFileDevice::FFrameCacheItem` (VisualLoggerBinaryFileDevice.h).

Conventions of the embedding

* `uint32` values are natural numbers; every `uint32` operation of the source
  is followed by an explicit reduction modulo `2 ^ 32` (`u32`).
* A `FAtlasedTextureSlot*` is a tree: `null`, or a `node` carrying the fields
  of the slot it points to.  A pointer to a node inside a tree is the path
  leading to it (`false` follows `Left`, `true` follows `Right`).
* `TArray<uint8>` is a list of bytes.  `Memcpy` and `Memzero` are checked: a
  byte range that leaves its array is a fault, and the operation returns
  `none`.  A function that can fault returns an `Option`; a null pointer that
  the source dereferences is a fault as well.
* The header of the class is not part of the sources read here.  The members
  `AtlasWidth`, `AtlasHeight`, `Stride` and the slot fields `X`, `Y`, `Width`,
  `Height` are taken to be `uint32`, as the `uint32` locals they are combined
  with; a new slot has no children.  The limits of `TArray` itself (its
  element count is an `int32`) are not part of the model; where a statement
  needs them, for an input array or for the count that `InitAtlasData` hands
  to the buffer, it says so as a hypothesis.
-/

namespace SlateAtlas

/-! ## Machine arithmetic -/

/-- Reduction of a natural number to an unsigned 32-bit value. -/
def u32 (v : Nat) : Nat := v % 2 ^ 32

/-- Unsigned 32-bit subtraction `a - b`, wrapping around on underflow. -/
def u32sub (a b : Nat) : Nat :=
  if u32 b ≤ u32 a then u32 a - u32 b else u32 a + 2 ^ 32 - u32 b

/-- Reinterpretation of an unsigned 32-bit value as a signed `int32`. -/
def toInt32 (v : Nat) : Int :=
  if u32 v < 2 ^ 31 then (u32 v : Int) else (u32 v : Int) - 2 ^ 32

/-- Conversion of a signed value back to `uint32`. -/
def ofInt32 (i : Int) : Nat := (i % 2 ^ 32).toNat

/-- The expression `FMath::Max<int32>(0, v)` assigned to a `uint32`: both
arguments are converted to `int32`, the larger is converted back. -/
def MaxInt32Zero (v : Nat) : Nat := ofInt32 (max 0 (toInt32 v))

/-! ## Data model -/

/-- Padding styles of the atlas (`ESlateTextureAtlasPaddingStyle`). -/
inductive ESlateTextureAtlasPaddingStyle where
  | NoPadding
  | DilateBorder
  | PadWithZero
  deriving DecidableEq, Repr

open ESlateTextureAtlasPaddingStyle

/-- A nullable pointer to a `FAtlasedTextureSlot`, together with everything
reachable from it: `null`, or a slot with its fields `X`, `Y`, `Width`,
`Height`, `Padding` and its two child pointers `Left` and `Right`. -/
inductive FAtlasedTextureSlot where
  | null : FAtlasedTextureSlot
  | node (X Y Width Height Padding : Nat) (Left Right : FAtlasedTextureSlot) :
      FAtlasedTextureSlot
  deriving DecidableEq, Repr

namespace FAtlasedTextureSlot

/-- The test `Ptr != nullptr` (a pointer used as a condition). -/
def isSet : FAtlasedTextureSlot → Bool
  | null => false
  | node _ _ _ _ _ _ _ => true

/-- Field `X` (0 for the null pointer, which has no fields). -/
def X : FAtlasedTextureSlot → Nat
  | null => 0
  | node x _ _ _ _ _ _ => x

/-- Field `Y`. -/
def Y : FAtlasedTextureSlot → Nat
  | null => 0
  | node _ y _ _ _ _ _ => y

/-- Field `Width`. -/
def Width : FAtlasedTextureSlot → Nat
  | null => 0
  | node _ _ w _ _ _ _ => w

/-- Field `Height`. -/
def Height : FAtlasedTextureSlot → Nat
  | null => 0
  | node _ _ _ h _ _ _ => h

/-- Field `Left`. -/
def Left : FAtlasedTextureSlot → FAtlasedTextureSlot
  | null => null
  | node _ _ _ _ _ l _ => l

/-- Field `Right`. -/
def Right : FAtlasedTextureSlot → FAtlasedTextureSlot
  | null => null
  | node _ _ _ _ _ _ r => r

/-- Dereference of a pointer into the tree: the subtree found by following
the path (`false` is `Left`, `true` is `Right`); `null` when the path leaves
the tree. -/
def slotAt : FAtlasedTextureSlot → List Bool → FAtlasedTextureSlot
  | t, [] => t
  | null, _ :: _ => null
  | node _ _ _ _ _ l _, false :: p => slotAt l p
  | node _ _ _ _ _ _ r, true :: p => slotAt r p

end FAtlasedTextureSlot

open FAtlasedTextureSlot

/-- The atlas object: the members of `FSlateTextureAtlas` that the
translated functions read or write. -/
structure FSlateTextureAtlas where
  AtlasData : List Nat
  RootNode : FAtlasedTextureSlot
  AtlasWidth : Nat
  AtlasHeight : Nat
  Stride : Nat
  PaddingStyle : ESlateTextureAtlasPaddingStyle
  bNeedsUpdate : Bool
  deriving DecidableEq, Repr

/-! ## The packer -/

/-- The local `Padding` of the source: one when a padding style is active. -/
def PaddingOf (PaddingStyle : ESlateTextureAtlasPaddingStyle) : Nat :=
  if PaddingStyle ≠ NoPadding then 1 else 0

/-- The recursive `FindSlotForTexture(Start, InWidth, InHeight)`.  It returns
the pointer it found (a path below `Start`, `none` for `nullptr`) and `Start`
as the call leaves it. -/
def FindSlotForTexture (PaddingStyle : ESlateTextureAtlasPaddingStyle) :
    FAtlasedTextureSlot → Nat → Nat → Option (List Bool) × FAtlasedTextureSlot
  | null, _, _ => (none, null)
  | node X Y Width Height Pad Left Right, InWidth, InHeight =>
    if Left.isSet || Right.isSet then
      let resL :=
        if Left.isSet then FindSlotForTexture PaddingStyle Left InWidth InHeight
        else (none, Left)
      match resL with
      | (some p, Left1) => (some (false :: p), node X Y Width Height Pad Left1 Right)
      | (none, Left1) =>
        let resR :=
          if Right.isSet then FindSlotForTexture PaddingStyle Right InWidth InHeight
          else (none, Right)
        match resR with
        | (some p, Right1) => (some (true :: p), node X Y Width Height Pad Left1 Right1)
        | (none, Right1) => (none, node X Y Width Height Pad Left1 Right1)
    else
      let Padding := PaddingOf PaddingStyle
      let TotalPadding := u32 (Padding * 2)
      if u32 (InWidth + TotalPadding) > Width ∨ u32 (InHeight + TotalPadding) > Height then
        (none, node X Y Width Height Pad Left Right)
      else
        let PaddedWidth := u32 (InWidth + TotalPadding)
        let PaddedHeight := u32 (InHeight + TotalPadding)
        let RemainingWidth := MaxInt32Zero (u32sub Width PaddedWidth)
        let RemainingHeight := MaxInt32Zero (u32sub Height PaddedHeight)
        if RemainingHeight ≤ RemainingWidth then
          (some [], node X Y (u32 (InWidth + TotalPadding)) (u32 (InHeight + TotalPadding)) Pad
            (node X (u32 (Y + PaddedHeight)) PaddedWidth RemainingHeight Padding null null)
            (node (u32 (X + PaddedWidth)) Y RemainingWidth Height Padding null null))
        else
          (some [], node X Y (u32 (InWidth + TotalPadding)) (u32 (InHeight + TotalPadding)) Pad
            (node (u32 (X + PaddedWidth)) Y RemainingWidth PaddedHeight Padding null null)
            (node X (u32 (Y + PaddedHeight)) Width RemainingHeight Padding null null))

/-- The overload `FindSlotForTexture(InWidth, InHeight)`, which dereferences
`RootNode`: a null root is a fault. -/
def FindSlotForTextureRoot (Atlas : FSlateTextureAtlas) (InWidth InHeight : Nat) :
    Option (Option (List Bool) × FSlateTextureAtlas) :=
  if Atlas.RootNode.isSet then
    let res := FindSlotForTexture Atlas.PaddingStyle Atlas.RootNode InWidth InHeight
    some (res.1, { Atlas with RootNode := res.2 })
  else none

/-! ## The blitter -/

/-- Checked `FMemory::Memcpy`: copies `Count` bytes from offset `SrcOff` of
`Src` to offset `DestOff` of `Dest`.  Faults when either byte range leaves its
array. -/
def Memcpy (Dest : List Nat) (DestOff : Nat) (Src : List Nat) (SrcOff Count : Nat) :
    Option (List Nat) :=
  if DestOff + Count ≤ Dest.length ∧ SrcOff + Count ≤ Src.length then
    some (Dest.take DestOff ++ ((Src.drop SrcOff).take Count ++ Dest.drop (DestOff + Count)))
  else none

/-- Checked `FMemory::Memzero`: zeroes `Count` bytes at offset `DestOff` of
`Dest`.  Faults when the byte range leaves the array. -/
def Memzero (Dest : List Nat) (DestOff Count : Nat) : Option (List Nat) :=
  if DestOff + Count ≤ Dest.length then
    some (Dest.take DestOff ++ (List.replicate Count 0 ++ Dest.drop (DestOff + Count)))
  else none

/-- The value bundle `FCopyRowData`.  `DestData` is the offset of the
destination pointer inside `AtlasData`; `SrcData` points to the first byte of
the source array and is represented by that array. -/
structure FCopyRowData where
  SrcData : List Nat
  DestData : Nat
  SrcRow : Nat
  DestRow : Nat
  RowWidth : Nat
  SrcTextureWidth : Nat
  DestTextureWidth : Nat
  deriving DecidableEq, Repr

/-- `FSlateTextureAtlas::CopyRow`, acting on the atlas buffer. -/
def CopyRow (PaddingStyle : ESlateTextureAtlasPaddingStyle) (Stride : Nat)
    (AtlasData : List Nat) (CopyRowData : FCopyRowData) : Option (List Nat) :=
  let Data := CopyRowData.SrcData
  let Start := CopyRowData.DestData
  let SourceWidth := CopyRowData.SrcTextureWidth
  let DestWidth := CopyRowData.DestTextureWidth
  let SrcRow := CopyRowData.SrcRow
  let DestRow := CopyRowData.DestRow
  let Padding := PaddingOf PaddingStyle
  let SourceDataAddr := u32 (u32 (SrcRow * SourceWidth) * Stride)
  let DestDataAddr := Start + u32 (u32 (u32 (DestRow * DestWidth) + Padding) * Stride)
  match Memcpy AtlasData DestDataAddr Data SourceDataAddr (u32 (SourceWidth * Stride)) with
  | none => none
  | some Buf1 =>
    if Padding > 0 then
      let DestPaddingPixelLeft := Start + u32 (u32 (DestRow * DestWidth) * Stride)
      let DestPaddingPixelRight :=
        DestPaddingPixelLeft + u32 (u32sub CopyRowData.RowWidth 1 * Stride)
      if PaddingStyle = DilateBorder then
        let FirstPixel := SourceDataAddr
        let LastPixel := SourceDataAddr + u32 (u32sub SourceWidth 1 * Stride)
        match Memcpy Buf1 DestPaddingPixelLeft Data FirstPixel Stride with
        | none => none
        | some Buf2 => Memcpy Buf2 DestPaddingPixelRight Data LastPixel Stride
      else
        match Memzero Buf1 DestPaddingPixelLeft Stride with
        | none => none
        | some Buf2 => Memzero Buf2 DestPaddingPixelRight Stride
    else some Buf1

/-- `FSlateTextureAtlas::ZeroRow`, acting on the atlas buffer. -/
def ZeroRow (Stride : Nat) (AtlasData : List Nat) (CopyRowData : FCopyRowData) :
    Option (List Nat) :=
  let DestWidth := CopyRowData.DestTextureWidth
  let DestRow := CopyRowData.DestRow
  let DestDataAddr := CopyRowData.DestData + u32 (u32 (DestRow * DestWidth) * Stride)
  Memzero AtlasData DestDataAddr (u32 (CopyRowData.RowWidth * Stride))

/-- The row loop of `CopyDataIntoSlot`,
`for (Row = Padding; Row < Height - Padding; ++Row)`: the first argument is
the number of iterations left, the second the current `Row`. -/
def CopyRows (PaddingStyle : ESlateTextureAtlasPaddingStyle) (Stride : Nat)
    (CopyRowData : FCopyRowData) (Padding : Nat) :
    Nat → Nat → List Nat → Option (List Nat)
  | 0, _, AtlasData => some AtlasData
  | n + 1, Row, AtlasData =>
    match CopyRow PaddingStyle Stride AtlasData
        { CopyRowData with SrcRow := u32sub Row Padding, DestRow := Row } with
    | none => none
    | some Buf1 => CopyRows PaddingStyle Stride CopyRowData Padding n (Row + 1) Buf1

/-- `FSlateTextureAtlas::CopyDataIntoSlot`: returns the atlas buffer after the
copy.  `SlotToCopyTo` is the slot the pointer refers to.  Taking the address
`&AtlasData[...]` accesses no byte; the accesses are those of `CopyRow` and
`ZeroRow`. -/
def CopyDataIntoSlot (Atlas : FSlateTextureAtlas) (SlotToCopyTo : FAtlasedTextureSlot)
    (Data : List Nat) : Option (List Nat) :=
  let Start := u32 (u32 (u32 (SlotToCopyTo.Y * Atlas.AtlasWidth) * Atlas.Stride)
    + u32 (SlotToCopyTo.X * Atlas.Stride))
  let Padding := PaddingOf Atlas.PaddingStyle
  let AllPadding := u32 (Padding * 2)
  let SourceWidth := u32sub SlotToCopyTo.Width AllPadding
  let SourceHeight := u32sub SlotToCopyTo.Height AllPadding
  let CopyRowData : FCopyRowData :=
    { SrcData := Data, DestData := Start, SrcRow := 0, DestRow := 0,
      RowWidth := SlotToCopyTo.Width, SrcTextureWidth := SourceWidth,
      DestTextureWidth := Atlas.AtlasWidth }
  let First : Option (List Nat) :=
    if Padding > 0 then
      if Atlas.PaddingStyle = DilateBorder then
        CopyRow Atlas.PaddingStyle Atlas.Stride Atlas.AtlasData
          { CopyRowData with SrcRow := 0, DestRow := 0 }
      else
        ZeroRow Atlas.Stride Atlas.AtlasData { CopyRowData with SrcRow := 0, DestRow := 0 }
    else some Atlas.AtlasData
  match First with
  | none => none
  | some Buf1 =>
    match CopyRows Atlas.PaddingStyle Atlas.Stride CopyRowData Padding
        (u32sub SlotToCopyTo.Height Padding - Padding) Padding Buf1 with
    | none => none
    | some Buf2 =>
      if Padding > 0 then
        if Atlas.PaddingStyle = DilateBorder then
          CopyRow Atlas.PaddingStyle Atlas.Stride Buf2
            { CopyRowData with SrcRow := u32sub SourceHeight 1,
                               DestRow := u32sub SlotToCopyTo.Height Padding }
        else
          ZeroRow Atlas.Stride Buf2
            { CopyRowData with SrcRow := u32sub SourceHeight 1,
                               DestRow := u32sub SlotToCopyTo.Height Padding }
      else some Buf2

/-! ## The atlas -/

/-- `FSlateTextureAtlas::MarkTextureDirty` (the thread check is taken to
hold: the atlas is single-threaded by contract). -/
def MarkTextureDirty (Atlas : FSlateTextureAtlas) : FSlateTextureAtlas :=
  { Atlas with bNeedsUpdate := true }

/-- The argument of `AtlasData.Reserve` and `AtlasData.AddZeroed` in
`InitAtlasData`: the `uint32` product `AtlasWidth * AtlasHeight * Stride`,
received by `TArray` as an `int32` count. -/
def AllocationCount (Atlas : FSlateTextureAtlas) : Int :=
  toInt32 (u32 (u32 (Atlas.AtlasWidth * Atlas.AtlasHeight) * Atlas.Stride))

/-- `FSlateTextureAtlas::InitAtlasData`; a failed `check` is `none`.
`Reserve` and `AddZeroed` belong to `TArray`, which is outside the sources
read here.  The buffer gets as many zero bytes as the `uint32` value of the
count, which is what those calls add when `AllocationCount` is not negative,
that is when the value is below `2 ^ 31`.  For a value of `2 ^ 31` or more the
calls receive a negative count; that case is outside the model, and what is
stated about the allocation of `InitAtlasData` carries the bound. -/
def InitAtlasData (Atlas : FSlateTextureAtlas) : Option FSlateTextureAtlas :=
  if Atlas.RootNode.isSet = false ∧ Atlas.AtlasData.length = 0 then
    some { Atlas with
      RootNode := node 0 0 Atlas.AtlasWidth Atlas.AtlasHeight
        (if Atlas.PaddingStyle = NoPadding then 0 else 1) null null
      AtlasData := Atlas.AtlasData ++
        List.replicate (u32 (u32 (Atlas.AtlasWidth * Atlas.AtlasHeight) * Atlas.Stride)) 0 }
  else none

/-- `FSlateTextureAtlas::AddTexture`.  The outer `none` is a fault (null root
or a byte range outside its array); otherwise the result is the returned
pointer (`none` for `nullptr`) and the atlas after the call. -/
def AddTexture (Atlas : FSlateTextureAtlas) (TextureWidth TextureHeight : Nat)
    (Data : List Nat) : Option (Option (List Bool) × FSlateTextureAtlas) :=
  match FindSlotForTextureRoot Atlas TextureWidth TextureHeight with
  | none => none
  | some (none, Atlas1) => some (none, Atlas1)
  | some (some NewSlot, Atlas1) =>
    if TextureWidth > 0 ∧ TextureHeight > 0 then
      match CopyDataIntoSlot Atlas1 (Atlas1.RootNode.slotAt NewSlot) Data with
      | none => none
      | some Buf => some (some NewSlot, MarkTextureDirty { Atlas1 with AtlasData := Buf })
    else some (some NewSlot, Atlas1)

/-- A run of `AddTexture` calls, each request being `(TextureWidth,
TextureHeight, Data)`: the returned pointers in call order and the final
atlas; `none` when a call faults. -/
def AddTextures : FSlateTextureAtlas → List (Nat × Nat × List Nat) →
    Option (List (Option (List Bool)) × FSlateTextureAtlas)
  | Atlas, [] => some ([], Atlas)
  | Atlas, (w, h, d) :: rest =>
    match AddTexture Atlas w h d with
    | none => none
    | some (r, Atlas1) =>
      match AddTextures Atlas1 rest with
      | none => none
      | some (rs, Atlas2) => some (r :: rs, Atlas2)

/-! ## Specification vocabulary -/

namespace FAtlasedTextureSlot

/-- The tree with the subtree at a path replaced. -/
def replaceAt : FAtlasedTextureSlot → List Bool → FAtlasedTextureSlot → FAtlasedTextureSlot
  | _, [], s => s
  | null, _ :: _, _ => null
  | node X Y W H P l r, false :: p, s => node X Y W H P (replaceAt l p s) r
  | node X Y W H P l r, true :: p, s => node X Y W H P l (replaceAt r p s)

/-- The pixel `(px, py)` lies in the rectangle `[X, X+Width) x [Y, Y+Height)`
of the slot. -/
def InRect (s : FAtlasedTextureSlot) (px py : Nat) : Prop :=
  s.X ≤ px ∧ px < s.X + s.Width ∧ s.Y ≤ py ∧ py < s.Y + s.Height

/-- A childless slot: a candidate for new content. -/
def isLeaf : FAtlasedTextureSlot → Bool
  | node _ _ _ _ _ null null => true
  | _ => false

/-- The childless slots of a tree, left before right.  A slot with a child is
not one of them. -/
def leaves : FAtlasedTextureSlot → List FAtlasedTextureSlot
  | null => []
  | node X Y W H P l r =>
    if l.isSet || r.isSet then leaves l ++ leaves r else [node X Y W H P l r]

end FAtlasedTextureSlot

/-- The slots of the subtree lie inside the region with origin `(x, y)` and
size `w x h`, arranged as the packer arranges them: a childless slot sits at
the origin of its region; a slot with children sits at the origin and its
children are packed into the two parts of the region that a vertical or a
horizontal split leaves free. -/
inductive Packed : FAtlasedTextureSlot → Nat → Nat → Nat → Nat → Prop
  | leaf {X Y W H P w h : Nat} : W ≤ w → H ≤ h →
      Packed (node X Y W H P null null) X Y w h
  | vsplit {X Y W H P w h : Nat} {l r : FAtlasedTextureSlot} : W ≤ w → H ≤ h →
      Packed l X (Y + H) W (h - H) → Packed r (X + W) Y (w - W) h →
      Packed (node X Y W H P l r) X Y w h
  | hsplit {X Y W H P w h : Nat} {l r : FAtlasedTextureSlot} : W ≤ w → H ≤ h →
      Packed l (X + W) Y (w - W) H → Packed r X (Y + H) w (h - H) →
      Packed (node X Y W H P l r) X Y w h

/-- The local `TotalPadding` of the source: `Padding * 2`. -/
def TotalPadding (PaddingStyle : ESlateTextureAtlasPaddingStyle) : Nat :=
  u32 (PaddingOf PaddingStyle * 2)

/-- The slot at the path has both children set: it holds a texture. -/
def Occupied (t : FAtlasedTextureSlot) (p : List Bool) : Prop :=
  (slotAt t p).Left.isSet = true ∧ (slotAt t p).Right.isSet = true

/-- Two slots share a pixel: their rectangles `[X, X+Width) x [Y, Y+Height)`
intersect. -/
def Overlap (s1 s2 : FAtlasedTextureSlot) : Prop :=
  ∃ px py, InRect s1 px py ∧ InRect s2 px py

/-- A fresh 8 x 8 atlas with one byte per pixel, before `InitAtlasData`. -/
def sampleAtlas (PaddingStyle : ESlateTextureAtlasPaddingStyle) : FSlateTextureAtlas :=
  { AtlasData := [], RootNode := null, AtlasWidth := 8, AtlasHeight := 8, Stride := 1,
    PaddingStyle := PaddingStyle, bNeedsUpdate := false }

/-- The atlas `sampleAtlas` after `InitAtlasData`. -/
def sampleInit (PaddingStyle : ESlateTextureAtlasPaddingStyle) : FSlateTextureAtlas :=
  { AtlasData := List.replicate 64 0, RootNode := node 0 0 8 8 (PaddingOf PaddingStyle) null null,
    AtlasWidth := 8, AtlasHeight := 8, Stride := 1,
    PaddingStyle := PaddingStyle, bNeedsUpdate := false }

/-- Three requests: a 2 x 2 bitmap, a 1 x 1 bitmap and a zero-width one. -/
def sampleRequests : List (Nat × Nat × List Nat) :=
  [(2, 2, [1, 2, 3, 4]), (1, 1, [9]), (0, 3, [])]

/-- The `n` bytes of a buffer that start at byte offset `off`. -/
def ReadBytes (buf : List Nat) (off n : Nat) : List Nat := (buf.drop off).take n

/-- The bytes of pixel number `k` of a buffer whose pixels are `Stride` bytes
wide: the `Stride` bytes at offset `k * Stride`. -/
def Pixel (Stride : Nat) (buf : List Nat) (k : Nat) : List Nat :=
  ReadBytes buf (k * Stride) Stride

/-- The rows `lo ≤ r < hi` of a block of `Wd`-pixel rows, the block starting
at pixel `st` of a canvas `AW` pixels wide, have been written between `buf`
and `buf1`: pixel `c` of row `r` now is `f r c`, every pixel outside those
rows is as before, and the length is unchanged. -/
def RowsWritten (S AW st Wd lo hi : Nat) (f : Nat → Nat → List Nat)
    (buf buf1 : List Nat) : Prop :=
  buf1.length = buf.length ∧
  (∀ r c, lo ≤ r → r < hi → c < Wd → Pixel S buf1 (st + r * AW + c) = f r c) ∧
  (∀ k, (∀ r c, lo ≤ r → r < hi → c < Wd → k ≠ st + r * AW + c) →
    Pixel S buf1 k = Pixel S buf k)

/-- What the blit is expected to leave at pixel `(r, c)` of the region of a
slot, for a `W x H` source with pixels `Stride` bytes wide.  Without padding
the region is the source.  With `DilateBorder` the region is `(W+2) x (H+2)`
and holds the source pixel `(clamp (r-1), clamp (c-1))`.  With `PadWithZero`
the border pixels are zero and the interior is the source. -/
def ExpectedPixel (PaddingStyle : ESlateTextureAtlasPaddingStyle) (Stride : Nat)
    (Data : List Nat) (W H r c : Nat) : List Nat :=
  match PaddingStyle with
  | NoPadding => Pixel Stride Data (r * W + c)
  | DilateBorder => Pixel Stride Data (min (r - 1) (H - 1) * W + min (c - 1) (W - 1))
  | PadWithZero =>
    if r = 0 ∨ r = H + 1 ∨ c = 0 ∨ c = W + 1 then List.replicate Stride 0
    else Pixel Stride Data ((r - 1) * W + (c - 1))

/-- The state of an atlas whose buffer size did not wrap around: dimensions
are `uint32` values, the tree is packed into the canvas, and the buffer holds
exactly `AtlasWidth * AtlasHeight * Stride` bytes, fewer than `2 ^ 32`. -/
def AtlasInv (a : FSlateTextureAtlas) : Prop :=
  a.AtlasWidth < 2 ^ 32 ∧ a.AtlasHeight < 2 ^ 32 ∧
  Packed a.RootNode 0 0 a.AtlasWidth a.AtlasHeight ∧
  a.AtlasData.length = a.AtlasWidth * a.AtlasHeight * a.Stride ∧
  a.AtlasWidth * a.AtlasHeight * a.Stride < 2 ^ 32

/-- An atlas whose buffer size wraps around in `uint32`:
`1431655766 * AtlasHeight * 3` is `2 * AtlasHeight` modulo `2 ^ 32`. -/
def wrapAtlas (PaddingStyle : ESlateTextureAtlasPaddingStyle) (AtlasHeight : Nat) :
    FSlateTextureAtlas :=
  { AtlasData := [], RootNode := null, AtlasWidth := 1431655766, AtlasHeight := AtlasHeight,
    Stride := 3, PaddingStyle := PaddingStyle, bNeedsUpdate := false }

/-! ## Tear-down -/

/-- `FSlateTextureAtlas::DestroyNodes`.  The result is the sequence of slots
handed to `delete`, in call order, each named by its path below
`StartNode`; `none` is a fault: `StartNode->Left` is read first, so a null
`StartNode` is dereferenced. -/
def DestroyNodes : FAtlasedTextureSlot → Option (List (List Bool))
  | null => none
  | node _ _ _ _ _ Left Right =>
    match (if Left.isSet then DestroyNodes Left else some []) with
    | none => none
    | some DeletedLeft =>
      match (if Right.isSet then DestroyNodes Right else some []) with
      | none => none
      | some DeletedRight =>
        some (DeletedLeft.map (fun p => false :: p) ++
          DeletedRight.map (fun p => true :: p) ++ [[]])

/-- `FSlateTextureAtlas::Empty`: the slots deleted, in order, and the atlas
afterwards (`RootNode = nullptr`, `AtlasData.Empty()`); `none` when
`DestroyNodes` faults. -/
def Empty (Atlas : FSlateTextureAtlas) : Option (List (List Bool) × FSlateTextureAtlas) :=
  match DestroyNodes Atlas.RootNode with
  | none => none
  | some Deleted => some (Deleted, { Atlas with RootNode := null, AtlasData := [] })

/-- The slots of a tree, each named by its path, listed as the description of
the tear-down orders them: the left subtree, then the right subtree, then
the slot itself. -/
def postOrder : FAtlasedTextureSlot → List (List Bool)
  | null => []
  | node _ _ _ _ _ l r =>
    (postOrder l).map (fun p => false :: p) ++ (postOrder r).map (fun p => true :: p) ++ [[]]

/-- The paths of the childless slots of a tree, left before right: the order
in which the search of `FindSlotForTexture` reaches them. -/
def leafPaths : FAtlasedTextureSlot → List (List Bool)
  | null => []
  | node _ _ _ _ _ l r =>
    if l.isSet || r.isSet then
      (leafPaths l).map (fun p => false :: p) ++ (leafPaths r).map (fun p => true :: p)
    else [[]]

/-- The fit test of `FindSlotForTexture` on a slot, as the code computes it:
the padded sizes are `uint32` sums. -/
def Fits (PaddingStyle : ESlateTextureAtlasPaddingStyle) (InWidth InHeight : Nat)
    (s : FAtlasedTextureSlot) : Prop :=
  u32 (InWidth + TotalPadding PaddingStyle) ≤ s.Width ∧
  u32 (InHeight + TotalPadding PaddingStyle) ≤ s.Height

instance (PaddingStyle : ESlateTextureAtlasPaddingStyle) (InWidth InHeight : Nat)
    (s : FAtlasedTextureSlot) : Decidable (Fits PaddingStyle InWidth InHeight s) := by
  unfold Fits; infer_instance

/-- A run of the packer alone: `FindSlotForTexture` on each requested size in
turn, from a given tree; the returned pointers and the final tree. -/
def FindSlots (PaddingStyle : ESlateTextureAtlasPaddingStyle) :
    FAtlasedTextureSlot → List (Nat × Nat) → List (Option (List Bool)) × FAtlasedTextureSlot
  | t, [] => ([], t)
  | t, (w, h) :: rest =>
    let r := FindSlotForTexture PaddingStyle t w h
    let rs := FindSlots PaddingStyle r.2 rest
    (r.1 :: rs.1, rs.2)

/-- The area of a slot. -/
def Area (s : FAtlasedTextureSlot) : Nat := s.Width * s.Height

/-- The atlas `sampleInit` after the run `sampleRequests` of `AddTexture`
calls. -/
def sampleRun (PaddingStyle : ESlateTextureAtlasPaddingStyle) : FSlateTextureAtlas :=
  match AddTextures (sampleInit PaddingStyle) sampleRequests with
  | some (_, Atlas) => Atlas
  | none => sampleInit PaddingStyle

/-- What a call of `AddTexture` leaves to observe apart from the dirty flag:
the returned pointer, the slot tree and the buffer. -/
def Outcome (r : Option (List Bool) × FSlateTextureAtlas) :
    Option (List Bool) × FAtlasedTextureSlot × List Nat :=
  (r.1, r.2.RootNode, r.2.AtlasData)

/-- The atlas `sampleInit` once the packer has placed a 2 x 2 request in its
tree. -/
def samplePlaced (PaddingStyle : ESlateTextureAtlasPaddingStyle) : FSlateTextureAtlas :=
  { sampleInit PaddingStyle with
    RootNode := (FindSlotForTexture PaddingStyle (sampleInit PaddingStyle).RootNode 2 2).2 }

/-- The destructor `FSlateTextureAtlas::~FSlateTextureAtlas`, which calls
`Empty`. -/
def Destructor (Atlas : FSlateTextureAtlas) : Option (List (List Bool) × FSlateTextureAtlas) :=
  Empty Atlas

/-! ## Exact tiling -/

/-- The slots of the subtree tile the region with origin `(x, y)` and size
`w x h` exactly: a childless slot is the region itself; a slot with children
sits at the origin and its children tile the two parts of the region that a
vertical or a horizontal split leaves free. -/
inductive Tiled : FAtlasedTextureSlot → Nat → Nat → Nat → Nat → Prop
  | leaf {X Y W H P : Nat} : Tiled (node X Y W H P null null) X Y W H
  | vsplit {X Y W H P w h : Nat} {l r : FAtlasedTextureSlot} : W ≤ w → H ≤ h →
      Tiled l X (Y + H) W (h - H) → Tiled r (X + W) Y (w - W) h →
      Tiled (node X Y W H P l r) X Y w h
  | hsplit {X Y W H P w h : Nat} {l r : FAtlasedTextureSlot} : W ≤ w → H ≤ h →
      Tiled l (X + W) Y (w - W) H → Tiled r X (Y + H) w (h - H) →
      Tiled (node X Y W H P l r) X Y w h

/-- The sum of the areas `Width * Height` of all slots of a tree. -/
def totalArea : FAtlasedTextureSlot → Nat
  | null => 0
  | node _ _ W H _ l r => W * H + totalArea l + totalArea r

/-! ## Visual logger: frame cache item -/

/-- The struct `FVisualLoggerBinaryFileDevice::FFrameCacheItem`.  The types
`FName` and `FVisualLogEntry` are declared outside the sources read here and
are left as parameters. -/
structure FFrameCacheItem (FName FVisualLogEntry : Type) where
  OwnerName : FName
  Entry : FVisualLogEntry

/-- The constructor
`FFrameCacheItem(FName InOwnerName, const FVisualLogEntry& LogEntry)
  : OwnerName(OwnerName), Entry(LogEntry)`.
The initialiser of `OwnerName` names the member, not the parameter
`InOwnerName`: the member is copied from itself, so it keeps what its storage
held before the construction, given here as `Storage`. -/
def FFrameCacheItem.construct {FName FVisualLogEntry : Type} (Storage : FName)
    (_InOwnerName : FName) (LogEntry : FVisualLogEntry) :
    FFrameCacheItem FName FVisualLogEntry :=
  { OwnerName := Storage, Entry := LogEntry }

/-! ## Theorems -/

theorem u32_lt (v : Nat) : u32 v < 2 ^ 32 := Nat.mod_lt _ (by norm_num)

theorem u32_of_lt {v : Nat} (h : v < 2 ^ 32) : u32 v = v := Nat.mod_eq_of_lt h

theorem u32_le (v : Nat) : u32 v ≤ v := Nat.mod_le _ _

theorem u32sub_of_le {a b : Nat} (hb : b ≤ a) (ha : a < 2 ^ 32) : u32sub a b = a - b := by
  unfold u32sub u32
  split <;> omega

theorem u32sub_lt (a b : Nat) : u32sub a b < 2 ^ 32 := by
  unfold u32sub u32
  split <;> omega

theorem MaxInt32Zero_le {v : Nat} (h : v < 2 ^ 32) : MaxInt32Zero v ≤ v := by
  unfold MaxInt32Zero ofInt32 toInt32 u32
  split <;> omega

theorem MaxInt32Zero_of_lt {v : Nat} (h : v < 2 ^ 31) : MaxInt32Zero v = v := by
  unfold MaxInt32Zero ofInt32 toInt32 u32
  split <;> omega

/-! ### The packer: unfolding -/

theorem isSet_eq_false {t : FAtlasedTextureSlot} (h : t.isSet = false) : t = null := by
  cases t <;> simp_all [isSet]

theorem isSet_node (X Y W H P : Nat) (l r : FAtlasedTextureSlot) :
    (node X Y W H P l r).isSet = true := rfl

theorem slotAt_null (p : List Bool) : slotAt null p = null := by
  cases p <;> rfl

theorem find_null (ps : ESlateTextureAtlasPaddingStyle) (w h : Nat) :
    FindSlotForTexture ps null w h = (none, null) := rfl

theorem find_interior (ps : ESlateTextureAtlasPaddingStyle) (X Y W H P : Nat)
    (l r : FAtlasedTextureSlot) (w h : Nat) (hc : (l.isSet || r.isSet) = true) :
    FindSlotForTexture ps (node X Y W H P l r) w h =
      match FindSlotForTexture ps l w h with
      | (some p, l1) => (some (false :: p), node X Y W H P l1 r)
      | (none, l1) =>
        match FindSlotForTexture ps r w h with
        | (some p, r1) => (some (true :: p), node X Y W H P l1 r1)
        | (none, r1) => (none, node X Y W H P l1 r1) := by
  have gl : (if l.isSet then FindSlotForTexture ps l w h else (none, l))
      = FindSlotForTexture ps l w h := by
    cases l <;> simp [isSet, find_null]
  have gr : (if r.isSet then FindSlotForTexture ps r w h else (none, r))
      = FindSlotForTexture ps r w h := by
    cases r <;> simp [isSet, find_null]
  rw [FindSlotForTexture]
  simp only [hc, if_true, gl, gr]

theorem find_leaf (ps : ESlateTextureAtlasPaddingStyle) (X Y W H P w h : Nat) :
    FindSlotForTexture ps (node X Y W H P null null) w h =
      if u32 (w + u32 (PaddingOf ps * 2)) > W ∨ u32 (h + u32 (PaddingOf ps * 2)) > H then
        (none, node X Y W H P null null)
      else if MaxInt32Zero (u32sub H (u32 (h + u32 (PaddingOf ps * 2))))
          ≤ MaxInt32Zero (u32sub W (u32 (w + u32 (PaddingOf ps * 2)))) then
        (some [], node X Y (u32 (w + u32 (PaddingOf ps * 2))) (u32 (h + u32 (PaddingOf ps * 2))) P
          (node X (u32 (Y + u32 (h + u32 (PaddingOf ps * 2))))
            (u32 (w + u32 (PaddingOf ps * 2)))
            (MaxInt32Zero (u32sub H (u32 (h + u32 (PaddingOf ps * 2))))) (PaddingOf ps) null null)
          (node (u32 (X + u32 (w + u32 (PaddingOf ps * 2)))) Y
            (MaxInt32Zero (u32sub W (u32 (w + u32 (PaddingOf ps * 2))))) H (PaddingOf ps) null null))
      else
        (some [], node X Y (u32 (w + u32 (PaddingOf ps * 2))) (u32 (h + u32 (PaddingOf ps * 2))) P
          (node (u32 (X + u32 (w + u32 (PaddingOf ps * 2)))) Y
            (MaxInt32Zero (u32sub W (u32 (w + u32 (PaddingOf ps * 2)))))
            (u32 (h + u32 (PaddingOf ps * 2))) (PaddingOf ps) null null)
          (node X (u32 (Y + u32 (h + u32 (PaddingOf ps * 2)))) W
            (MaxInt32Zero (u32sub H (u32 (h + u32 (PaddingOf ps * 2))))) (PaddingOf ps) null null)) := by
  rw [FindSlotForTexture]
  simp only [isSet, Bool.or_self, Bool.false_eq_true, if_false]

theorem not_interior {l r : FAtlasedTextureSlot} (hc : ¬ (l.isSet || r.isSet) = true) :
    l = null ∧ r = null := by
  cases l <;> cases r <;> simp_all [isSet]

/-- A failed search leaves the tree as it was. -/
theorem find_none (ps : ESlateTextureAtlasPaddingStyle) (w h : Nat) :
    ∀ (t t1 : FAtlasedTextureSlot), FindSlotForTexture ps t w h = (none, t1) → t1 = t := by
  intro t
  induction t with
  | null => intro t1 h1; simp [find_null] at h1; exact h1.symm
  | node X Y W H P l r ihl ihr =>
    intro t1 h1
    by_cases hc : (l.isSet || r.isSet) = true
    · rw [find_interior ps X Y W H P l r w h hc] at h1
      rcases hL : FindSlotForTexture ps l w h with ⟨_ | p, l1⟩
      · rcases hR : FindSlotForTexture ps r w h with ⟨_ | q, r1⟩
        · simp only [hL, hR] at h1
          have e1 := ihl l1 hL
          have e2 := ihr r1 hR
          subst e1 e2
          simpa using h1.symm
        · simp [hL, hR] at h1
      · simp [hL] at h1
    · obtain ⟨rfl, rfl⟩ := not_interior hc
      rw [find_leaf] at h1
      split at h1
      · simpa using h1.symm
      · split at h1 <;> simp at h1

theorem slotAt_nil (t : FAtlasedTextureSlot) : slotAt t [] = t := by
  cases t <;> rfl

theorem replaceAt_nil (t s : FAtlasedTextureSlot) : replaceAt t [] s = s := by
  cases t <;> rfl

theorem slotAt_replaceAt_self (s : FAtlasedTextureSlot) :
    ∀ (t : FAtlasedTextureSlot) (p : List Bool), (slotAt t p).isSet = true →
      slotAt (replaceAt t p s) p = s := by
  intro t
  induction t with
  | null =>
    intro p hp
    cases p with
    | nil => simp [slotAt_nil, isSet] at hp
    | cons b p => simp [slotAt, isSet] at hp
  | node X Y W H P l r ihl ihr =>
    intro p hp
    match p with
    | [] => rw [replaceAt_nil, slotAt_nil]
    | false :: p => exact ihl p hp
    | true :: p => exact ihr p hp

/-- A successful search returns a pointer to a slot that was childless, and
changes the tree only by replacing that slot with what the search of the
slot alone produces. -/
theorem find_some (ps : ESlateTextureAtlasPaddingStyle) (w h : Nat) :
    ∀ (t t1 : FAtlasedTextureSlot) (p : List Bool),
      FindSlotForTexture ps t w h = (some p, t1) →
      ∃ X Y W H P s, slotAt t p = node X Y W H P null null ∧
        FindSlotForTexture ps (node X Y W H P null null) w h = (some [], s) ∧
        t1 = replaceAt t p s := by
  intro t
  induction t with
  | null => intro t1 p h1; simp [find_null] at h1
  | node X Y W H P l r ihl ihr =>
    intro t1 p h1
    by_cases hc : (l.isSet || r.isSet) = true
    · rw [find_interior ps X Y W H P l r w h hc] at h1
      rcases hL : FindSlotForTexture ps l w h with ⟨_ | q, l1⟩
      · rcases hR : FindSlotForTexture ps r w h with ⟨_ | q, r1⟩
        · simp [hL, hR] at h1
        · simp only [hL, hR, Prod.mk.injEq, Option.some.injEq] at h1
          obtain ⟨rfl, rfl⟩ := h1
          have e1 := find_none ps w h l l1 hL
          subst e1
          obtain ⟨X1, Y1, W1, H1, P1, s, h2, h3, h4⟩ := ihr r1 q hR
          exact ⟨X1, Y1, W1, H1, P1, s, h2, h3, by rw [h4]; rfl⟩
      · simp only [hL, Prod.mk.injEq, Option.some.injEq] at h1
        obtain ⟨rfl, rfl⟩ := h1
        obtain ⟨X1, Y1, W1, H1, P1, s, h2, h3, h4⟩ := ihl l1 q hL
        exact ⟨X1, Y1, W1, H1, P1, s, h2, h3, by rw [h4]; rfl⟩
    · obtain ⟨rfl, rfl⟩ := not_interior hc
      have h2 := h1
      rw [find_leaf] at h2
      have hp : p = [] := by
        split at h2
        · simp at h2
        · split at h2 <;> simp at h2 <;> exact h2.1
      subst hp
      exact ⟨X, Y, W, H, P, t1, slotAt_nil _, h1, (replaceAt_nil _ _).symm⟩

/-! ### The packing invariant -/

theorem X_node (X Y W H P : Nat) (l r : FAtlasedTextureSlot) :
    (node X Y W H P l r).X = X := rfl

theorem Y_node (X Y W H P : Nat) (l r : FAtlasedTextureSlot) :
    (node X Y W H P l r).Y = Y := rfl

theorem Width_node (X Y W H P : Nat) (l r : FAtlasedTextureSlot) :
    (node X Y W H P l r).Width = W := rfl

theorem Height_node (X Y W H P : Nat) (l r : FAtlasedTextureSlot) :
    (node X Y W H P l r).Height = H := rfl

theorem Left_node (X Y W H P : Nat) (l r : FAtlasedTextureSlot) :
    (node X Y W H P l r).Left = l := rfl

theorem Right_node (X Y W H P : Nat) (l r : FAtlasedTextureSlot) :
    (node X Y W H P l r).Right = r := rfl

theorem Packed.nonnull {t : FAtlasedTextureSlot} {x y w h : Nat} (hp : Packed t x y w h) :
    t.isSet = true := by
  cases hp <;> rfl

theorem Packed.origin {t : FAtlasedTextureSlot} {x y w h : Nat} (hp : Packed t x y w h) :
    t.X = x ∧ t.Y = y ∧ t.Width ≤ w ∧ t.Height ≤ h := by
  cases hp <;> simp [X_node, Y_node, Width_node, Height_node, *]

theorem Packed.mono {t : FAtlasedTextureSlot} {x y w h : Nat} (hp : Packed t x y w h) :
    ∀ {w1 h1 : Nat}, w ≤ w1 → h ≤ h1 → Packed t x y w1 h1 := by
  induction hp with
  | leaf hw hh => intro w1 h1 h2 h3; exact Packed.leaf (by omega) (by omega)
  | vsplit hw hh _ _ ihl ihr =>
    intro w1 h1 h2 h3
    exact Packed.vsplit (by omega) (by omega) (ihl (le_refl _) (by omega))
      (ihr (by omega) (by omega))
  | hsplit hw hh _ _ ihl ihr =>
    intro w1 h1 h2 h3
    exact Packed.hsplit (by omega) (by omega) (ihl (by omega) (le_refl _))
      (ihr (by omega) (by omega))

/-- Every slot of a packed tree lies inside the region of the tree. -/
theorem Packed.bounds {t : FAtlasedTextureSlot} {x y w h : Nat} (hp : Packed t x y w h) :
    ∀ (p : List Bool), (slotAt t p).isSet = true →
      x ≤ (slotAt t p).X ∧ (slotAt t p).X + (slotAt t p).Width ≤ x + w ∧
      y ≤ (slotAt t p).Y ∧ (slotAt t p).Y + (slotAt t p).Height ≤ y + h := by
  induction hp with
  | leaf hw hh =>
    intro p hs
    match p with
    | [] => simp only [slotAt, X_node, Y_node, Width_node, Height_node]; omega
    | false :: p => simp [slotAt, slotAt_null, FAtlasedTextureSlot.isSet] at hs
    | true :: p => simp [slotAt, slotAt_null, FAtlasedTextureSlot.isSet] at hs
  | vsplit hw hh _ _ ihl ihr =>
    intro p hs
    match p with
    | [] => simp only [slotAt, X_node, Y_node, Width_node, Height_node]; omega
    | false :: p => have := ihl p hs; simp only [slotAt]; omega
    | true :: p => have := ihr p hs; simp only [slotAt]; omega
  | hsplit hw hh _ _ ihl ihr =>
    intro p hs
    match p with
    | [] => simp only [slotAt, X_node, Y_node, Width_node, Height_node]; omega
    | false :: p => have := ihl p hs; simp only [slotAt]; omega
    | true :: p => have := ihr p hs; simp only [slotAt]; omega

/-- Two different slots of a packed tree share no pixel. -/
theorem Packed.disjoint {t : FAtlasedTextureSlot} {x y w h : Nat} (hp : Packed t x y w h) :
    ∀ (p q : List Bool), p ≠ q → (slotAt t p).isSet = true → (slotAt t q).isSet = true →
      ∀ px py, ¬ (InRect (slotAt t p) px py ∧ InRect (slotAt t q) px py) := by
  induction hp with
  | leaf hw hh =>
    intro p q hne hs1 hs2
    match p, q with
    | [], [] => exact absurd rfl hne
    | _ :: p, _ => cases ‹Bool› <;> simp [slotAt, slotAt_null, FAtlasedTextureSlot.isSet] at hs1
    | [], _ :: q => cases ‹Bool› <;> simp [slotAt, slotAt_null, FAtlasedTextureSlot.isSet] at hs2
  | @vsplit X Y W H P w h l r hw hh hl hr ihl ihr =>
    intro p q hne hs1 hs2 px py
    match p, q with
    | [], [] => exact absurd rfl hne
    | [], false :: q =>
      have b := hl.bounds q hs2
      simp only [slotAt, InRect, X_node, Y_node, Width_node, Height_node]; omega
    | [], true :: q =>
      have b := hr.bounds q hs2
      simp only [slotAt, InRect, X_node, Y_node, Width_node, Height_node]; omega
    | false :: p, [] =>
      have b := hl.bounds p hs1
      simp only [slotAt, InRect, X_node, Y_node, Width_node, Height_node]; omega
    | true :: p, [] =>
      have b := hr.bounds p hs1
      simp only [slotAt, InRect, X_node, Y_node, Width_node, Height_node]; omega
    | false :: p, false :: q => exact ihl p q (by simpa using hne) hs1 hs2 px py
    | true :: p, true :: q => exact ihr p q (by simpa using hne) hs1 hs2 px py
    | false :: p, true :: q =>
      have b1 := hl.bounds p hs1
      have b2 := hr.bounds q hs2
      simp only [slotAt, InRect]; omega
    | true :: p, false :: q =>
      have b1 := hr.bounds p hs1
      have b2 := hl.bounds q hs2
      simp only [slotAt, InRect]; omega
  | @hsplit X Y W H P w h l r hw hh hl hr ihl ihr =>
    intro p q hne hs1 hs2 px py
    match p, q with
    | [], [] => exact absurd rfl hne
    | [], false :: q =>
      have b := hl.bounds q hs2
      simp only [slotAt, InRect, X_node, Y_node, Width_node, Height_node]; omega
    | [], true :: q =>
      have b := hr.bounds q hs2
      simp only [slotAt, InRect, X_node, Y_node, Width_node, Height_node]; omega
    | false :: p, [] =>
      have b := hl.bounds p hs1
      simp only [slotAt, InRect, X_node, Y_node, Width_node, Height_node]; omega
    | true :: p, [] =>
      have b := hr.bounds p hs1
      simp only [slotAt, InRect, X_node, Y_node, Width_node, Height_node]; omega
    | false :: p, false :: q => exact ihl p q (by simpa using hne) hs1 hs2 px py
    | true :: p, true :: q => exact ihr p q (by simpa using hne) hs1 hs2 px py
    | false :: p, true :: q =>
      have b1 := hl.bounds p hs1
      have b2 := hr.bounds q hs2
      simp only [slotAt, InRect]; omega
    | true :: p, false :: q =>
      have b1 := hr.bounds p hs1
      have b2 := hl.bounds q hs2
      simp only [slotAt, InRect]; omega

/-! ### The packer keeps the invariant -/

theorem TotalPadding_eq (ps : ESlateTextureAtlasPaddingStyle) :
    TotalPadding ps = if ps = NoPadding then 0 else 2 := by
  cases ps <;> rfl

/-- What the search of a childless slot returns when it succeeds. -/
theorem find_leaf_some {ps : ESlateTextureAtlasPaddingStyle} {X Y W H P w h : Nat}
    {p : List Bool} {s : FAtlasedTextureSlot}
    (hf : FindSlotForTexture ps (node X Y W H P null null) w h = (some p, s)) :
    p = [] ∧ u32 (w + TotalPadding ps) ≤ W ∧ u32 (h + TotalPadding ps) ≤ H ∧
      s.X = X ∧ s.Y = Y ∧ s.Width = u32 (w + TotalPadding ps) ∧
      s.Height = u32 (h + TotalPadding ps) ∧
      s.Left.isSet = true ∧ s.Right.isSet = true ∧ s.isSet = true := by
  rw [find_leaf] at hf
  unfold TotalPadding
  split at hf
  · simp at hf
  · rename_i hfit
    split at hf <;>
    · simp only [Prod.mk.injEq, Option.some.injEq] at hf
      obtain ⟨rfl, rfl⟩ := hf
      exact ⟨rfl, by omega, by omega, rfl, rfl, rfl, rfl, rfl, rfl, rfl⟩

theorem find_leaf_packed {ps : ESlateTextureAtlasPaddingStyle} {X Y W H P w h : Nat}
    {p : List Bool} {s : FAtlasedTextureSlot}
    (hf : FindSlotForTexture ps (node X Y W H P null null) w h = (some p, s))
    (hx : X + W < 2 ^ 32) (hy : Y + H < 2 ^ 32) : Packed s X Y W H := by
  rw [find_leaf] at hf
  split at hf
  · simp at hf
  · rename_i hfit
    have hW : W < 2 ^ 32 := by omega
    have hH : H < 2 ^ 32 := by omega
    have e1 := u32sub_of_le (a := W) (b := u32 (w + u32 (PaddingOf ps * 2))) (by omega) hW
    have e2 := u32sub_of_le (a := H) (b := u32 (h + u32 (PaddingOf ps * 2))) (by omega) hH
    have m1 := MaxInt32Zero_le (v := W - u32 (w + u32 (PaddingOf ps * 2))) (by omega)
    have m2 := MaxInt32Zero_le (v := H - u32 (h + u32 (PaddingOf ps * 2))) (by omega)
    have a1 : u32 (X + u32 (w + u32 (PaddingOf ps * 2)))
        = X + u32 (w + u32 (PaddingOf ps * 2)) := u32_of_lt (by omega)
    have a2 : u32 (Y + u32 (h + u32 (PaddingOf ps * 2)))
        = Y + u32 (h + u32 (PaddingOf ps * 2)) := u32_of_lt (by omega)
    rw [e1, e2, a1, a2] at hf
    split at hf
    · simp only [Prod.mk.injEq, Option.some.injEq] at hf
      obtain ⟨_, rfl⟩ := hf
      exact Packed.vsplit (by omega) (by omega) (Packed.leaf (le_refl _) m2)
        (Packed.leaf m1 (le_refl _))
    · simp only [Prod.mk.injEq, Option.some.injEq] at hf
      obtain ⟨_, rfl⟩ := hf
      exact Packed.hsplit (by omega) (by omega) (Packed.leaf m1 (le_refl _))
        (Packed.leaf (le_refl _) m2)

theorem Packed.replace_leaf {t : FAtlasedTextureSlot} {x y w h : Nat} (hp : Packed t x y w h)
    {X Y W H P : Nat} {s : FAtlasedTextureSlot} (hs : Packed s X Y W H) :
    ∀ (p : List Bool), slotAt t p = node X Y W H P null null →
      Packed (FAtlasedTextureSlot.replaceAt t p s) x y w h := by
  induction hp with
  | leaf hw hh =>
    intro p hp
    match p with
    | [] =>
      simp only [slotAt, node.injEq] at hp
      obtain ⟨rfl, rfl, rfl, rfl, _⟩ := hp
      rw [replaceAt_nil]
      exact hs.mono hw hh
    | false :: p => simp [slotAt, slotAt_null] at hp
    | true :: p => simp [slotAt, slotAt_null] at hp
  | vsplit hw hh hl hr ihl ihr =>
    intro p hp
    match p with
    | [] =>
      simp only [slotAt, node.injEq] at hp
      have := hl.nonnull
      simp [hp.2.2.2.2.2.1, FAtlasedTextureSlot.isSet] at this
    | false :: p => exact Packed.vsplit hw hh (ihl p hp) hr
    | true :: p => exact Packed.vsplit hw hh hl (ihr p hp)
  | hsplit hw hh hl hr ihl ihr =>
    intro p hp
    match p with
    | [] =>
      simp only [slotAt, node.injEq] at hp
      have := hl.nonnull
      simp [hp.2.2.2.2.2.1, FAtlasedTextureSlot.isSet] at this
    | false :: p => exact Packed.hsplit hw hh (ihl p hp) hr
    | true :: p => exact Packed.hsplit hw hh hl (ihr p hp)

/-- The packer keeps the tree packed into its region. -/
theorem find_packed {ps : ESlateTextureAtlasPaddingStyle} {t t1 : FAtlasedTextureSlot}
    {x y w h rw rh : Nat} {r : Option (List Bool)} (hp : Packed t x y w h)
    (hx : x + w < 2 ^ 32) (hy : y + h < 2 ^ 32)
    (hf : FindSlotForTexture ps t rw rh = (r, t1)) : Packed t1 x y w h := by
  cases r with
  | none => rw [find_none ps rw rh t t1 hf]; exact hp
  | some p =>
    obtain ⟨X, Y, W, H, P, s, h1, h2, h3⟩ := find_some ps rw rh t t1 p hf
    have b := hp.bounds p (by rw [h1]; rfl)
    rw [h1] at b
    simp only [X_node, Y_node, Width_node, Height_node] at b
    rw [h3]
    exact hp.replace_leaf (find_leaf_packed h2 (by omega) (by omega)) p h1

/-! ### Slots already in the tree are left alone -/

theorem replaceAt_isSet {s : FAtlasedTextureSlot} (hs : s.isSet = true) :
    ∀ (t : FAtlasedTextureSlot) (p : List Bool), (slotAt t p).isSet = true →
      (FAtlasedTextureSlot.replaceAt t p s).isSet = true := by
  intro t p hp
  match t, p with
  | t, [] => rw [replaceAt_nil]; exact hs
  | null, _ :: p => simp [slotAt, FAtlasedTextureSlot.isSet] at hp
  | node _ _ _ _ _ _ _, false :: p => rfl
  | node _ _ _ _ _ _ _, true :: p => rfl

/-- Replacing a childless slot by a slot changes no field of any other slot
of the tree and unsets no child pointer. -/
theorem replaceAt_frame {s : FAtlasedTextureSlot} (hs : s.isSet = true) :
    ∀ (t : FAtlasedTextureSlot) (p q : List Bool), (slotAt t p).isLeaf = true → q ≠ p →
      (slotAt t q).isSet = true →
      (slotAt (FAtlasedTextureSlot.replaceAt t p s) q).isSet = true ∧
      (slotAt (FAtlasedTextureSlot.replaceAt t p s) q).X = (slotAt t q).X ∧
      (slotAt (FAtlasedTextureSlot.replaceAt t p s) q).Y = (slotAt t q).Y ∧
      (slotAt (FAtlasedTextureSlot.replaceAt t p s) q).Width = (slotAt t q).Width ∧
      (slotAt (FAtlasedTextureSlot.replaceAt t p s) q).Height = (slotAt t q).Height ∧
      ((slotAt t q).Left.isSet = true →
        (slotAt (FAtlasedTextureSlot.replaceAt t p s) q).Left.isSet = true) ∧
      ((slotAt t q).Right.isSet = true →
        (slotAt (FAtlasedTextureSlot.replaceAt t p s) q).Right.isSet = true) := by
  intro t
  induction t with
  | null =>
    intro p q hl hne hq
    rw [slotAt_null] at hq
    simp [FAtlasedTextureSlot.isSet] at hq
  | node X Y W H P l r ihl ihr =>
    intro p q hl hne hq
    have leafSet : ∀ (u : FAtlasedTextureSlot) (k : List Bool),
        (slotAt u k).isLeaf = true → (slotAt u k).isSet = true := by
      intro u k hk
      cases hu : slotAt u k with
      | null => rw [hu] at hk; simp [FAtlasedTextureSlot.isLeaf] at hk
      | node _ _ _ _ _ _ _ => rfl
    match p, q with
    | [], [] => exact absurd rfl hne
    | [], b :: q =>
      rw [slotAt_nil] at hl
      cases l <;> cases r <;> simp [FAtlasedTextureSlot.isLeaf] at hl
      cases b <;> simp [slotAt, slotAt_null, FAtlasedTextureSlot.isSet] at hq
    | false :: p, [] =>
      simp only [FAtlasedTextureSlot.replaceAt, slotAt, X_node, Y_node, Width_node,
        Height_node, Left_node, Right_node, isSet_node, true_and, imp_self, and_true]
      intro _
      exact replaceAt_isSet hs l p (leafSet l p hl)
    | true :: p, [] =>
      simp only [FAtlasedTextureSlot.replaceAt, slotAt, X_node, Y_node, Width_node,
        Height_node, Left_node, Right_node, isSet_node, true_and, imp_self, and_true]
      intro _
      exact replaceAt_isSet hs r p (leafSet r p hl)
    | false :: p, false :: q => exact ihl p q hl (by simpa using hne) hq
    | true :: p, true :: q => exact ihr p q hl (by simpa using hne) hq
    | false :: p, true :: q =>
      simp only [FAtlasedTextureSlot.replaceAt, slotAt] at hq ⊢
      simp [hq]
    | true :: p, false :: q =>
      simp only [FAtlasedTextureSlot.replaceAt, slotAt] at hq ⊢
      simp [hq]

theorem Occupied.present {t : FAtlasedTextureSlot} {p : List Bool} (h : Occupied t p) :
    (slotAt t p).isSet = true := by
  unfold Occupied at h
  cases hs : slotAt t p with
  | null => rw [hs] at h; simp [FAtlasedTextureSlot.Left, FAtlasedTextureSlot.isSet] at h
  | node _ _ _ _ _ _ _ => rfl

/-- The effect of a successful search on the slots of the tree: the returned
slot was childless and now has both children; every slot that was there
before keeps its fields, and an occupied slot stays occupied. -/
theorem find_some_frame {ps : ESlateTextureAtlasPaddingStyle} {t t1 : FAtlasedTextureSlot}
    {w h : Nat} {p : List Bool} (hf : FindSlotForTexture ps t w h = (some p, t1)) :
    (slotAt t p).isLeaf = true ∧ Occupied t1 p ∧ ¬ Occupied t p ∧
    ∀ q, q ≠ p → (slotAt t q).isSet = true →
      (slotAt t1 q).isSet = true ∧
      (slotAt t1 q).X = (slotAt t q).X ∧ (slotAt t1 q).Y = (slotAt t q).Y ∧
      (slotAt t1 q).Width = (slotAt t q).Width ∧
      (slotAt t1 q).Height = (slotAt t q).Height ∧
      (Occupied t q → Occupied t1 q) := by
  obtain ⟨X, Y, W, H, P, s, h1, h2, h3⟩ := find_some ps w h t t1 p hf
  obtain ⟨_, _, _, _, _, _, _, hL, hR, hS⟩ := find_leaf_some h2
  have hleaf : (slotAt t p).isLeaf = true := by rw [h1]; rfl
  have hself : slotAt t1 p = s := by
    rw [h3]; exact slotAt_replaceAt_self s t p (by rw [h1]; rfl)
  refine ⟨hleaf, ?_, ?_, ?_⟩
  · unfold Occupied; rw [hself]; exact ⟨hL, hR⟩
  · unfold Occupied; rw [h1]; simp [Left_node, FAtlasedTextureSlot.isSet]
  · intro q hne hq
    have fr := replaceAt_frame hS t p q hleaf hne hq
    rw [← h3] at fr
    obtain ⟨f1, f2, f3, f4, f5, f6, f7⟩ := fr
    exact ⟨f1, f2, f3, f4, f5, fun ho => ⟨f6 ho.1, f7 ho.2⟩⟩

/-! ### `AddTexture` and runs of it -/

/-- The packing part of `AddTexture`: whenever the call returns, the pointer
and the new tree are those of `FindSlotForTexture` on the root, and the
dimensions, stride and padding style of the atlas are untouched. -/
theorem AddTexture_find {a a1 : FSlateTextureAtlas} {w h : Nat} {d : List Nat}
    {r : Option (List Bool)} (hadd : AddTexture a w h d = some (r, a1)) :
    a.RootNode.isSet = true ∧
    FindSlotForTexture a.PaddingStyle a.RootNode w h = (r, a1.RootNode) ∧
    a1.AtlasWidth = a.AtlasWidth ∧ a1.AtlasHeight = a.AtlasHeight ∧
    a1.Stride = a.Stride ∧ a1.PaddingStyle = a.PaddingStyle := by
  unfold AddTexture FindSlotForTextureRoot at hadd
  by_cases hr : a.RootNode.isSet = true
  · simp only [hr, if_true] at hadd
    rcases hres : FindSlotForTexture a.PaddingStyle a.RootNode w h with ⟨_ | p, t1⟩
    · simp only [hres, Option.some.injEq, Prod.mk.injEq] at hadd
      obtain ⟨rfl, rfl⟩ := hadd
      exact ⟨hr, rfl, rfl, rfl, rfl, rfl⟩
    · simp only [hres] at hadd
      split at hadd
      · split at hadd
        · simp at hadd
        · simp only [Option.some.injEq, Prod.mk.injEq, MarkTextureDirty] at hadd
          obtain ⟨rfl, rfl⟩ := hadd
          exact ⟨hr, rfl, rfl, rfl, rfl, rfl⟩
      · simp only [Option.some.injEq, Prod.mk.injEq] at hadd
        obtain ⟨rfl, rfl⟩ := hadd
        exact ⟨hr, rfl, rfl, rfl, rfl, rfl⟩
  · simp [hr] at hadd

/-- The invariant of a run: the tree stays packed into the canvas, slots
that were occupied stay occupied with the same rectangle, and the returned
pointers are pairwise different slots, all occupied at the end and none
occupied at the start. -/
theorem AddTextures_inv :
    ∀ (reqs : List (Nat × Nat × List Nat)) (a a2 : FSlateTextureAtlas)
      (res : List (Option (List Bool))),
      AddTextures a reqs = some (res, a2) →
      a.AtlasWidth < 2 ^ 32 → a.AtlasHeight < 2 ^ 32 →
      Packed a.RootNode 0 0 a.AtlasWidth a.AtlasHeight →
      Packed a2.RootNode 0 0 a.AtlasWidth a.AtlasHeight ∧
      (a2.AtlasWidth = a.AtlasWidth ∧ a2.AtlasHeight = a.AtlasHeight ∧
        a2.Stride = a.Stride ∧ a2.PaddingStyle = a.PaddingStyle) ∧
      (∀ q, (slotAt a.RootNode q).isSet = true →
        (slotAt a2.RootNode q).isSet = true ∧
        (Occupied a.RootNode q →
          Occupied a2.RootNode q ∧
          (slotAt a2.RootNode q).X = (slotAt a.RootNode q).X ∧
          (slotAt a2.RootNode q).Y = (slotAt a.RootNode q).Y ∧
          (slotAt a2.RootNode q).Width = (slotAt a.RootNode q).Width ∧
          (slotAt a2.RootNode q).Height = (slotAt a.RootNode q).Height)) ∧
      (∀ (i : Nat) (p : List Bool), res[i]? = some (some p) → Occupied a2.RootNode p ∧ ¬ Occupied a.RootNode p) ∧
      (∀ (i j : Nat) (p q : List Bool), i ≠ j → res[i]? = some (some p) →
        res[j]? = some (some q) → p ≠ q) := by
  intro reqs
  induction reqs with
  | nil =>
    intro a a2 res hrun hW hH hP
    simp only [AddTextures, Option.some.injEq, Prod.mk.injEq] at hrun
    obtain ⟨rfl, rfl⟩ := hrun
    refine ⟨hP, ⟨rfl, rfl, rfl, rfl⟩, ?_, ?_, ?_⟩
    · intro q hq; exact ⟨hq, fun ho => ⟨ho, rfl, rfl, rfl, rfl⟩⟩
    · intro i p hi; simp at hi
    · intro i j p q _ hi; simp at hi
  | cons req rest ih =>
    intro a a2 res hrun hW hH hP
    obtain ⟨w, h, d⟩ := req
    simp only [AddTextures] at hrun
    rcases hadd : AddTexture a w h d with _ | ⟨r, a1⟩
    · simp [hadd] at hrun
    · simp only [hadd] at hrun
      rcases hrest : AddTextures a1 rest with _ | ⟨rs, a3⟩
      · simp [hrest] at hrun
      · simp only [hrest, Option.some.injEq, Prod.mk.injEq] at hrun
        obtain ⟨rfl, rfl⟩ := hrun
        obtain ⟨_, hfind, eW, eH, eS, ePS⟩ := AddTexture_find hadd
        have hP1 : Packed a1.RootNode 0 0 a.AtlasWidth a.AtlasHeight :=
          find_packed hP (by omega) (by omega) hfind
        obtain ⟨hP2, ⟨cW, cH, cS, cPS⟩, hkeep, hnew, hdist⟩ :=
          ih a1 a3 rs hrest (by omega) (by omega) (by rw [eW, eH]; exact hP1)
        rw [eW, eH] at hP2
        -- one step: slots of `a` inside `a1`
        have step : ∀ q, (slotAt a.RootNode q).isSet = true →
            (slotAt a1.RootNode q).isSet = true ∧
            (Occupied a.RootNode q →
              Occupied a1.RootNode q ∧
              (slotAt a1.RootNode q).X = (slotAt a.RootNode q).X ∧
              (slotAt a1.RootNode q).Y = (slotAt a.RootNode q).Y ∧
              (slotAt a1.RootNode q).Width = (slotAt a.RootNode q).Width ∧
              (slotAt a1.RootNode q).Height = (slotAt a.RootNode q).Height) := by
          intro q hq
          cases r with
          | none =>
            rw [find_none _ _ _ _ _ hfind]
            exact ⟨hq, fun ho => ⟨ho, rfl, rfl, rfl, rfl⟩⟩
          | some p =>
            obtain ⟨hleaf, hocc, hnocc, hfr⟩ := find_some_frame hfind
            by_cases hqp : q = p
            · subst hqp
              exact ⟨hocc.present, fun ho => absurd ho hnocc⟩
            · obtain ⟨f1, f2, f3, f4, f5, f6⟩ := hfr q hqp hq
              exact ⟨f1, fun ho => ⟨f6 ho, f2, f3, f4, f5⟩⟩
        refine ⟨hP2, ⟨by omega, by omega, by rw [cS, eS], by rw [cPS, ePS]⟩, ?_, ?_, ?_⟩
        · intro q hq
          obtain ⟨s1, s2⟩ := step q hq
          obtain ⟨k1, k2⟩ := hkeep q s1
          refine ⟨k1, fun ho => ?_⟩
          obtain ⟨o1, x1, y1, w1, h1⟩ := s2 ho
          obtain ⟨o2, x2, y2, w2, h2⟩ := k2 o1
          exact ⟨o2, by omega, by omega, by omega, by omega⟩
        · intro i p hi
          cases i with
          | zero =>
            simp only [List.getElem?_cons_zero, Option.some.injEq] at hi
            subst hi
            obtain ⟨hleaf, hocc, hnocc, hfr⟩ := find_some_frame hfind
            exact ⟨((hkeep p hocc.present).2 hocc).1, hnocc⟩
          | succ i =>
            simp only [List.getElem?_cons_succ] at hi
            obtain ⟨n1, n2⟩ := hnew i p hi
            refine ⟨n1, fun ho => n2 ?_⟩
            exact ((step p ho.present).2 ho).1
        · intro i j p q hij hi hj
          cases i with
          | zero =>
            cases j with
            | zero => exact absurd rfl hij
            | succ j =>
              simp only [List.getElem?_cons_zero, Option.some.injEq] at hi
              simp only [List.getElem?_cons_succ] at hj
              subst hi
              obtain ⟨hleaf, hocc, hnocc, hfr⟩ := find_some_frame hfind
              intro hpq
              subst hpq
              exact (hnew j p hj).2 hocc
          | succ i =>
            cases j with
            | zero =>
              simp only [List.getElem?_cons_zero, Option.some.injEq] at hj
              simp only [List.getElem?_cons_succ] at hi
              subst hj
              obtain ⟨hleaf, hocc, hnocc, hfr⟩ := find_some_frame hfind
              intro hpq
              subst hpq
              exact (hnew i p hi).2 hocc
            | succ j =>
              simp only [List.getElem?_cons_succ] at hi hj
              exact hdist i j p q (by omega) hi hj

/-- An atlas that `InitAtlasData` has just set up: a childless root over the
whole canvas. -/
theorem InitAtlasData_root {a0 a : FSlateTextureAtlas} (hinit : InitAtlasData a0 = some a) :
    a.RootNode = node 0 0 a0.AtlasWidth a0.AtlasHeight
      (if a0.PaddingStyle = NoPadding then 0 else 1) null null ∧
    a.AtlasData = List.replicate (u32 (u32 (a0.AtlasWidth * a0.AtlasHeight) * a0.Stride)) 0 ∧
    a.AtlasWidth = a0.AtlasWidth ∧ a.AtlasHeight = a0.AtlasHeight ∧
    a.Stride = a0.Stride ∧ a.PaddingStyle = a0.PaddingStyle ∧
    a.bNeedsUpdate = a0.bNeedsUpdate := by
  unfold InitAtlasData at hinit
  split at hinit
  · rename_i hc
    simp only [Option.some.injEq] at hinit
    subst hinit
    have : a0.AtlasData = [] := List.length_eq_zero.mp hc.2
    simp [this]
  · simp at hinit

theorem InitAtlasData_packed {a0 a : FSlateTextureAtlas} (hinit : InitAtlasData a0 = some a) :
    Packed a.RootNode 0 0 a.AtlasWidth a.AtlasHeight := by
  obtain ⟨h1, _, h2, h3, _⟩ := InitAtlasData_root hinit
  rw [h1, h2, h3]
  exact Packed.leaf (le_refl _) (le_refl _)

/-! ### Claims on the placements of a run -/

/-- C1 (no overlap): on an atlas set up by `InitAtlasData` with `AtlasWidth`
and `AtlasHeight` below `2 ^ 31`, after any run of `AddTexture` calls, the
slots returned by two different calls share no pixel: their rectangles
`[X, X+Width) x [Y, Y+Height)`, with the stored (padded) width and height,
do not intersect. -/
theorem C1_placements_never_overlap (a0 a1 a2 : FSlateTextureAtlas)
    (reqs : List (Nat × Nat × List Nat)) (res : List (Option (List Bool)))
    (hW : a0.AtlasWidth < 2 ^ 31) (hH : a0.AtlasHeight < 2 ^ 31)
    (hinit : InitAtlasData a0 = some a1)
    (hrun : AddTextures a1 reqs = some (res, a2))
    (i j : Nat) (p q : List Bool) (hij : i ≠ j)
    (hi : res[i]? = some (some p)) (hj : res[j]? = some (some q)) :
    ¬ Overlap (slotAt a2.RootNode p) (slotAt a2.RootNode q) := by
  obtain ⟨_, _, eW, eH, _⟩ := InitAtlasData_root hinit
  obtain ⟨hP, _, _, hnew, hdist⟩ :=
    AddTextures_inv reqs a1 a2 res hrun (by omega) (by omega) (InitAtlasData_packed hinit)
  rintro ⟨px, py, hov⟩
  exact hP.disjoint p q (hdist i j p q hij hi hj) (hnew i p hi).1.present (hnew j q hj).1.present
    px py hov

theorem C1_placements_never_overlap_witness :
    ∃ res a2, AddTextures (sampleInit DilateBorder) sampleRequests = some (res, a2) ∧
      res[0]? = some (some []) ∧ res[1]? = some (some [false]) ∧
      ¬ Overlap (slotAt a2.RootNode []) (slotAt a2.RootNode [false]) :=
  ⟨_, _, rfl, rfl, rfl,
    C1_placements_never_overlap (sampleAtlas DilateBorder) (sampleInit DilateBorder) _
      sampleRequests _ (by decide) (by decide) rfl rfl 0 1 [] [false] (by decide) rfl rfl⟩

/-- C2 (bounds): on an atlas set up by `InitAtlasData` with `AtlasWidth` and
`AtlasHeight` below `2 ^ 31`, after any run of `AddTexture` calls, every
returned slot lies inside the canvas: `X + Width ≤ AtlasWidth` and
`Y + Height ≤ AtlasHeight`, for the stored (padded) width and height. -/
theorem C2_placements_inside_canvas (a0 a1 a2 : FSlateTextureAtlas)
    (reqs : List (Nat × Nat × List Nat)) (res : List (Option (List Bool)))
    (hW : a0.AtlasWidth < 2 ^ 31) (hH : a0.AtlasHeight < 2 ^ 31)
    (hinit : InitAtlasData a0 = some a1)
    (hrun : AddTextures a1 reqs = some (res, a2))
    (i : Nat) (p : List Bool) (hi : res[i]? = some (some p)) :
    (slotAt a2.RootNode p).X + (slotAt a2.RootNode p).Width ≤ a0.AtlasWidth ∧
    (slotAt a2.RootNode p).Y + (slotAt a2.RootNode p).Height ≤ a0.AtlasHeight := by
  obtain ⟨_, _, eW, eH, _⟩ := InitAtlasData_root hinit
  obtain ⟨hP, _, _, hnew, _⟩ :=
    AddTextures_inv reqs a1 a2 res hrun (by omega) (by omega) (InitAtlasData_packed hinit)
  have b := hP.bounds p (hnew i p hi).1.present
  omega

theorem C2_placements_inside_canvas_witness :
    ∃ res a2, AddTextures (sampleInit PadWithZero) sampleRequests = some (res, a2) ∧
      res[1]? = some (some [false]) ∧
      (slotAt a2.RootNode [false]).X + (slotAt a2.RootNode [false]).Width ≤ 8 ∧
      (slotAt a2.RootNode [false]).Y + (slotAt a2.RootNode [false]).Height ≤ 8 :=
  ⟨_, _, rfl, rfl,
    C2_placements_inside_canvas (sampleAtlas PadWithZero) (sampleInit PadWithZero) _
      sampleRequests _ (by decide) (by decide) rfl rfl 1 [false] rfl⟩

/-! ### Failure, zero-area requests and the dirty flag -/

/-- `AddTexture` on an atlas with a root, unfolded along the result of the
packer. -/
theorem AddTexture_eq (a : FSlateTextureAtlas) (w h : Nat) (d : List Nat)
    (hroot : a.RootNode.isSet = true) :
    AddTexture a w h d =
      match (FindSlotForTexture a.PaddingStyle a.RootNode w h).1 with
      | none =>
        some (none, { a with RootNode := (FindSlotForTexture a.PaddingStyle a.RootNode w h).2 })
      | some p =>
        if w > 0 ∧ h > 0 then
          match CopyDataIntoSlot
              { a with RootNode := (FindSlotForTexture a.PaddingStyle a.RootNode w h).2 }
              (slotAt (FindSlotForTexture a.PaddingStyle a.RootNode w h).2 p) d with
          | none => none
          | some Buf =>
            some (some p,
              { a with RootNode := (FindSlotForTexture a.PaddingStyle a.RootNode w h).2,
                       AtlasData := Buf, bNeedsUpdate := true })
        else
          some (some p,
            { a with RootNode := (FindSlotForTexture a.PaddingStyle a.RootNode w h).2 }) := by
  unfold AddTexture FindSlotForTextureRoot
  simp only [hroot, if_true]
  rcases FindSlotForTexture a.PaddingStyle a.RootNode w h with ⟨_ | p, t1⟩
  · rfl
  · simp only [MarkTextureDirty]

/-- C6 (exhaustion is atomic): when `AddTexture` returns `nullptr`, the atlas
after the call is the atlas before it: same slot tree (every slot, field and
child), same buffer, same dirty flag. -/
theorem C6_failure_changes_nothing (a a1 : FSlateTextureAtlas) (w h : Nat) (d : List Nat)
    (hadd : AddTexture a w h d = some (none, a1)) : a1 = a := by
  obtain ⟨hroot, hfind, _⟩ := AddTexture_find hadd
  have ht := find_none _ _ _ _ _ hfind
  rw [AddTexture_eq a w h d hroot, hfind] at hadd
  simp only [Option.some.injEq, Prod.mk.injEq, true_and] at hadd
  rw [← hadd, ht]

theorem C6_failure_changes_nothing_witness :
    ∃ a1, AddTexture (sampleInit DilateBorder) 7 1 [1, 2, 3, 4, 5, 6, 7] = some (none, a1) ∧
      a1 = sampleInit DilateBorder :=
  ⟨_, rfl, C6_failure_changes_nothing (sampleInit DilateBorder) _ 7 1
    [1, 2, 3, 4, 5, 6, 7] rfl⟩

/-- The packer fails exactly when no childless slot is large enough for the
padded request, the padded sizes being computed in `uint32`. -/
theorem find_none_iff (ps : ESlateTextureAtlasPaddingStyle) (w h : Nat) :
    ∀ (t : FAtlasedTextureSlot),
      (FindSlotForTexture ps t w h).1 = none ↔
        ∀ s ∈ leaves t, ¬ (u32 (w + TotalPadding ps) ≤ s.Width ∧
          u32 (h + TotalPadding ps) ≤ s.Height) := by
  intro t
  induction t with
  | null => simp [find_null, leaves]
  | node X Y W H P l r ihl ihr =>
    by_cases hc : (l.isSet || r.isSet) = true
    · rw [find_interior ps X Y W H P l r w h hc]
      simp only [leaves, hc, if_true, List.mem_append]
      rcases hL : FindSlotForTexture ps l w h with ⟨_ | p, l1⟩
      · rw [hL] at ihl
        rcases hR : FindSlotForTexture ps r w h with ⟨_ | q, r1⟩
        · rw [hR] at ihr
          simp only [true_iff] at ihl ihr ⊢
          intro s hs
          rcases hs with hs | hs
          · exact ihl s hs
          · exact ihr s hs
        · rw [hR] at ihr
          simp only [false_iff, reduceCtorEq] at ihr ⊢
          intro hall
          exact ihr (fun s hs => hall s (Or.inr hs))
      · rw [hL] at ihl
        simp only [false_iff, reduceCtorEq] at ihl ⊢
        intro hall
        exact ihl (fun s hs => hall s (Or.inl hs))
    · obtain ⟨rfl, rfl⟩ := not_interior hc
      rw [find_leaf]
      simp only [leaves, FAtlasedTextureSlot.isSet, Bool.or_self, Bool.false_eq_true, if_false,
        List.mem_singleton, forall_eq, Width_node, Height_node, TotalPadding]
      split
      · simp only [true_iff]; omega
      · rename_i hfit
        split <;> simp only [false_iff, reduceCtorEq, not_not] <;> omega

/-- C7 (AtlasFull exactly when nothing fits): on an atlas with a root, for a
request whose padded sizes `reqW + totalPadding` and `reqH + totalPadding` do
not exceed `2 ^ 32 - 1`, `AddTexture` returns `nullptr` if and only if no
childless slot of the tree has `Width ≥ reqW + totalPadding` and
`Height ≥ reqH + totalPadding`, where `totalPadding` is 2 when the padding
style is not `NoPadding` and 0 otherwise. -/
theorem C7_failure_iff_no_leaf_fits (a : FSlateTextureAtlas) (w h : Nat) (d : List Nat)
    (hroot : a.RootNode.isSet = true)
    (hw : w + (if a.PaddingStyle = NoPadding then 0 else 2) ≤ 2 ^ 32 - 1)
    (hh : h + (if a.PaddingStyle = NoPadding then 0 else 2) ≤ 2 ^ 32 - 1) :
    (∃ a1, AddTexture a w h d = some (none, a1)) ↔
      ∀ s ∈ leaves a.RootNode,
        ¬ (s.Width ≥ w + (if a.PaddingStyle = NoPadding then 0 else 2) ∧
           s.Height ≥ h + (if a.PaddingStyle = NoPadding then 0 else 2)) := by
  have key := find_none_iff a.PaddingStyle w h a.RootNode
  rw [TotalPadding_eq] at key
  rw [u32_of_lt (by omega), u32_of_lt (by omega)] at key
  rw [← key, AddTexture_eq a w h d hroot]
  constructor
  · rintro ⟨a1, h1⟩
    rcases hres : (FindSlotForTexture a.PaddingStyle a.RootNode w h).1 with _ | p
    · rfl
    · rw [hres] at h1
      simp only at h1
      split at h1
      · split at h1 <;> simp at h1
      · simp at h1
  · intro hnone
    rw [hnone]
    exact ⟨_, rfl⟩

theorem C7_failure_iff_no_leaf_fits_witness :
    (∃ a1, AddTexture (sampleInit DilateBorder) 7 1 [1, 2, 3, 4, 5, 6, 7] = some (none, a1)) ↔
      ∀ s ∈ leaves (sampleInit DilateBorder).RootNode,
        ¬ (s.Width ≥ 7 + (if (sampleInit DilateBorder).PaddingStyle = NoPadding then 0 else 2) ∧
           s.Height ≥ 1 + (if (sampleInit DilateBorder).PaddingStyle = NoPadding then 0 else 2)) :=
  C7_failure_iff_no_leaf_fits (sampleInit DilateBorder) 7 1 [1, 2, 3, 4, 5, 6, 7] rfl
    (by decide) (by decide)

/-- C8 as stated fails: with padding active, a request of width `2 ^ 32 - 1`
is placed in an 8 x 8 childless slot, and the stored width of the returned
slot is 1, not `reqW + totalPadding = 2 ^ 32 + 1`. -/
theorem C8_footprint_counterexample :
    ∃ t1, FindSlotForTexture DilateBorder (node 0 0 8 8 1 null null) 4294967295 1
        = (some [], t1) ∧
      (slotAt t1 []).Width = 1 ∧
      (slotAt t1 []).Width ≠ 4294967295 + TotalPadding DilateBorder :=
  ⟨_, rfl, rfl, by decide⟩

/-- C8 (placement footprint, amended): for a request whose padded sizes
`reqW + totalPadding` and `reqH + totalPadding` do not exceed `2 ^ 32 - 1`,
when `FindSlotForTexture` returns a pointer, it points to a slot that was
childless; the slot keeps its origin `(X, Y)` and its stored width and height
are `reqW + totalPadding` and `reqH + totalPadding`.  When the tree is a
single childless slot, such as the root that `InitAtlasData` creates at
`(0, 0)`, the returned slot is that root: the first successful insertion is
placed at `(0, 0)`. -/
theorem C8_footprint (ps : ESlateTextureAtlasPaddingStyle) (t t1 : FAtlasedTextureSlot)
    (w h : Nat) (p : List Bool)
    (hw : w + TotalPadding ps ≤ 2 ^ 32 - 1) (hh : h + TotalPadding ps ≤ 2 ^ 32 - 1)
    (hfind : FindSlotForTexture ps t w h = (some p, t1)) :
    (slotAt t p).isLeaf = true ∧
    (slotAt t1 p).X = (slotAt t p).X ∧ (slotAt t1 p).Y = (slotAt t p).Y ∧
    (slotAt t1 p).Width = w + TotalPadding ps ∧
    (slotAt t1 p).Height = h + TotalPadding ps ∧
    (t.isLeaf = true → p = []) ∧
    (∀ a0 a1, InitAtlasData a0 = some a1 → t = a1.RootNode →
      p = [] ∧ (slotAt t1 p).X = 0 ∧ (slotAt t1 p).Y = 0) := by
  obtain ⟨X, Y, W, H, P, s, h1, h2, h3⟩ := find_some ps w h t t1 p hfind
  obtain ⟨_, _, _, sX, sY, sW, sH, _, _, _⟩ := find_leaf_some h2
  have hself : slotAt t1 p = s := by
    rw [h3]; exact slotAt_replaceAt_self s t p (by rw [h1]; rfl)
  have hleafp : t.isLeaf = true → p = [] := by
    intro hl
    cases t with
    | null => simp [FAtlasedTextureSlot.isLeaf] at hl
    | node X0 Y0 W0 H0 P0 l r =>
      cases l <;> cases r <;> simp [FAtlasedTextureSlot.isLeaf] at hl
      exact (find_leaf_some hfind).1
  rw [hself, h1]
  refine ⟨rfl, sX, sY, ?_, ?_, hleafp, ?_⟩
  · rw [sW]; exact u32_of_lt (by omega)
  · rw [sH]; exact u32_of_lt (by omega)
  · intro a0 a1 hinit ht
    obtain ⟨hr, _⟩ := InitAtlasData_root hinit
    have hp : p = [] := hleafp (by rw [ht, hr]; rfl)
    subst hp
    rw [slotAt_nil] at h1
    rw [ht, hr] at h1
    simp only [node.injEq] at h1
    obtain ⟨rfl, rfl, _⟩ := h1
    exact ⟨rfl, sX, sY⟩

theorem C8_footprint_witness :
    ∃ t1, FindSlotForTexture DilateBorder (sampleInit DilateBorder).RootNode 2 3
        = (some [], t1) ∧
      2 + TotalPadding DilateBorder ≤ 2 ^ 32 - 1 ∧
      3 + TotalPadding DilateBorder ≤ 2 ^ 32 - 1 ∧
      (slotAt t1 []).X = 0 ∧ (slotAt t1 []).Y = 0 ∧
      (slotAt t1 []).Width = 2 + TotalPadding DilateBorder ∧
      (slotAt t1 []).Height = 3 + TotalPadding DilateBorder ∧
      (slotAt t1 []).Width = 4 ∧ (slotAt t1 []).Height = 5 :=
  ⟨_, rfl, by decide, by decide,
    ((C8_footprint DilateBorder (sampleInit DilateBorder).RootNode _ 2 3 []
      (by decide) (by decide) rfl).2.2.2.2.2.2
      (sampleAtlas DilateBorder) (sampleInit DilateBorder) rfl rfl).2.1,
    ((C8_footprint DilateBorder (sampleInit DilateBorder).RootNode _ 2 3 []
      (by decide) (by decide) rfl).2.2.2.2.2.2
      (sampleAtlas DilateBorder) (sampleInit DilateBorder) rfl rfl).2.2,
    (C8_footprint DilateBorder (sampleInit DilateBorder).RootNode _ 2 3 []
      (by decide) (by decide) rfl).2.2.2.1,
    (C8_footprint DilateBorder (sampleInit DilateBorder).RootNode _ 2 3 []
      (by decide) (by decide) rfl).2.2.2.2.1,
    rfl, rfl⟩

/-- C9 (zero-area insertion): on an atlas with a root, a request with
`TextureWidth = 0` or `TextureHeight = 0` returns the pointer the packer
finds and leaves the tree as the packer leaves it for that request, and makes
no copy: the buffer and the dirty flag are those before the call. -/
theorem C9_zero_area_skips_copy (a : FSlateTextureAtlas) (w h : Nat) (d : List Nat)
    (hroot : a.RootNode.isSet = true) (hz : w = 0 ∨ h = 0) :
    ∃ r a1, AddTexture a w h d = some (r, a1) ∧
      (r, a1.RootNode) = FindSlotForTexture a.PaddingStyle a.RootNode w h ∧
      a1.AtlasData = a.AtlasData ∧ a1.bNeedsUpdate = a.bNeedsUpdate := by
  rw [AddTexture_eq a w h d hroot]
  have hn : ¬ (w > 0 ∧ h > 0) := by omega
  rcases hres : FindSlotForTexture a.PaddingStyle a.RootNode w h with ⟨_ | p, t1⟩
  · exact ⟨_, _, rfl, rfl, rfl, rfl⟩
  · simp only [hn, if_false]
    exact ⟨_, _, rfl, rfl, rfl, rfl⟩

theorem C9_zero_area_skips_copy_witness :
    ∃ r a1, AddTexture (sampleInit DilateBorder) 0 3 [] = some (r, a1) ∧
      (r, a1.RootNode)
        = FindSlotForTexture (sampleInit DilateBorder).PaddingStyle
            (sampleInit DilateBorder).RootNode 0 3 ∧
      a1.AtlasData = (sampleInit DilateBorder).AtlasData ∧
      a1.bNeedsUpdate = (sampleInit DilateBorder).bNeedsUpdate :=
  C9_zero_area_skips_copy (sampleInit DilateBorder) 0 3 [] rfl (Or.inl rfl)

/-- C10 (dirty flag): whenever `AddTexture` returns, `bNeedsUpdate` is true
after the call if a slot was found and both `TextureWidth > 0` and
`TextureHeight > 0`, and otherwise has the value it had before the call; in
particular a flag that was true is still true. -/
theorem C10_dirty_flag (a a1 : FSlateTextureAtlas) (w h : Nat) (d : List Nat)
    (r : Option (List Bool)) (hadd : AddTexture a w h d = some (r, a1)) :
    a1.bNeedsUpdate = (if r.isSome = true ∧ w > 0 ∧ h > 0 then true else a.bNeedsUpdate) ∧
    (a.bNeedsUpdate = true → a1.bNeedsUpdate = true) := by
  obtain ⟨hroot, hfind, _⟩ := AddTexture_find hadd
  rw [AddTexture_eq a w h d hroot, hfind] at hadd
  have main : a1.bNeedsUpdate
      = (if r.isSome = true ∧ w > 0 ∧ h > 0 then true else a.bNeedsUpdate) := by
    cases r with
    | none =>
      simp only [Option.some.injEq, Prod.mk.injEq, true_and] at hadd
      have hb := congrArg FSlateTextureAtlas.bNeedsUpdate hadd
      simp only at hb
      simp [← hb]
    | some p =>
      simp only at hadd
      by_cases hpos : w > 0 ∧ h > 0
      · simp only [hpos, and_self, if_true] at hadd
        split at hadd
        · simp at hadd
        · simp only [Option.some.injEq, Prod.mk.injEq, true_and] at hadd
          have hb := congrArg FSlateTextureAtlas.bNeedsUpdate hadd
          simp only at hb
          simp [← hb, hpos]
      · simp only [hpos, if_false, Option.some.injEq, Prod.mk.injEq, true_and] at hadd
        have hb := congrArg FSlateTextureAtlas.bNeedsUpdate hadd
        simp only at hb
        simp [← hb, hpos]
  refine ⟨main, fun ht => ?_⟩
  rw [main]
  split
  · rfl
  · exact ht

theorem C10_dirty_flag_witness :
    ∃ a1, AddTexture (sampleInit NoPadding) 2 2 [1, 2, 3, 4] = some (some [], a1) ∧
      a1.bNeedsUpdate = true ∧ (sampleInit NoPadding).bNeedsUpdate = false :=
  ⟨_, rfl,
    ((C10_dirty_flag (sampleInit NoPadding) _ 2 2 [1, 2, 3, 4] (some []) rfl).1.trans
      (by decide)),
    rfl⟩

/-! ### Memory operations, byte by byte -/

theorem Memcpy_eq_some {dst src dst1 : List Nat} {d s n : Nat}
    (h : Memcpy dst d src s n = some dst1) :
    d + n ≤ dst.length ∧ s + n ≤ src.length ∧
      dst1 = dst.take d ++ ((src.drop s).take n ++ dst.drop (d + n)) := by
  unfold Memcpy at h
  split at h
  · rename_i hc
    simp only [Option.some.injEq] at h
    exact ⟨hc.1, hc.2, h.symm⟩
  · simp at h

theorem Memcpy_of_le {dst src : List Nat} {d s n : Nat}
    (h1 : d + n ≤ dst.length) (h2 : s + n ≤ src.length) :
    Memcpy dst d src s n = some (dst.take d ++ ((src.drop s).take n ++ dst.drop (d + n))) := by
  unfold Memcpy
  rw [if_pos ⟨h1, h2⟩]

theorem Memzero_eq_some {dst dst1 : List Nat} {d n : Nat}
    (h : Memzero dst d n = some dst1) :
    d + n ≤ dst.length ∧
      dst1 = dst.take d ++ (List.replicate n 0 ++ dst.drop (d + n)) := by
  unfold Memzero at h
  split at h
  · rename_i hc
    simp only [Option.some.injEq] at h
    exact ⟨hc, h.symm⟩
  · simp at h

theorem Memzero_of_le {dst : List Nat} {d n : Nat} (h1 : d + n ≤ dst.length) :
    Memzero dst d n = some (dst.take d ++ (List.replicate n 0 ++ dst.drop (d + n))) := by
  unfold Memzero
  rw [if_pos h1]

theorem Memcpy_length {dst src dst1 : List Nat} {d s n : Nat}
    (h : Memcpy dst d src s n = some dst1) : dst1.length = dst.length := by
  obtain ⟨h1, h2, rfl⟩ := Memcpy_eq_some h
  simp only [List.length_append, List.length_take, List.length_drop]
  omega

theorem Memzero_length {dst dst1 : List Nat} {d n : Nat}
    (h : Memzero dst d n = some dst1) : dst1.length = dst.length := by
  obtain ⟨h1, rfl⟩ := Memzero_eq_some h
  simp only [List.length_append, List.length_take, List.length_drop, List.length_replicate]
  omega

/-- A byte of the buffer after `Memcpy`. -/
theorem Memcpy_getElem? {dst src dst1 : List Nat} {d s n : Nat}
    (h : Memcpy dst d src s n = some dst1) (i : Nat) :
    dst1[i]? = if d ≤ i ∧ i < d + n then src[s + (i - d)]? else dst[i]? := by
  obtain ⟨h1, h2, rfl⟩ := Memcpy_eq_some h
  have lA : (dst.take d).length = d := by rw [List.length_take]; omega
  have lB : ((src.drop s).take n).length = n := by
    rw [List.length_take, List.length_drop]; omega
  by_cases c1 : i < d
  · rw [List.getElem?_append_left (by omega), if_neg (by omega), List.getElem?_take_of_lt c1]
  · rw [List.getElem?_append_right (by omega), lA]
    by_cases c2 : i < d + n
    · rw [List.getElem?_append_left (by omega), if_pos ⟨by omega, c2⟩,
        List.getElem?_take_of_lt (by omega), List.getElem?_drop]
    · rw [List.getElem?_append_right (by omega), lB, if_neg (by omega), List.getElem?_drop]
      congr 1
      omega

/-- A byte of the buffer after `Memzero`. -/
theorem Memzero_getElem? {dst dst1 : List Nat} {d n : Nat}
    (h : Memzero dst d n = some dst1) (i : Nat) :
    dst1[i]? = if d ≤ i ∧ i < d + n then some 0 else dst[i]? := by
  obtain ⟨h1, rfl⟩ := Memzero_eq_some h
  have lA : (dst.take d).length = d := by rw [List.length_take]; omega
  by_cases c1 : i < d
  · rw [List.getElem?_append_left (by omega), if_neg (by omega), List.getElem?_take_of_lt c1]
  · rw [List.getElem?_append_right (by omega), lA]
    by_cases c2 : i < d + n
    · rw [List.getElem?_append_left (by rw [List.length_replicate]; omega),
        if_pos ⟨by omega, c2⟩, List.getElem?_replicate]
      simp; omega
    · rw [List.getElem?_append_right (by rw [List.length_replicate]; omega),
        List.length_replicate, if_neg (by omega), List.getElem?_drop]
      congr 1
      omega

theorem ReadBytes_getElem? (buf : List Nat) (off n j : Nat) :
    (ReadBytes buf off n)[j]? = if j < n then buf[off + j]? else none := by
  unfold ReadBytes
  by_cases c : j < n
  · rw [if_pos c, List.getElem?_take_of_lt c, List.getElem?_drop]
  · rw [if_neg c]
    apply List.getElem?_eq_none
    rw [List.length_take]
    omega

theorem ReadBytes_add (buf : List Nat) (off m n : Nat) :
    ReadBytes buf off (m + n) = ReadBytes buf off m ++ ReadBytes buf (off + m) n := by
  unfold ReadBytes
  rw [List.take_add, List.drop_drop]

/-! ### Memory operations, pixel by pixel -/

theorem mul_add_lt_iff {S j : Nat} (hj : j < S) (k m : Nat) :
    k * S + j < m * S ↔ k < m := by
  constructor
  · intro h
    by_contra hc
    have : m * S ≤ k * S := Nat.mul_le_mul_right S (by omega)
    omega
  · intro h
    have : (k + 1) * S ≤ m * S := Nat.mul_le_mul_right S (by omega)
    rw [Nat.add_mul] at this
    omega

theorem mul_le_mul_add_iff {S j : Nat} (hj : j < S) (d k : Nat) :
    d * S ≤ k * S + j ↔ d ≤ k := by
  have := mul_add_lt_iff hj k d
  omega

/-- A pixel of the buffer after a `Memcpy` of whole pixels. -/
theorem Memcpy_Pixel {S : Nat} {dst src dst1 : List Nat} {d s n : Nat}
    (h : Memcpy dst (d * S) src (s * S) (n * S) = some dst1) (k : Nat) :
    Pixel S dst1 k = if d ≤ k ∧ k < d + n then Pixel S src (s + (k - d)) else Pixel S dst k := by
  apply List.ext_getElem?
  intro j
  unfold Pixel
  rw [ReadBytes_getElem?, Memcpy_getElem? h]
  by_cases hj : j < S
  · have e1 := mul_le_mul_add_iff hj d k
    have e2 := mul_add_lt_iff hj k (d + n)
    rw [Nat.add_mul] at e2
    by_cases c : d ≤ k ∧ k < d + n
    · rw [if_pos c, if_pos hj, if_pos ⟨e1.mpr c.1, e2.mpr c.2⟩, ReadBytes_getElem?, if_pos hj]
      congr 1
      obtain ⟨e, rfl⟩ := Nat.exists_eq_add_of_le c.1
      have : (d + e) * S = d * S + e * S := Nat.add_mul _ _ _
      have : (s + (d + e - d)) * S = s * S + e * S := by
        rw [Nat.add_sub_cancel_left, Nat.add_mul]
      omega
    · rw [if_neg c, if_pos hj, if_neg (by rw [e1, e2]; exact c), ReadBytes_getElem?, if_pos hj]
  · rw [if_neg hj]
    split <;> rw [ReadBytes_getElem?, if_neg hj]

/-- A pixel of the buffer after a `Memzero` of whole pixels. -/
theorem Memzero_Pixel {S : Nat} {dst dst1 : List Nat} {d n : Nat}
    (h : Memzero dst (d * S) (n * S) = some dst1) (k : Nat) :
    Pixel S dst1 k = if d ≤ k ∧ k < d + n then List.replicate S 0 else Pixel S dst k := by
  apply List.ext_getElem?
  intro j
  unfold Pixel
  rw [ReadBytes_getElem?, Memzero_getElem? h]
  by_cases hj : j < S
  · have e1 := mul_le_mul_add_iff hj d k
    have e2 := mul_add_lt_iff hj k (d + n)
    rw [Nat.add_mul] at e2
    by_cases c : d ≤ k ∧ k < d + n
    · rw [if_pos c, if_pos hj, if_pos ⟨e1.mpr c.1, e2.mpr c.2⟩, List.getElem?_replicate]
      simp [hj]
    · rw [if_neg c, if_pos hj, if_neg (by rw [e1, e2]; exact c), ReadBytes_getElem?, if_pos hj]
  · rw [if_neg hj]
    split
    · rw [List.getElem?_replicate]; simp [hj]
    · rw [ReadBytes_getElem?, if_neg hj]

/-! ### Rows of a block -/

theorem row_lt_row {AW c c1 r r1 : Nat} (st : Nat) (hc : c < AW) (hr : r < r1) :
    st + r * AW + c < st + r1 * AW + c1 := by
  have : (r + 1) * AW ≤ r1 * AW := Nat.mul_le_mul_right AW (by omega)
  rw [Nat.add_mul] at this
  omega

theorem RowsWritten_none (S AW st Wd lo : Nat) (f : Nat → Nat → List Nat) (buf : List Nat) :
    RowsWritten S AW st Wd lo lo f buf buf :=
  ⟨rfl, fun r c h1 h2 => by omega, fun _ _ => rfl⟩

theorem RowsWritten_trans {S AW st Wd lo mid hi : Nat} {f : Nat → Nat → List Nat}
    {buf buf1 buf2 : List Nat} (hAW : Wd ≤ AW) (h1 : lo ≤ mid) (h2 : mid ≤ hi)
    (w1 : RowsWritten S AW st Wd lo mid f buf buf1)
    (w2 : RowsWritten S AW st Wd mid hi f buf1 buf2) :
    RowsWritten S AW st Wd lo hi f buf buf2 := by
  obtain ⟨l1, i1, o1⟩ := w1
  obtain ⟨l2, i2, o2⟩ := w2
  refine ⟨by omega, ?_, ?_⟩
  · intro r c hlo hhi hc
    by_cases hm : r < mid
    · rw [o2 _ (fun r1 c1 a1 a2 a3 => ?_)]
      · exact i1 r c hlo hm hc
      · have := @row_lt_row AW c c1 r r1 st (show c < AW by omega) (show r < r1 by omega)
        omega
    · exact i2 r c (by omega) hhi hc
  · intro k hk
    rw [o2 k (fun r c a1 a2 a3 => hk r c (by omega) a2 a3),
      o1 k (fun r c a1 a2 a3 => hk r c a1 (by omega) a3)]

theorem RowsWritten_congr {S AW st Wd lo hi : Nat} {f g : Nat → Nat → List Nat}
    {buf buf1 : List Nat} (hfg : ∀ r c, lo ≤ r → r < hi → c < Wd → f r c = g r c)
    (w : RowsWritten S AW st Wd lo hi f buf buf1) :
    RowsWritten S AW st Wd lo hi g buf buf1 := by
  obtain ⟨l1, i1, o1⟩ := w
  exact ⟨l1, fun r c a1 a2 a3 => by rw [i1 r c a1 a2 a3, hfg r c a1 a2 a3], o1⟩

/-- `Memcpy` of `n` whole pixels inside both arrays: it returns, and the
pixels of the result are known. -/
theorem Memcpy_pixels {S : Nat} {dst src : List Nat} {d s n : Nat}
    (hd : (d + n) * S ≤ dst.length) (hs : (s + n) * S ≤ src.length) :
    ∃ dst1, Memcpy dst (d * S) src (s * S) (n * S) = some dst1 ∧
      dst1.length = dst.length ∧
      ∀ k, Pixel S dst1 k
        = if d ≤ k ∧ k < d + n then Pixel S src (s + (k - d)) else Pixel S dst k := by
  rw [Nat.add_mul] at hd hs
  have h := Memcpy_of_le hd hs
  exact ⟨_, h, Memcpy_length h, Memcpy_Pixel h⟩

/-- `Memzero` of `n` whole pixels inside the array. -/
theorem Memzero_pixels {S : Nat} {dst : List Nat} {d n : Nat}
    (hd : (d + n) * S ≤ dst.length) :
    ∃ dst1, Memzero dst (d * S) (n * S) = some dst1 ∧
      dst1.length = dst.length ∧
      ∀ k, Pixel S dst1 k
        = if d ≤ k ∧ k < d + n then List.replicate S 0 else Pixel S dst k := by
  rw [Nat.add_mul] at hd
  have h := Memzero_of_le hd
  exact ⟨_, h, Memzero_length h, Memzero_Pixel h⟩

theorem u32_pixels {S a M : Nat} (hS : 0 < S) (h : a * S ≤ M) (hM : M < 2 ^ 32) :
    u32 a = a ∧ u32 (a * S) = a * S := by
  have : a ≤ a * S := Nat.le_mul_of_pos_right a hS
  exact ⟨u32_of_lt (by omega), u32_of_lt (by omega)⟩

/-- `CopyRow` with padding active and no `uint32` wrap-around, as a chain of
whole-pixel copies: `B = st + r * AW` is the first pixel of the destination
row. -/
theorem CopyRow_padded_eq {ps : ESlateTextureAtlasPaddingStyle} (hps : ps ≠ NoPadding)
    {S : Nat} (hS : 0 < S) (buf Data : List Nat) (st r sr W AW : Nat) (hW : 1 ≤ W)
    (hdst : (st + r * AW + (W + 2)) * S ≤ buf.length) (hlen : buf.length < 2 ^ 32)
    (hsrc : (sr * W + W) * S < 2 ^ 32) :
    CopyRow ps S buf
        { SrcData := Data, DestData := st * S, SrcRow := sr, DestRow := r, RowWidth := W + 2,
          SrcTextureWidth := W, DestTextureWidth := AW } =
      match Memcpy buf ((st + r * AW + 1) * S) Data ((sr * W) * S) (W * S) with
      | none => none
      | some Buf1 =>
        if ps = DilateBorder then
          match Memcpy Buf1 ((st + r * AW) * S) Data ((sr * W) * S) (1 * S) with
          | none => none
          | some Buf2 =>
            Memcpy Buf2 ((st + r * AW + (W + 1)) * S) Data ((sr * W + (W - 1)) * S) (1 * S)
        else
          match Memzero Buf1 ((st + r * AW) * S) (1 * S) with
          | none => none
          | some Buf2 => Memzero Buf2 ((st + r * AW + (W + 1)) * S) (1 * S) := by
  have m : ∀ {a b : Nat}, a ≤ b → a * S ≤ b * S := fun h => Nat.mul_le_mul_right S h
  have hdst2 : (st + r * AW + (W + 2)) * S < 2 ^ 32 := by omega
  obtain ⟨s1, s2⟩ := u32_pixels hS (m (show sr * W ≤ sr * W + W by omega)) hsrc
  obtain ⟨_, s3⟩ := u32_pixels hS (m (show W ≤ sr * W + W by omega)) hsrc
  obtain ⟨_, s4⟩ := u32_pixels hS (m (show W - 1 ≤ sr * W + W by omega)) hsrc
  obtain ⟨d1, d2⟩ := u32_pixels hS (m (show r * AW ≤ st + r * AW + (W + 2) by omega)) hdst2
  obtain ⟨d3, d4⟩ := u32_pixels hS (m (show r * AW + 1 ≤ st + r * AW + (W + 2) by omega)) hdst2
  obtain ⟨d5, d6⟩ := u32_pixels hS (m (show W + 1 ≤ st + r * AW + (W + 2) by omega)) hdst2
  obtain ⟨d7, _⟩ := u32_pixels hS (m (show W + 2 ≤ st + r * AW + (W + 2) by omega)) hdst2
  have w1 : u32sub (W + 2) 1 = W + 1 := by
    rw [u32sub_of_le (by omega) (by rw [← d7]; exact u32_lt _)]; omega
  have w2 : u32sub W 1 = W - 1 := by
    apply u32sub_of_le hW
    have := u32_lt (W + 2)
    omega
  have hp : PaddingOf ps = 1 := by simp [PaddingOf, hps]
  have a1 : st * S + (r * AW + 1) * S = (st + r * AW + 1) * S := by
    simp only [Nat.add_mul]; omega
  have a2 : st * S + r * AW * S = (st + r * AW) * S := by
    simp only [Nat.add_mul]
  have a3 : (st + r * AW) * S + (W + 1) * S = (st + r * AW + (W + 1)) * S := by
    simp only [Nat.add_mul]
  have a4 : sr * W * S + (W - 1) * S = (sr * W + (W - 1)) * S := by
    simp only [Nat.add_mul]
  unfold CopyRow
  simp only [hp, d1, d2, d3, d4, s1, s2, s3, s4, w1, w2, d6, a1, a2, a3, a4, Nat.one_mul,
    gt_iff_lt, Nat.lt_one_iff, Nat.zero_lt_one, if_true]

/-- `CopyRow` without padding and without `uint32` wrap-around: one copy of
whole pixels. -/
theorem CopyRow_unpadded_eq {S : Nat} (hS : 0 < S) (buf Data : List Nat)
    (st r sr W AW Wd : Nat)
    (hdst : (st + r * AW + W) * S ≤ buf.length) (hlen : buf.length < 2 ^ 32)
    (hsrc : (sr * W + W) * S < 2 ^ 32) :
    CopyRow NoPadding S buf
        { SrcData := Data, DestData := st * S, SrcRow := sr, DestRow := r, RowWidth := Wd,
          SrcTextureWidth := W, DestTextureWidth := AW } =
      Memcpy buf ((st + r * AW) * S) Data ((sr * W) * S) (W * S) := by
  have m : ∀ {a b : Nat}, a ≤ b → a * S ≤ b * S := fun h => Nat.mul_le_mul_right S h
  have hdst2 : (st + r * AW + W) * S < 2 ^ 32 := by omega
  obtain ⟨s1, s2⟩ := u32_pixels hS (m (show sr * W ≤ sr * W + W by omega)) hsrc
  obtain ⟨_, s3⟩ := u32_pixels hS (m (show W ≤ sr * W + W by omega)) hsrc
  obtain ⟨d1, d2⟩ := u32_pixels hS (m (show r * AW ≤ st + r * AW + W by omega)) hdst2
  have hp : PaddingOf NoPadding = 0 := rfl
  have a2 : st * S + r * AW * S = (st + r * AW) * S := by
    simp only [Nat.add_mul]
  unfold CopyRow
  simp only [hp, d1, d2, s1, s2, s3, a2, Nat.add_zero, gt_iff_lt, Nat.lt_irrefl, if_false]
  cases Memcpy buf ((st + r * AW) * S) Data (sr * W * S) (W * S) <;> rfl

/-- `ZeroRow` without `uint32` wrap-around: one zeroing of whole pixels. -/
theorem ZeroRow_eq {S : Nat} (hS : 0 < S) (buf Data : List Nat) (st r sr W AW Wd : Nat)
    (hdst : (st + r * AW + Wd) * S ≤ buf.length) (hlen : buf.length < 2 ^ 32) :
    ZeroRow S buf
        { SrcData := Data, DestData := st * S, SrcRow := sr, DestRow := r, RowWidth := Wd,
          SrcTextureWidth := W, DestTextureWidth := AW } =
      Memzero buf ((st + r * AW) * S) (Wd * S) := by
  have m : ∀ {a b : Nat}, a ≤ b → a * S ≤ b * S := fun h => Nat.mul_le_mul_right S h
  have hdst2 : (st + r * AW + Wd) * S < 2 ^ 32 := by omega
  obtain ⟨d1, d2⟩ := u32_pixels hS (m (show r * AW ≤ st + r * AW + Wd by omega)) hdst2
  obtain ⟨_, d3⟩ := u32_pixels hS (m (show Wd ≤ st + r * AW + Wd by omega)) hdst2
  have a2 : st * S + r * AW * S = (st + r * AW) * S := by
    simp only [Nat.add_mul]
  unfold ZeroRow
  simp only [d1, d2, d3, a2]

/-! ### One row of the blit -/

theorem CopyRow_dilate_row {S : Nat} (hS : 0 < S) (buf Data : List Nat) (st r sr W AW : Nat)
    (hW : 1 ≤ W) (hdst : (st + r * AW + (W + 2)) * S ≤ buf.length)
    (hlen : buf.length < 2 ^ 32) (hsrc : (sr * W + W) * S ≤ Data.length)
    (hsrc2 : (sr * W + W) * S < 2 ^ 32) :
    ∃ buf1, CopyRow DilateBorder S buf
        { SrcData := Data, DestData := st * S, SrcRow := sr, DestRow := r, RowWidth := W + 2,
          SrcTextureWidth := W, DestTextureWidth := AW } = some buf1 ∧
      RowsWritten S AW st (W + 2) r (r + 1)
        (fun _ c => Pixel S Data (sr * W + min (c - 1) (W - 1))) buf buf1 := by
  have m : ∀ {a b : Nat}, a ≤ b → a * S ≤ b * S := fun h => Nat.mul_le_mul_right S h
  rw [CopyRow_padded_eq (by decide) hS buf Data st r sr W AW hW hdst hlen hsrc2]
  obtain ⟨b1, c1, l1, p1⟩ := @Memcpy_pixels S buf Data
    (st + r * AW + 1) (sr * W) W
    (le_trans (m (by omega)) hdst) (le_trans (m (by omega)) hsrc)
  obtain ⟨b2, c2, l2, p2⟩ := @Memcpy_pixels S b1 Data
    (st + r * AW) (sr * W) 1
    (by rw [l1]; exact le_trans (m (by omega)) hdst) (le_trans (m (by omega)) hsrc)
  obtain ⟨b3, c3, l3, p3⟩ := @Memcpy_pixels S b2 Data
    (st + r * AW + (W + 1)) (sr * W + (W - 1)) 1
    (by rw [l2, l1]; exact le_trans (m (by omega)) hdst) (le_trans (m (by omega)) hsrc)
  refine ⟨b3, ?_, by omega, ?_, ?_⟩
  · simp only [c1, c2, c3, if_true]
  · intro r1 c a1 a2 a3
    have hr : r1 = r := by omega
    subst hr
    rw [p3, p2, p1]
    beta_reduce
    split_ifs <;> first | omega | (congr 1; omega)
  · intro k hk
    rw [p3, p2, p1]
    have hk1 : ∀ c, c < W + 2 → k ≠ st + r * AW + c :=
      fun c hc => hk r c (le_refl _) (by omega) hc
    have k0 := hk1 0 (by omega)
    have kl := hk1 (W + 1) (by omega)
    have km : ¬ (st + r * AW + 1 ≤ k ∧ k < st + r * AW + 1 + W) := by
      intro hcon
      exact hk1 (k - (st + r * AW)) (by omega) (by omega)
    rw [if_neg (by omega), if_neg (by omega), if_neg km]

theorem CopyRow_zero_row {S : Nat} (hS : 0 < S) (buf Data : List Nat) (st r sr W AW : Nat)
    (hW : 1 ≤ W) (hdst : (st + r * AW + (W + 2)) * S ≤ buf.length)
    (hlen : buf.length < 2 ^ 32) (hsrc : (sr * W + W) * S ≤ Data.length)
    (hsrc2 : (sr * W + W) * S < 2 ^ 32) :
    ∃ buf1, CopyRow PadWithZero S buf
        { SrcData := Data, DestData := st * S, SrcRow := sr, DestRow := r, RowWidth := W + 2,
          SrcTextureWidth := W, DestTextureWidth := AW } = some buf1 ∧
      RowsWritten S AW st (W + 2) r (r + 1)
        (fun _ c => if c = 0 ∨ c = W + 1 then List.replicate S 0
          else Pixel S Data (sr * W + (c - 1))) buf buf1 := by
  have m : ∀ {a b : Nat}, a ≤ b → a * S ≤ b * S := fun h => Nat.mul_le_mul_right S h
  rw [CopyRow_padded_eq (by decide) hS buf Data st r sr W AW hW hdst hlen hsrc2]
  obtain ⟨b1, c1, l1, p1⟩ := @Memcpy_pixels S buf Data
    (st + r * AW + 1) (sr * W) W
    (le_trans (m (by omega)) hdst) (le_trans (m (by omega)) hsrc)
  obtain ⟨b2, c2, l2, p2⟩ := @Memzero_pixels S b1
    (st + r * AW) 1
    (by rw [l1]; exact le_trans (m (by omega)) hdst)
  obtain ⟨b3, c3, l3, p3⟩ := @Memzero_pixels S b2
    (st + r * AW + (W + 1)) 1
    (by rw [l2, l1]; exact le_trans (m (by omega)) hdst)
  refine ⟨b3, ?_, by omega, ?_, ?_⟩
  · simp only [c1, c2, c3, reduceCtorEq, if_false]
  · intro r1 c a1 a2 a3
    have hr : r1 = r := by omega
    subst hr
    rw [p3, p2, p1]
    beta_reduce
    split_ifs <;> first | rfl | omega | (congr 1; omega)
  · intro k hk
    rw [p3, p2, p1]
    have hk1 : ∀ c, c < W + 2 → k ≠ st + r * AW + c :=
      fun c hc => hk r c (le_refl _) (by omega) hc
    have k0 := hk1 0 (by omega)
    have kl := hk1 (W + 1) (by omega)
    have km : ¬ (st + r * AW + 1 ≤ k ∧ k < st + r * AW + 1 + W) := by
      intro hcon
      exact hk1 (k - (st + r * AW)) (by omega) (by omega)
    rw [if_neg (by omega), if_neg (by omega), if_neg km]

theorem CopyRow_plain_row {S : Nat} (hS : 0 < S) (buf Data : List Nat) (st r sr W AW : Nat)
    (hdst : (st + r * AW + W) * S ≤ buf.length)
    (hlen : buf.length < 2 ^ 32) (hsrc : (sr * W + W) * S ≤ Data.length)
    (hsrc2 : (sr * W + W) * S < 2 ^ 32) :
    ∃ buf1, CopyRow NoPadding S buf
        { SrcData := Data, DestData := st * S, SrcRow := sr, DestRow := r, RowWidth := W,
          SrcTextureWidth := W, DestTextureWidth := AW } = some buf1 ∧
      RowsWritten S AW st W r (r + 1) (fun _ c => Pixel S Data (sr * W + c)) buf buf1 := by
  rw [CopyRow_unpadded_eq hS buf Data st r sr W AW W hdst hlen hsrc2]
  obtain ⟨b1, c1, l1, p1⟩ := @Memcpy_pixels S buf Data
    (st + r * AW) (sr * W) W hdst hsrc
  refine ⟨b1, c1, l1, ?_, ?_⟩
  · intro r1 c a1 a2 a3
    have hr : r1 = r := by omega
    subst hr
    rw [p1, if_pos (by omega)]
    congr 1
    omega
  · intro k hk
    rw [p1]
    have hk1 : ∀ c, c < W → k ≠ st + r * AW + c :=
      fun c hc => hk r c (le_refl _) (by omega) hc
    have km : ¬ (st + r * AW ≤ k ∧ k < st + r * AW + W) := by
      intro hcon
      exact hk1 (k - (st + r * AW)) (by omega) (by omega)
    rw [if_neg km]

theorem ZeroRow_row {S : Nat} (hS : 0 < S) (buf Data : List Nat) (st r sr W AW Wd : Nat)
    (hdst : (st + r * AW + Wd) * S ≤ buf.length) (hlen : buf.length < 2 ^ 32) :
    ∃ buf1, ZeroRow S buf
        { SrcData := Data, DestData := st * S, SrcRow := sr, DestRow := r, RowWidth := Wd,
          SrcTextureWidth := W, DestTextureWidth := AW } = some buf1 ∧
      RowsWritten S AW st Wd r (r + 1) (fun _ _ => List.replicate S 0) buf buf1 := by
  rw [ZeroRow_eq hS buf Data st r sr W AW Wd hdst hlen]
  obtain ⟨b1, c1, l1, p1⟩ := @Memzero_pixels S buf
    (st + r * AW) Wd hdst
  refine ⟨b1, c1, l1, ?_, ?_⟩
  · intro r1 c a1 a2 a3
    have hr : r1 = r := by omega
    subst hr
    rw [p1, if_pos (by omega)]
  · intro k hk
    rw [p1]
    have hk1 : ∀ c, c < Wd → k ≠ st + r * AW + c :=
      fun c hc => hk r c (le_refl _) (by omega) hc
    have km : ¬ (st + r * AW ≤ k ∧ k < st + r * AW + Wd) := by
      intro hcon
      exact hk1 (k - (st + r * AW)) (by omega) (by omega)
    rw [if_neg km]

/-! ### The whole blit -/

/-- The row loop: when every row of the range can be copied, the loop
returns and has written exactly those rows. -/
theorem CopyRows_rows {ps : ESlateTextureAtlasPaddingStyle} {S : Nat} (crd : FCopyRowData)
    (P AW st Wd lo hi L : Nat) (f : Nat → Nat → List Nat) (hAW : Wd ≤ AW)
    (hrow : ∀ (buf : List Nat) (r : Nat), lo ≤ r → r < hi → buf.length = L →
      ∃ buf1, CopyRow ps S buf { crd with SrcRow := u32sub r P, DestRow := r } = some buf1 ∧
        RowsWritten S AW st Wd r (r + 1) f buf buf1) :
    ∀ (n Row : Nat) (buf : List Nat), lo ≤ Row → Row + n ≤ hi → buf.length = L →
      ∃ buf1, CopyRows ps S crd P n Row buf = some buf1 ∧
        RowsWritten S AW st Wd Row (Row + n) f buf buf1 := by
  intro n
  induction n with
  | zero =>
    intro Row buf _ _ _
    exact ⟨buf, rfl, RowsWritten_none S AW st Wd Row f buf⟩
  | succ n ih =>
    intro Row buf h1 h2 h3
    obtain ⟨b1, c1, w1⟩ := hrow buf Row h1 (by omega) h3
    obtain ⟨b2, c2, w2⟩ := ih (Row + 1) b1 (by omega) (by omega) (by rw [w1.1, h3])
    refine ⟨b2, ?_, ?_⟩
    · simp only [CopyRows, c1, c2]
    · have e : Row + 1 + n = Row + (n + 1) := by omega
      rw [e] at w2
      exact RowsWritten_trans hAW (by omega) (by omega) w1 w2

theorem row_in_block {X Y Wd Ht AW r : Nat} (hX : X + Wd ≤ AW) (hr : r < Ht) :
    Y * AW + X + r * AW + Wd ≤ (Y + Ht) * AW := by
  have : (Y + r + 1) * AW ≤ (Y + Ht) * AW := Nat.mul_le_mul_right AW (by omega)
  simp only [Nat.add_mul, Nat.one_mul] at this ⊢
  omega

theorem src_row_in {sr H W : Nat} (h : sr < H) : sr * W + W ≤ W * H := by
  have : (sr + 1) * W ≤ H * W := Nat.mul_le_mul_right W (by omega)
  rw [Nat.add_mul, Nat.one_mul, Nat.mul_comm H W] at this
  exact this

/-- The start address of `CopyDataIntoSlot` without wrap-around. -/
theorem start_eq {S X Y AW M : Nat} (hS : 0 < S) (h : (Y * AW + X) * S ≤ M)
    (hM : M < 2 ^ 32) :
    u32 (u32 (u32 (Y * AW) * S) + u32 (X * S)) = (Y * AW + X) * S := by
  have m : ∀ {a b : Nat}, a ≤ b → a * S ≤ b * S := fun h => Nat.mul_le_mul_right S h
  have hM2 : (Y * AW + X) * S < 2 ^ 32 := by omega
  obtain ⟨d1, d2⟩ := u32_pixels hS (m (show Y * AW ≤ Y * AW + X by omega)) hM2
  obtain ⟨_, d3⟩ := u32_pixels hS (m (show X ≤ Y * AW + X by omega)) hM2
  rw [d1, d2, d3, ← Nat.add_mul]
  exact u32_of_lt hM2

theorem u32_zero : u32 0 = 0 := rfl

theorem u32sub_zero {v : Nat} (h : v < 2 ^ 32) : u32sub v 0 = v := by
  rw [u32sub_of_le (Nat.zero_le _) h]; rfl

/-- Sizes inside a block that fits the buffer are below `2 ^ 32`. -/
theorem block_sizes {S X Y Wd Ht AW L : Nat} (hS : 0 < S) (hWd : 1 ≤ Wd) (hHt : 1 ≤ Ht)
    (hX : X + Wd ≤ AW) (hlen1 : (Y + Ht) * AW * S ≤ L) (hlen2 : L < 2 ^ 32) :
    Wd < 2 ^ 32 ∧ Ht < 2 ^ 32 ∧ Wd * Ht * S < 2 ^ 32 := by
  have h1 : (Y + Ht) * AW ≤ (Y + Ht) * AW * S := Nat.le_mul_of_pos_right _ hS
  have h2 : Y + Ht ≤ (Y + Ht) * AW := Nat.le_mul_of_pos_right _ (by omega)
  have h3 : Wd * Ht ≤ AW * (Y + Ht) := Nat.mul_le_mul (by omega) (by omega)
  have h4 : Wd * Ht * S ≤ AW * (Y + Ht) * S := Nat.mul_le_mul_right S h3
  rw [Nat.mul_comm AW] at h4
  have h5 : Wd ≤ (Y + Ht) * AW := by
    calc Wd ≤ AW := by omega
      _ = 1 * AW := (Nat.one_mul _).symm
      _ ≤ (Y + Ht) * AW := Nat.mul_le_mul_right AW (by omega)
  exact ⟨by omega, by omega, by omega⟩

/-- The blit of a `W x H` source into a slot whose padded rectangle lies
inside the buffer, without `uint32` wrap-around: `CopyDataIntoSlot` returns,
and it has written exactly the rows of the slot, pixel `(r, c)` of the slot
now being the expected pixel. -/
theorem CopyDataIntoSlot_spec (a : FSlateTextureAtlas) (X Y W H Pd : Nat)
    (l r : FAtlasedTextureSlot) (Data : List Nat)
    (hS : 0 < a.Stride) (hW : 1 ≤ W) (hH : 1 ≤ H)
    (hX : X + (W + 2 * PaddingOf a.PaddingStyle) ≤ a.AtlasWidth)
    (hlen1 : (Y + (H + 2 * PaddingOf a.PaddingStyle)) * a.AtlasWidth * a.Stride
      ≤ a.AtlasData.length)
    (hlen2 : a.AtlasData.length < 2 ^ 32)
    (hsrc : W * H * a.Stride ≤ Data.length) :
    ∃ buf1, CopyDataIntoSlot a
        (node X Y (W + 2 * PaddingOf a.PaddingStyle) (H + 2 * PaddingOf a.PaddingStyle) Pd l r)
        Data = some buf1 ∧
      RowsWritten a.Stride a.AtlasWidth (Y * a.AtlasWidth + X)
        (W + 2 * PaddingOf a.PaddingStyle) 0 (H + 2 * PaddingOf a.PaddingStyle)
        (ExpectedPixel a.PaddingStyle a.Stride Data W H) a.AtlasData buf1 := by
  have m : ∀ {u v : Nat}, u ≤ v → u * a.Stride ≤ v * a.Stride :=
    fun h => Nat.mul_le_mul_right a.Stride h
  obtain ⟨hWd, hHt, _⟩ := block_sizes (Y := Y) hS (by omega) (by omega) hX hlen1 hlen2
  obtain ⟨_, _, hWH⟩ := @block_sizes a.Stride X Y W H a.AtlasWidth a.AtlasData.length hS hW hH (by omega)
    (le_trans (m (Nat.mul_le_mul_right a.AtlasWidth
      (show Y + H ≤ Y + (H + 2 * PaddingOf a.PaddingStyle) by omega))) hlen1) hlen2
  have hst := @start_eq a.Stride X Y a.AtlasWidth a.AtlasData.length hS
    (le_trans (m (by
      have := row_in_block (Y := Y) (r := 0) hX
        (show 0 < H + 2 * PaddingOf a.PaddingStyle by omega)
      omega)) hlen1) hlen2
  -- every destination row lies in the buffer
  have hdst : ∀ (b : List Nat) (r : Nat), r < H + 2 * PaddingOf a.PaddingStyle →
      b.length = a.AtlasData.length →
      (Y * a.AtlasWidth + X + r * a.AtlasWidth + (W + 2 * PaddingOf a.PaddingStyle)) * a.Stride
        ≤ b.length := by
    intro b r hr hb
    rw [hb]
    exact le_trans (m (row_in_block hX hr)) hlen1
  -- every source row lies in the source
  have hsrow : ∀ sr, sr < H → (sr * W + W) * a.Stride ≤ Data.length ∧
      (sr * W + W) * a.Stride < 2 ^ 32 := by
    intro sr hsr
    have := m (src_row_in (W := W) hsr)
    omega
  unfold CopyDataIntoSlot
  simp only [X_node, Y_node, Width_node, Height_node, hst]
  cases hps : a.PaddingStyle with
  | NoPadding =>
    have hp : PaddingOf NoPadding = 0 := rfl
    simp only [hps, hp, Nat.mul_zero, Nat.add_zero, Nat.zero_mul, u32_zero] at hdst hWd hHt hX ⊢
    simp only [u32sub_zero hWd, u32sub_zero hHt]
    rw [Nat.sub_zero]
    simp only [gt_iff_lt, Nat.lt_irrefl, if_false]
    obtain ⟨b1, c1, w1⟩ := @CopyRows_rows NoPadding a.Stride
      { SrcData := Data, DestData := (Y * a.AtlasWidth + X) * a.Stride, SrcRow := 0,
        DestRow := 0, RowWidth := W, SrcTextureWidth := W, DestTextureWidth := a.AtlasWidth }
      0 a.AtlasWidth (Y * a.AtlasWidth + X) W 0 H a.AtlasData.length
      (ExpectedPixel NoPadding a.Stride Data W H) (by omega)
      (by
        intro b r _ hr hb
        simp only [u32sub_zero (show r < 2 ^ 32 by omega)]
        obtain ⟨b1, c1, w1⟩ := CopyRow_plain_row hS b Data _ r r W a.AtlasWidth
          (hdst b r hr hb) (by omega) (hsrow r hr).1 (hsrow r hr).2
        refine ⟨b1, c1, RowsWritten_congr (fun r1 c h1 h2 _ => ?_) w1⟩
        have : r1 = r := by omega
        subst this
        rfl)
      H 0 a.AtlasData (le_refl _) (by omega) rfl
    rw [Nat.zero_add] at w1
    exact ⟨b1, by rw [c1], w1⟩
  | DilateBorder =>
    have hp : PaddingOf DilateBorder = 1 := rfl
    have h2 : u32 (1 * 2) = 2 := rfl
    simp only [hps, hp, Nat.mul_one, h2] at hdst hWd hHt hX ⊢
    have e1 : u32sub (W + 2) 2 = W := by rw [u32sub_of_le (by omega) hWd]; omega
    have e2 : u32sub (H + 2) 2 = H := by rw [u32sub_of_le (by omega) hHt]; omega
    have e3 : u32sub (H + 2) 1 = H + 1 := by rw [u32sub_of_le (by omega) hHt]; omega
    have e4 : u32sub H 1 = H - 1 := u32sub_of_le hH (by omega)
    have e5 : H + 1 - 1 = H := by omega
    simp only [e1, e2, e3, e4, e5]
    simp only [gt_iff_lt, Nat.zero_lt_one, if_true]
    -- the padding row above the bitmap
    obtain ⟨b1, c1, w1⟩ := CopyRow_dilate_row hS a.AtlasData Data (Y * a.AtlasWidth + X) 0 0 W
      a.AtlasWidth hW (hdst _ 0 (by omega) rfl) hlen2 (hsrow 0 (by omega)).1
      (hsrow 0 (by omega)).2
    have w1e : RowsWritten a.Stride a.AtlasWidth (Y * a.AtlasWidth + X) (W + 2) 0 1
        (ExpectedPixel DilateBorder a.Stride Data W H) a.AtlasData b1 := by
      refine RowsWritten_congr (fun r1 c h1 h2 _ => ?_) w1
      have : r1 = 0 := by omega
      subst this
      simp [ExpectedPixel]
    -- the rows of the bitmap
    obtain ⟨b2, c2, w2⟩ := @CopyRows_rows DilateBorder a.Stride
      { SrcData := Data, DestData := (Y * a.AtlasWidth + X) * a.Stride, SrcRow := 0,
        DestRow := 0, RowWidth := W + 2, SrcTextureWidth := W,
        DestTextureWidth := a.AtlasWidth }
      1 a.AtlasWidth (Y * a.AtlasWidth + X) (W + 2) 1 (H + 1) a.AtlasData.length
      (ExpectedPixel DilateBorder a.Stride Data W H) (by omega)
      (by
        intro b r hr1 hr hb
        simp only [u32sub_of_le hr1 (show r < 2 ^ 32 by omega)]
        obtain ⟨b1, c1, w1⟩ := CopyRow_dilate_row hS b Data (Y * a.AtlasWidth + X) r (r - 1) W
          a.AtlasWidth hW (hdst b r (by omega) hb) (by omega) (hsrow (r - 1) (by omega)).1
          (hsrow (r - 1) (by omega)).2
        refine ⟨b1, c1, RowsWritten_congr (fun r1 c h1 h2 _ => ?_) w1⟩
        have : r1 = r := by omega
        subst this
        have : min (r1 - 1) (H - 1) = r1 - 1 := by omega
        simp only [ExpectedPixel, this])
      H 1 b1 (le_refl _) (by omega) w1.1
    -- the padding row below the bitmap
    obtain ⟨b3, c3, w3⟩ := CopyRow_dilate_row hS b2 Data (Y * a.AtlasWidth + X) (H + 1) (H - 1)
      W a.AtlasWidth hW (hdst b2 (H + 1) (by omega) (by rw [w2.1, w1.1]))
      (by rw [w2.1, w1.1]; exact hlen2) (hsrow (H - 1) (by omega)).1
      (hsrow (H - 1) (by omega)).2
    have w3e : RowsWritten a.Stride a.AtlasWidth (Y * a.AtlasWidth + X) (W + 2) (H + 1)
        (H + 2) (ExpectedPixel DilateBorder a.Stride Data W H) b2 b3 := by
      refine RowsWritten_congr (fun r1 c h1 h2 _ => ?_) w3
      have : r1 = H + 1 := by omega
      subst this
      have : min (H + 1 - 1) (H - 1) = H - 1 := by omega
      simp only [ExpectedPixel, this]
    rw [Nat.add_comm 1 H] at w2
    refine ⟨b3, ?_, ?_⟩
    · simp only [c1, c2, c3]
    · exact RowsWritten_trans (by omega) (by omega) (by omega)
        (RowsWritten_trans (by omega) (by omega) (by omega) w1e w2) w3e
  | PadWithZero =>
    have hp : PaddingOf PadWithZero = 1 := rfl
    have h2 : u32 (1 * 2) = 2 := rfl
    simp only [hps, hp, Nat.mul_one, h2] at hdst hWd hHt hX ⊢
    have e1 : u32sub (W + 2) 2 = W := by rw [u32sub_of_le (by omega) hWd]; omega
    have e2 : u32sub (H + 2) 2 = H := by rw [u32sub_of_le (by omega) hHt]; omega
    have e3 : u32sub (H + 2) 1 = H + 1 := by rw [u32sub_of_le (by omega) hHt]; omega
    have e4 : u32sub H 1 = H - 1 := u32sub_of_le hH (by omega)
    have e5 : H + 1 - 1 = H := by omega
    simp only [e1, e2, e3, e4, e5]
    simp only [gt_iff_lt, Nat.zero_lt_one, if_true, reduceCtorEq, if_false]
    -- the padding row above the bitmap
    obtain ⟨b1, c1, w1⟩ := ZeroRow_row hS a.AtlasData Data (Y * a.AtlasWidth + X) 0 0 W
      a.AtlasWidth (W + 2) (hdst _ 0 (by omega) rfl) hlen2
    have w1e : RowsWritten a.Stride a.AtlasWidth (Y * a.AtlasWidth + X) (W + 2) 0 1
        (ExpectedPixel PadWithZero a.Stride Data W H) a.AtlasData b1 := by
      refine RowsWritten_congr (fun r1 c h1 h2 _ => ?_) w1
      have : r1 = 0 := by omega
      subst this
      simp [ExpectedPixel]
    -- the rows of the bitmap
    obtain ⟨b2, c2, w2⟩ := @CopyRows_rows PadWithZero a.Stride
      { SrcData := Data, DestData := (Y * a.AtlasWidth + X) * a.Stride, SrcRow := 0,
        DestRow := 0, RowWidth := W + 2, SrcTextureWidth := W,
        DestTextureWidth := a.AtlasWidth }
      1 a.AtlasWidth (Y * a.AtlasWidth + X) (W + 2) 1 (H + 1) a.AtlasData.length
      (ExpectedPixel PadWithZero a.Stride Data W H) (by omega)
      (by
        intro b r hr1 hr hb
        simp only [u32sub_of_le hr1 (show r < 2 ^ 32 by omega)]
        obtain ⟨b1, c1, w1⟩ := CopyRow_zero_row hS b Data (Y * a.AtlasWidth + X) r (r - 1) W
          a.AtlasWidth hW (hdst b r (by omega) hb) (by omega) (hsrow (r - 1) (by omega)).1
          (hsrow (r - 1) (by omega)).2
        refine ⟨b1, c1, RowsWritten_congr (fun r1 c h1 h2 _ => ?_) w1⟩
        have : r1 = r := by omega
        subst this
        have h0 : ¬ r1 = 0 := by omega
        have h1 : ¬ r1 = H + 1 := by omega
        simp only [ExpectedPixel, h0, h1, false_or])
      H 1 b1 (le_refl _) (by omega) w1.1
    -- the padding row below the bitmap
    obtain ⟨b3, c3, w3⟩ := ZeroRow_row hS b2 Data (Y * a.AtlasWidth + X) (H + 1) (H - 1)
      W a.AtlasWidth (W + 2) (hdst b2 (H + 1) (by omega) (by rw [w2.1, w1.1]))
      (by rw [w2.1, w1.1]; exact hlen2)
    have w3e : RowsWritten a.Stride a.AtlasWidth (Y * a.AtlasWidth + X) (W + 2) (H + 1)
        (H + 2) (ExpectedPixel PadWithZero a.Stride Data W H) b2 b3 := by
      refine RowsWritten_congr (fun r1 c h1 h2 _ => ?_) w3
      have : r1 = H + 1 := by omega
      subst this
      simp [ExpectedPixel]
    rw [Nat.add_comm 1 H] at w2
    refine ⟨b3, ?_, ?_⟩
    · simp only [c1, c2, c3]
    · exact RowsWritten_trans (by omega) (by omega) (by omega)
        (RowsWritten_trans (by omega) (by omega) (by omega) w1e w2) w3e

/-! ### The buffer keeps its length -/

theorem CopyRow_length {ps : ESlateTextureAtlasPaddingStyle} {S : Nat} {buf buf1 : List Nat}
    {crd : FCopyRowData} (h : CopyRow ps S buf crd = some buf1) : buf1.length = buf.length := by
  unfold CopyRow at h
  simp only at h
  split at h
  · simp at h
  · rename_i b1 h1
    have l1 := Memcpy_length h1
    split at h
    · split at h
      · split at h
        · simp at h
        · rename_i b2 h2
          rw [Memcpy_length h, Memcpy_length h2, l1]
      · split at h
        · simp at h
        · rename_i b2 h2
          rw [Memzero_length h, Memzero_length h2, l1]
    · simp only [Option.some.injEq] at h
      rw [← h, l1]

theorem ZeroRow_length {S : Nat} {buf buf1 : List Nat} {crd : FCopyRowData}
    (h : ZeroRow S buf crd = some buf1) : buf1.length = buf.length := by
  unfold ZeroRow at h
  exact Memzero_length h

theorem CopyRows_length {ps : ESlateTextureAtlasPaddingStyle} {S P : Nat}
    {crd : FCopyRowData} :
    ∀ (n Row : Nat) (buf buf1 : List Nat),
      CopyRows ps S crd P n Row buf = some buf1 → buf1.length = buf.length := by
  intro n
  induction n with
  | zero =>
    intro Row buf buf1 h
    simp only [CopyRows, Option.some.injEq] at h
    rw [h]
  | succ n ih =>
    intro Row buf buf1 h
    simp only [CopyRows] at h
    split at h
    · simp at h
    · rename_i b1 h1
      rw [ih _ _ _ h, CopyRow_length h1]

/-- `CopyDataIntoSlot` never changes the length of the buffer. -/
theorem CopyDataIntoSlot_length {a : FSlateTextureAtlas} {s : FAtlasedTextureSlot}
    {Data buf1 : List Nat} (h : CopyDataIntoSlot a s Data = some buf1) :
    buf1.length = a.AtlasData.length := by
  unfold CopyDataIntoSlot at h
  simp only at h
  split at h
  · simp at h
  · rename_i b1 h1
    have l1 : b1.length = a.AtlasData.length := by
      split at h1
      · split at h1
        · exact CopyRow_length h1
        · exact ZeroRow_length h1
      · simp only [Option.some.injEq] at h1
        rw [h1]
    split at h
    · simp at h
    · rename_i b2 h2
      have l2 := CopyRows_length _ _ _ _ h2
      split at h
      · split at h
        · rw [CopyRow_length h, l2, l1]
        · rw [ZeroRow_length h, l2, l1]
      · simp only [Option.some.injEq] at h
        rw [← h, l2, l1]

/-- `AddTexture` never changes the length of the buffer. -/
theorem AddTexture_length {a a1 : FSlateTextureAtlas} {w h : Nat} {d : List Nat}
    {r : Option (List Bool)} (hadd : AddTexture a w h d = some (r, a1)) :
    a1.AtlasData.length = a.AtlasData.length := by
  obtain ⟨hroot, hfind, _⟩ := AddTexture_find hadd
  rw [AddTexture_eq a w h d hroot, hfind] at hadd
  cases r with
  | none =>
    simp only [Option.some.injEq, Prod.mk.injEq, true_and] at hadd
    rw [← hadd]
  | some p =>
    simp only at hadd
    split at hadd
    · split at hadd
      · simp at hadd
      · rename_i b hb
        simp only [Option.some.injEq, Prod.mk.injEq, true_and] at hadd
        rw [← hadd]
        exact CopyDataIntoSlot_length hb
    · simp only [Option.some.injEq, Prod.mk.injEq, true_and] at hadd
      rw [← hadd]

theorem AddTextures_length :
    ∀ (reqs : List (Nat × Nat × List Nat)) (a a2 : FSlateTextureAtlas)
      (res : List (Option (List Bool))),
      AddTextures a reqs = some (res, a2) → a2.AtlasData.length = a.AtlasData.length := by
  intro reqs
  induction reqs with
  | nil =>
    intro a a2 res hrun
    simp only [AddTextures, Option.some.injEq, Prod.mk.injEq] at hrun
    rw [← hrun.2]
  | cons req rest ih =>
    intro a a2 res hrun
    obtain ⟨w, h, d⟩ := req
    simp only [AddTextures] at hrun
    rcases hadd : AddTexture a w h d with _ | ⟨r, a1⟩
    · simp [hadd] at hrun
    · simp only [hadd] at hrun
      rcases hrest : AddTextures a1 rest with _ | ⟨rs, a3⟩
      · simp [hrest] at hrun
      · simp only [hrest, Option.some.injEq, Prod.mk.injEq] at hrun
        obtain ⟨_, rfl⟩ := hrun
        rw [ih a1 a3 rs hrest, AddTexture_length hadd]

/-! ### The blit of `AddTexture` -/

theorem AtlasInv_init {a0 a1 : FSlateTextureAtlas} (hinit : InitAtlasData a0 = some a1)
    (hW : a0.AtlasWidth < 2 ^ 32) (hH : a0.AtlasHeight < 2 ^ 32)
    (hsize : a0.AtlasWidth * a0.AtlasHeight * a0.Stride < 2 ^ 32) : AtlasInv a1 := by
  have hP := InitAtlasData_packed hinit
  obtain ⟨_, hd, eW, eH, eS, _⟩ := InitAtlasData_root hinit
  refine ⟨by omega, by omega, hP, ?_, by rw [eW, eH, eS]; exact hsize⟩
  rw [hd, List.length_replicate, eW, eH, eS]
  by_cases hS : a0.Stride = 0
  · rw [hS]; rfl
  · have := u32_pixels (Nat.pos_of_ne_zero hS) (le_refl _) hsize
    rw [this.1, this.2]

theorem AtlasInv_run {a a2 : FSlateTextureAtlas} {reqs : List (Nat × Nat × List Nat)}
    {res : List (Option (List Bool))} (hinv : AtlasInv a)
    (hrun : AddTextures a reqs = some (res, a2)) : AtlasInv a2 := by
  obtain ⟨hW, hH, hP, hl, hs⟩ := hinv
  obtain ⟨hP2, ⟨cW, cH, cS, _⟩, _⟩ := AddTextures_inv reqs a a2 res hrun hW hH hP
  have hl2 := AddTextures_length reqs a a2 res hrun
  refine ⟨by omega, by omega, by rw [cW, cH]; exact hP2, ?_, ?_⟩
  · rw [hl2, hl, cW, cH, cS]
  · rw [cW, cH, cS]; exact hs

theorem TotalPadding_eq_two_mul (ps : ESlateTextureAtlasPaddingStyle) :
    TotalPadding ps = 2 * PaddingOf ps := by
  cases ps <;> rfl

/-- What a successful `AddTexture` of a non-empty bitmap does on an atlas
whose buffer size did not wrap around: the returned slot has the padded size
of the request and lies inside the canvas, and the buffer changes exactly by
the rows of the slot, which hold the expected pixels. -/
theorem AddTexture_blit {a a1 : FSlateTextureAtlas} {w h : Nat} {d : List Nat}
    {p : List Bool} (hinv : AtlasInv a) (hS : 0 < a.Stride) (hw : 1 ≤ w) (hh : 1 ≤ h)
    (hw2 : w + TotalPadding a.PaddingStyle < 2 ^ 32)
    (hh2 : h + TotalPadding a.PaddingStyle < 2 ^ 32)
    (hd : w * h * a.Stride ≤ d.length)
    (hadd : AddTexture a w h d = some (some p, a1)) :
    (slotAt a1.RootNode p).Width = w + 2 * PaddingOf a.PaddingStyle ∧
    (slotAt a1.RootNode p).Height = h + 2 * PaddingOf a.PaddingStyle ∧
    (slotAt a1.RootNode p).X + (slotAt a1.RootNode p).Width ≤ a.AtlasWidth ∧
    (slotAt a1.RootNode p).Y + (slotAt a1.RootNode p).Height ≤ a.AtlasHeight ∧
    RowsWritten a.Stride a.AtlasWidth
      ((slotAt a1.RootNode p).Y * a.AtlasWidth + (slotAt a1.RootNode p).X)
      (w + 2 * PaddingOf a.PaddingStyle) 0 (h + 2 * PaddingOf a.PaddingStyle)
      (ExpectedPixel a.PaddingStyle a.Stride d w h) a.AtlasData a1.AtlasData := by
  obtain ⟨hW, hH, hP, hl, hs⟩ := hinv
  obtain ⟨hroot, hfind, _⟩ := AddTexture_find hadd
  have hP1 : Packed a1.RootNode 0 0 a.AtlasWidth a.AtlasHeight :=
    find_packed hP (by omega) (by omega) hfind
  obtain ⟨X, Y, W, H, Pd, s, h1, h2, h3⟩ := find_some _ w h _ _ p hfind
  obtain ⟨_, _, _, sX, sY, sW, sH, _, _, sSet⟩ := find_leaf_some h2
  have hself : slotAt a1.RootNode p = s := by
    rw [h3]; exact slotAt_replaceAt_self s _ p (by rw [h1]; rfl)
  have hb := hP1.bounds p (by rw [hself]; exact sSet)
  rw [u32_of_lt hw2, TotalPadding_eq_two_mul] at sW
  rw [u32_of_lt hh2, TotalPadding_eq_two_mul] at sH
  rw [AddTexture_eq a w h d hroot, hfind] at hadd
  simp only at hadd
  rw [if_pos (show w > 0 ∧ h > 0 from ⟨hw, hh⟩)] at hadd
  rw [hself] at hadd hb ⊢
  cases s with
  | null => simp [FAtlasedTextureSlot.isSet] at sSet
  | node X1 Y1 W1 H1 P1 l1 r1 =>
    simp only [X_node, Y_node, Width_node, Height_node] at sX sY sW sH hb ⊢
    subst sW sH
    have hlen1 : (Y1 + (h + 2 * PaddingOf a.PaddingStyle)) * a.AtlasWidth * a.Stride
        ≤ a.AtlasData.length := by
      rw [hl]
      apply Nat.mul_le_mul_right
      rw [Nat.mul_comm a.AtlasWidth]
      exact Nat.mul_le_mul_right _ (by omega)
    obtain ⟨b1, c1, w1⟩ := CopyDataIntoSlot_spec
      { a with RootNode := a1.RootNode } X1 Y1 w h P1 l1 r1 d hS hw hh (by simp only; omega)
      hlen1 (by simp only; omega) hd
    simp only at c1 w1
    rw [c1] at hadd
    simp only [Option.some.injEq, Prod.mk.injEq, true_and] at hadd
    have hbuf : a1.AtlasData = b1 := by rw [← hadd]
    rw [hbuf]
    exact ⟨rfl, rfl, by omega, by omega, w1⟩

/-! ### Claims on the pixels of a placement -/

theorem ReadBytes_zero (buf : List Nat) (off : Nat) : ReadBytes buf off 0 = [] := by
  unfold ReadBytes
  exact List.take_zero _

/-- A run of pixels that agree one by one agrees as a run of bytes. -/
theorem ReadBytes_of_pixels {S : Nat} {b1 b2 : List Nat} {k1 k2 : Nat} :
    ∀ (n : Nat), (∀ c, c < n → Pixel S b1 (k1 + c) = Pixel S b2 (k2 + c)) →
      ReadBytes b1 (k1 * S) (n * S) = ReadBytes b2 (k2 * S) (n * S) := by
  intro n
  induction n with
  | zero => intro _; rw [Nat.zero_mul, ReadBytes_zero, ReadBytes_zero]
  | succ n ih =>
    intro h
    rw [Nat.add_mul, Nat.one_mul, ReadBytes_add, ReadBytes_add,
      ih (fun c hc => h c (by omega))]
    have := h n (by omega)
    unfold Pixel at this
    rw [Nat.add_mul, Nat.add_mul] at this
    rw [this]

/-- C3 as stated fails on an atlas whose buffer size wraps around in `uint32`
(`1431655766 * 3 * 3 = 6` modulo `2 ^ 32`): a 1 x 2 bitmap is placed at
`(0, 0)` without fault, its second row lands on byte offset 2, and the bytes
read back for row 0 are `[1, 2, 4]`, not the source row `[1, 2, 3]`. -/
theorem C3_round_trip_counterexample :
    ∃ a1 a2, InitAtlasData (wrapAtlas NoPadding 3) = some a1 ∧
      AddTexture a1 1 2 [1, 2, 3, 4, 5, 6] = some (some [], a2) ∧
      (slotAt a2.RootNode []).X = 0 ∧ (slotAt a2.RootNode []).Y = 0 ∧
      a2.AtlasData = [1, 2, 4, 5, 6, 0] ∧
      ReadBytes a2.AtlasData
          ((((slotAt a2.RootNode []).Y + 0) * 1431655766 + (slotAt a2.RootNode []).X) * 3)
          (1 * 3)
        ≠ ReadBytes [1, 2, 3, 4, 5, 6] (0 * 1 * 3) (1 * 3) :=
  ⟨_, _, rfl, rfl, rfl, rfl, rfl, by decide⟩

/-- C4 as stated fails on an atlas whose buffer size wraps around in `uint32`
(`1431655766 * 7 * 3 = 14` modulo `2 ^ 32`): a 1 x 1 bitmap `[1, 2, 3]` is
placed at `(0, 0)` without fault, the three rows of its 3 x 3 region land on
byte offsets 0, 2 and 4, and region pixel `(0, 0)` reads `[1, 2, 1]`, not
the source pixel `[1, 2, 3]`. -/
theorem C4_dilate_counterexample :
    ∃ a1 a2, InitAtlasData (wrapAtlas DilateBorder 7) = some a1 ∧
      AddTexture a1 1 1 [1, 2, 3] = some (some [], a2) ∧
      (slotAt a2.RootNode []).X = 0 ∧ (slotAt a2.RootNode []).Y = 0 ∧
      a2.AtlasData = [1, 2, 1, 2, 1, 2, 3, 1, 2, 3, 1, 2, 3, 0] ∧
      Pixel 3 a2.AtlasData
          (((slotAt a2.RootNode []).Y + 0) * 1431655766 + ((slotAt a2.RootNode []).X + 0))
        ≠ Pixel 3 [1, 2, 3] (min (0 - 1) (1 - 1) * 1 + min (0 - 1) (1 - 1)) :=
  ⟨_, _, rfl, rfl, rfl, rfl, rfl, by decide⟩

/-- C5 as stated fails on an atlas whose buffer size wraps around in `uint32`
(`1431655766 * 7 * 3 = 14` modulo `2 ^ 32`): a 1 x 1 bitmap `[1, 2, 3]` is
placed at `(0, 0)` without fault, the zeroed last row lands on the copied
middle row, and the whole buffer is zero afterwards: the interior pixel
`(1, 1)` of the region does not hold the source pixel. -/
theorem C5_zero_pad_counterexample :
    ∃ a1 a2, InitAtlasData (wrapAtlas PadWithZero 7) = some a1 ∧
      AddTexture a1 1 1 [1, 2, 3] = some (some [], a2) ∧
      (slotAt a2.RootNode []).X = 0 ∧ (slotAt a2.RootNode []).Y = 0 ∧
      a2.AtlasData = List.replicate 14 0 ∧
      Pixel 3 a2.AtlasData
          (((slotAt a2.RootNode []).Y + 1) * 1431655766 + ((slotAt a2.RootNode []).X + 1))
        ≠ Pixel 3 [1, 2, 3] ((1 - 1) * 1 + (1 - 1)) :=
  ⟨_, _, rfl, rfl, rfl, rfl, rfl, by decide⟩

theorem pixel_index (X Y AW r c : Nat) :
    Y * AW + X + r * AW + c = (Y + r) * AW + (X + c) := by
  rw [Nat.add_mul]; omega

/-- The stored size of the slot a successful search returns. -/
theorem find_some_size {ps : ESlateTextureAtlasPaddingStyle} {t t1 : FAtlasedTextureSlot}
    {w h : Nat} {p : List Bool} (hfind : FindSlotForTexture ps t w h = (some p, t1)) :
    (slotAt t1 p).Width = u32 (w + TotalPadding ps) ∧
    (slotAt t1 p).Height = u32 (h + TotalPadding ps) := by
  obtain ⟨X, Y, W, H, P, s, h1, h2, h3⟩ := find_some ps w h t t1 p hfind
  obtain ⟨_, _, _, _, _, sW, sH, _, _, _⟩ := find_leaf_some h2
  have hself : slotAt t1 p = s := by
    rw [h3]; exact slotAt_replaceAt_self s t p (by rw [h1]; rfl)
  rw [hself]
  exact ⟨sW, sH⟩

/-- C3 (round-trip pixel fidelity, amended): take an atlas set up by
`InitAtlasData` whose buffer size `AtlasWidth * AtlasHeight * Stride` is
below `2 ^ 32` (no `uint32` wrap-around), with `PaddingStyle = NoPadding`,
in the state reached by any run of `AddTexture` calls.  For `W ≥ 1`, `H ≥ 1`
and a source of `W * H * Stride` bytes, if `AddTexture W H source` returns a
slot, that slot is `W x H` and, for every row `r < H`, the `W * Stride`
buffer bytes at offset `((slot.Y + r) * AtlasWidth + slot.X) * Stride` are
the source bytes of row `r`. -/
theorem C3_round_trip (a0 a1 a2 a3 : FSlateTextureAtlas)
    (reqs : List (Nat × Nat × List Nat)) (res : List (Option (List Bool)))
    (W H : Nat) (Data : List Nat) (p : List Bool)
    (hAW : a0.AtlasWidth < 2 ^ 32) (hAH : a0.AtlasHeight < 2 ^ 32)
    (hsize : a0.AtlasWidth * a0.AtlasHeight * a0.Stride < 2 ^ 32)
    (hps : a0.PaddingStyle = NoPadding)
    (hinit : InitAtlasData a0 = some a1)
    (hrun : AddTextures a1 reqs = some (res, a2))
    (hW : 1 ≤ W) (hH : 1 ≤ H) (hW32 : W < 2 ^ 32) (hH32 : H < 2 ^ 32)
    (hData : Data.length = W * H * a0.Stride)
    (hadd : AddTexture a2 W H Data = some (some p, a3)) :
    (slotAt a3.RootNode p).Width = W ∧ (slotAt a3.RootNode p).Height = H ∧
    ∀ r, r < H →
      ReadBytes a3.AtlasData
          ((((slotAt a3.RootNode p).Y + r) * a0.AtlasWidth + (slotAt a3.RootNode p).X)
            * a0.Stride) (W * a0.Stride)
        = ReadBytes Data (r * W * a0.Stride) (W * a0.Stride) := by
  have hinv := AtlasInv_run (AtlasInv_init hinit hAW hAH hsize) hrun
  obtain ⟨_, _, eW, eH, eS, ePS, _⟩ := InitAtlasData_root hinit
  obtain ⟨_, ⟨cW, cH, cS, cPS⟩, _⟩ := AddTextures_inv reqs a1 a2 res hrun (by omega) (by omega)
    (InitAtlasData_packed hinit)
  have hps2 : a2.PaddingStyle = NoPadding := by rw [cPS, ePS, hps]
  obtain ⟨_, hfind, _⟩ := AddTexture_find hadd
  have hfoot := find_some_size hfind
  rw [hps2, TotalPadding_eq, if_pos rfl, Nat.add_zero, Nat.add_zero] at hfoot
  refine ⟨by rw [hfoot.1]; exact u32_of_lt hW32, by rw [hfoot.2]; exact u32_of_lt hH32, ?_⟩
  intro r hr
  by_cases hS : a0.Stride = 0
  · simp only [hS, Nat.mul_zero, ReadBytes_zero]
  · have hS2 : 0 < a2.Stride := by rw [cS, eS]; exact Nat.pos_of_ne_zero hS
    obtain ⟨_, _, _, _, _, hin, _⟩ := AddTexture_blit hinv hS2 hW hH
      (by rw [hps2, TotalPadding_eq, if_pos rfl]; omega)
      (by rw [hps2, TotalPadding_eq, if_pos rfl]; omega)
      (by rw [hData, cS, eS]) hadd
    rw [hps2] at hin
    simp only [show PaddingOf NoPadding = 0 from rfl, Nat.mul_zero, Nat.add_zero] at hin
    rw [cS, eS, cW, eW] at hin
    apply ReadBytes_of_pixels
    intro c hc
    have := hin r c (Nat.zero_le _) hr hc
    rw [pixel_index] at this
    rw [← Nat.add_assoc] at this
    rw [this]
    rfl

theorem C3_round_trip_witness :
    ∃ res a2 a3, AddTextures (sampleInit NoPadding) sampleRequests = some (res, a2) ∧
      AddTexture a2 2 2 [5, 6, 7, 8] = some (some [false, true, true], a3) ∧
      (slotAt a3.RootNode [false, true, true]).X = 0 ∧
      (slotAt a3.RootNode [false, true, true]).Y = 3 ∧
      ((slotAt a3.RootNode [false, true, true]).Width = 2 ∧
        (slotAt a3.RootNode [false, true, true]).Height = 2 ∧
        ∀ r, r < 2 →
          ReadBytes a3.AtlasData
              ((((slotAt a3.RootNode [false, true, true]).Y + r) * (sampleAtlas NoPadding).AtlasWidth
                + (slotAt a3.RootNode [false, true, true]).X) * (sampleAtlas NoPadding).Stride)
              (2 * (sampleAtlas NoPadding).Stride)
            = ReadBytes [5, 6, 7, 8] (r * 2 * (sampleAtlas NoPadding).Stride)
              (2 * (sampleAtlas NoPadding).Stride)) :=
  ⟨_, _, _, rfl, rfl, rfl, rfl,
    C3_round_trip (sampleAtlas NoPadding) (sampleInit NoPadding) _ _ sampleRequests _ 2 2
      [5, 6, 7, 8] [false, true, true] (by decide) (by decide) (by decide) rfl rfl rfl
      (by decide) (by decide) (by decide) (by decide) rfl rfl⟩

theorem dims_le_size {W H S : Nat} (hW : 1 ≤ W) (hH : 1 ≤ H) (hS : 0 < S) :
    W ≤ W * H * S ∧ H ≤ W * H * S := by
  have h1 : W ≤ W * H := Nat.le_mul_of_pos_right W (by omega)
  have h2 : H ≤ W * H := Nat.le_mul_of_pos_left H (by omega)
  have h3 : W * H ≤ W * H * S := Nat.le_mul_of_pos_right _ hS
  omega

/-- The pixels of a padded placement, for both padding styles: the common
part of C4 and C5. -/
theorem padded_blit {a0 a1 a2 a3 : FSlateTextureAtlas}
    {reqs : List (Nat × Nat × List Nat)} {res : List (Option (List Bool))}
    {W H : Nat} {Data : List Nat} {p : List Bool}
    (hAW : a0.AtlasWidth < 2 ^ 32) (hAH : a0.AtlasHeight < 2 ^ 32)
    (hsize : a0.AtlasWidth * a0.AtlasHeight * a0.Stride < 2 ^ 32)
    (hps : a0.PaddingStyle ≠ NoPadding)
    (hinit : InitAtlasData a0 = some a1)
    (hrun : AddTextures a1 reqs = some (res, a2))
    (hW : 1 ≤ W) (hH : 1 ≤ H) (hS : 0 < a0.Stride)
    (hData : Data.length = W * H * a0.Stride) (hArr : Data.length < 2 ^ 31)
    (hadd : AddTexture a2 W H Data = some (some p, a3)) :
    ∀ r c, r < H + 2 → c < W + 2 →
      Pixel a0.Stride a3.AtlasData
          (((slotAt a3.RootNode p).Y + r) * a0.AtlasWidth + ((slotAt a3.RootNode p).X + c))
        = ExpectedPixel a0.PaddingStyle a0.Stride Data W H r c := by
  have hinv := AtlasInv_run (AtlasInv_init hinit hAW hAH hsize) hrun
  obtain ⟨_, _, eW, eH, eS, ePS, _⟩ := InitAtlasData_root hinit
  obtain ⟨_, ⟨cW, cH, cS, cPS⟩, _⟩ := AddTextures_inv reqs a1 a2 res hrun (by omega) (by omega)
    (InitAtlasData_packed hinit)
  have hps2 : a2.PaddingStyle = a0.PaddingStyle := by rw [cPS, ePS]
  have hpad : PaddingOf a0.PaddingStyle = 1 := by simp [PaddingOf, hps]
  have htot : TotalPadding a0.PaddingStyle = 2 := by rw [TotalPadding_eq, if_neg hps]
  have hdims := dims_le_size hW hH hS
  obtain ⟨_, _, _, _, _, hin, _⟩ := AddTexture_blit hinv (by rw [cS, eS]; exact hS) hW hH
    (by rw [hps2, htot]; omega) (by rw [hps2, htot]; omega)
    (by rw [hData, cS, eS]) hadd
  rw [hps2, hpad, cS, eS, cW, eW] at hin
  intro r c hr hc
  have := hin r c (Nat.zero_le _) (by omega) (by omega)
  rw [pixel_index] at this
  exact this

/-- C4 (dilate padding, amended): take an atlas set up by `InitAtlasData`
whose buffer size `AtlasWidth * AtlasHeight * Stride` is below `2 ^ 32` (no
`uint32` wrap-around), with `PaddingStyle = DilateBorder`, in the state
reached by any run of `AddTexture` calls.  For `W ≥ 1`, `H ≥ 1` and a source
array of `W * H * Stride` bytes (an array holds fewer than `2 ^ 31`), if
`AddTexture W H source` returns a slot, then pixel `(r, c)` of the
`(W+2) x (H+2)` region at the slot is the source pixel
`(clamp (r-1) 0 (H-1), clamp (c-1) 0 (W-1))`. -/
theorem C4_dilate_padding (a0 a1 a2 a3 : FSlateTextureAtlas)
    (reqs : List (Nat × Nat × List Nat)) (res : List (Option (List Bool)))
    (W H : Nat) (Data : List Nat) (p : List Bool)
    (hAW : a0.AtlasWidth < 2 ^ 32) (hAH : a0.AtlasHeight < 2 ^ 32)
    (hsize : a0.AtlasWidth * a0.AtlasHeight * a0.Stride < 2 ^ 32)
    (hps : a0.PaddingStyle = DilateBorder)
    (hinit : InitAtlasData a0 = some a1)
    (hrun : AddTextures a1 reqs = some (res, a2))
    (hW : 1 ≤ W) (hH : 1 ≤ H)
    (hData : Data.length = W * H * a0.Stride) (hArr : Data.length < 2 ^ 31)
    (hadd : AddTexture a2 W H Data = some (some p, a3)) :
    ∀ r c, r < H + 2 → c < W + 2 →
      Pixel a0.Stride a3.AtlasData
          (((slotAt a3.RootNode p).Y + r) * a0.AtlasWidth + ((slotAt a3.RootNode p).X + c))
        = Pixel a0.Stride Data (min (r - 1) (H - 1) * W + min (c - 1) (W - 1)) := by
  intro r c hr hc
  by_cases hS : a0.Stride = 0
  · simp only [hS, Pixel, ReadBytes_zero]
  · have := padded_blit hAW hAH hsize (by rw [hps]; decide) hinit hrun hW hH
      (Nat.pos_of_ne_zero hS) hData hArr hadd r c hr hc
    rw [this, hps]
    rfl

theorem C4_dilate_padding_witness :
    ∃ res a2 a3, AddTextures (sampleInit DilateBorder) [(1, 1, [9])] = some (res, a2) ∧
      AddTexture a2 2 2 [5, 6, 7, 8] = some (some [true], a3) ∧
      (slotAt a3.RootNode [true]).X = 3 ∧ (slotAt a3.RootNode [true]).Y = 0 ∧
      ReadBytes a3.AtlasData 3 4 = [5, 5, 6, 6] ∧
      ReadBytes a3.AtlasData 11 4 = [5, 5, 6, 6] ∧
      ReadBytes a3.AtlasData 19 4 = [7, 7, 8, 8] ∧
      ReadBytes a3.AtlasData 27 4 = [7, 7, 8, 8] ∧
      Pixel (sampleAtlas DilateBorder).Stride a3.AtlasData
          (((slotAt a3.RootNode [true]).Y + 3) * (sampleAtlas DilateBorder).AtlasWidth
            + ((slotAt a3.RootNode [true]).X + 0))
        = Pixel (sampleAtlas DilateBorder).Stride [5, 6, 7, 8]
            (min (3 - 1) (2 - 1) * 2 + min (0 - 1) (2 - 1)) :=
  ⟨_, _, _, rfl, rfl, rfl, rfl, rfl, rfl, rfl, rfl,
    C4_dilate_padding (sampleAtlas DilateBorder) (sampleInit DilateBorder) _ _ [(1, 1, [9])] _
      2 2 [5, 6, 7, 8] [true] (by decide) (by decide) (by decide) rfl rfl rfl
      (by decide) (by decide) rfl (by decide) rfl 3 0 (by decide) (by decide)⟩

/-- C5 (zero padding, amended): take an atlas set up by `InitAtlasData` whose
buffer size `AtlasWidth * AtlasHeight * Stride` is below `2 ^ 32` (no
`uint32` wrap-around), with the zero-pad style, in the state reached by any
run of `AddTexture` calls.  For `W ≥ 1`, `H ≥ 1` and a source array of
`W * H * Stride` bytes (an array holds fewer than `2 ^ 31`), if
`AddTexture W H source` returns a slot, then in the `(W+2) x (H+2)` region
at the slot every interior pixel `(r, c)`, `1 ≤ r ≤ H`, `1 ≤ c ≤ W`, is the
source pixel `(r-1, c-1)`, and every byte of every border pixel (first row,
last row, first column, last column) is zero. -/
theorem C5_zero_padding (a0 a1 a2 a3 : FSlateTextureAtlas)
    (reqs : List (Nat × Nat × List Nat)) (res : List (Option (List Bool)))
    (W H : Nat) (Data : List Nat) (p : List Bool)
    (hAW : a0.AtlasWidth < 2 ^ 32) (hAH : a0.AtlasHeight < 2 ^ 32)
    (hsize : a0.AtlasWidth * a0.AtlasHeight * a0.Stride < 2 ^ 32)
    (hps : a0.PaddingStyle = PadWithZero)
    (hinit : InitAtlasData a0 = some a1)
    (hrun : AddTextures a1 reqs = some (res, a2))
    (hW : 1 ≤ W) (hH : 1 ≤ H)
    (hData : Data.length = W * H * a0.Stride) (hArr : Data.length < 2 ^ 31)
    (hadd : AddTexture a2 W H Data = some (some p, a3)) :
    ∀ r c, r < H + 2 → c < W + 2 →
      ((1 ≤ r ∧ r ≤ H ∧ 1 ≤ c ∧ c ≤ W) →
        Pixel a0.Stride a3.AtlasData
            (((slotAt a3.RootNode p).Y + r) * a0.AtlasWidth + ((slotAt a3.RootNode p).X + c))
          = Pixel a0.Stride Data ((r - 1) * W + (c - 1))) ∧
      ((r = 0 ∨ r = H + 1 ∨ c = 0 ∨ c = W + 1) →
        Pixel a0.Stride a3.AtlasData
            (((slotAt a3.RootNode p).Y + r) * a0.AtlasWidth + ((slotAt a3.RootNode p).X + c))
          = List.replicate a0.Stride 0) := by
  intro r c hr hc
  by_cases hS : a0.Stride = 0
  · simp only [hS, Pixel, ReadBytes_zero, List.replicate_zero, implies_true, and_self]
  · have := padded_blit hAW hAH hsize (by rw [hps]; decide) hinit hrun hW hH
      (Nat.pos_of_ne_zero hS) hData hArr hadd r c hr hc
    rw [this, hps]
    constructor
    · intro hi
      have hn : ¬ (r = 0 ∨ r = H + 1 ∨ c = 0 ∨ c = W + 1) := by omega
      simp only [ExpectedPixel, hn, if_false]
    · intro hb
      simp only [ExpectedPixel, hb, if_true]

theorem C5_zero_padding_witness :
    ∃ res a2 a3, AddTextures (sampleInit PadWithZero) [(1, 1, [9])] = some (res, a2) ∧
      AddTexture a2 2 2 [5, 6, 7, 8] = some (some [true], a3) ∧
      (slotAt a3.RootNode [true]).X = 3 ∧ (slotAt a3.RootNode [true]).Y = 0 ∧
      ReadBytes a3.AtlasData 3 4 = [0, 0, 0, 0] ∧
      ReadBytes a3.AtlasData 11 4 = [0, 5, 6, 0] ∧
      ReadBytes a3.AtlasData 19 4 = [0, 7, 8, 0] ∧
      ReadBytes a3.AtlasData 27 4 = [0, 0, 0, 0] ∧
      (((1 ≤ 2 ∧ 2 ≤ 2 ∧ 1 ≤ 1 ∧ 1 ≤ 2) →
        Pixel (sampleAtlas PadWithZero).Stride a3.AtlasData
            (((slotAt a3.RootNode [true]).Y + 2) * (sampleAtlas PadWithZero).AtlasWidth
              + ((slotAt a3.RootNode [true]).X + 1))
          = Pixel (sampleAtlas PadWithZero).Stride [5, 6, 7, 8] ((2 - 1) * 2 + (1 - 1))) ∧
      ((2 = 0 ∨ 2 = 2 + 1 ∨ 1 = 0 ∨ 1 = 2 + 1) →
        Pixel (sampleAtlas PadWithZero).Stride a3.AtlasData
            (((slotAt a3.RootNode [true]).Y + 2) * (sampleAtlas PadWithZero).AtlasWidth
              + ((slotAt a3.RootNode [true]).X + 1))
          = List.replicate (sampleAtlas PadWithZero).Stride 0)) :=
  ⟨_, _, _, rfl, rfl, rfl, rfl, rfl, rfl, rfl, rfl,
    C5_zero_padding (sampleAtlas PadWithZero) (sampleInit PadWithZero) _ _ [(1, 1, [9])] _
      2 2 [5, 6, 7, 8] [true] (by decide) (by decide) (by decide) rfl rfl rfl
      (by decide) (by decide) rfl (by decide) rfl 2 1 (by decide) (by decide)⟩

/-! ## Set-up and tear-down -/

theorem u32_mul_u32 (a b c : Nat) : u32 (u32 (a * b) * c) = (a * b * c) % 2 ^ 32 := by
  unfold u32
  exact Nat.mod_mul_mod

/-- C11 (the buffer-size part fails): on a 1431655766 x 3 atlas with 3 bytes
per pixel the count handed to `AddZeroed` is 6, `InitAtlasData` succeeds and
leaves a buffer of 6 bytes, not of `1431655766 * 3 * 3` bytes: the size is a
`uint32` product. -/
theorem C11_InitAtlasData_counterexample :
    (wrapAtlas NoPadding 3).RootNode.isSet = false ∧
    (wrapAtlas NoPadding 3).AtlasData.length = 0 ∧
    AllocationCount (wrapAtlas NoPadding 3) = 6 ∧
    ∃ a1, InitAtlasData (wrapAtlas NoPadding 3) = some a1 ∧
      a1.AtlasData.length = 6 ∧
      a1.AtlasData.length ≠
        (wrapAtlas NoPadding 3).AtlasWidth * (wrapAtlas NoPadding 3).AtlasHeight *
          (wrapAtlas NoPadding 3).Stride :=
  ⟨rfl, rfl, by decide, _, rfl, rfl, by decide⟩

/-- The count of the allocation is the product itself below `2 ^ 31`, and is
negative when the `uint32` value of the product is `2 ^ 31` or more. -/
theorem AllocationCount_eq (a : FSlateTextureAtlas) :
    (a.AtlasWidth * a.AtlasHeight * a.Stride < 2 ^ 31 →
      AllocationCount a = ((a.AtlasWidth * a.AtlasHeight * a.Stride : Nat) : Int) ∧
      u32 (u32 (a.AtlasWidth * a.AtlasHeight) * a.Stride) =
        a.AtlasWidth * a.AtlasHeight * a.Stride) ∧
    (2 ^ 31 ≤ (a.AtlasWidth * a.AtlasHeight * a.Stride) % 2 ^ 32 → AllocationCount a < 0) := by
  unfold AllocationCount
  rw [u32_mul_u32]
  generalize a.AtlasWidth * a.AtlasHeight * a.Stride = v
  unfold toInt32 u32
  constructor
  · intro h
    have e : v % 2 ^ 32 = v := Nat.mod_eq_of_lt (by omega)
    rw [e, e, if_pos h]
    exact ⟨rfl, rfl⟩
  · intro h
    have e : v % 2 ^ 32 % 2 ^ 32 = v % 2 ^ 32 := Nat.mod_mod _ _
    rw [e, if_neg (by omega)]
    have : v % 2 ^ 32 < 2 ^ 32 := Nat.mod_lt _ (by norm_num)
    omega

/-- C11 (InitAtlasData, amended): when the root is absent, the buffer is
empty and `AtlasWidth * AtlasHeight * Stride < 2^31` (the size is a `uint32`
product handed to the array as a signed 32-bit count), the count is that
product and `InitAtlasData` succeeds and yields a childless root slot
`{0, 0, AtlasWidth, AtlasHeight}` with padding 0 for `NoPadding` and 1
otherwise, and a buffer of exactly `AtlasWidth * AtlasHeight * Stride` bytes,
all zero; the other fields are kept.  When a root exists or the buffer is
non-empty, the precondition check fails and nothing is re-initialised. -/
theorem C11_InitAtlasData (a : FSlateTextureAtlas) :
    ((a.RootNode.isSet = false ∧ a.AtlasData.length = 0 ∧
        a.AtlasWidth * a.AtlasHeight * a.Stride < 2 ^ 31) →
      AllocationCount a = ((a.AtlasWidth * a.AtlasHeight * a.Stride : Nat) : Int) ∧
      ∃ a1, InitAtlasData a = some a1 ∧
        a1.RootNode = node 0 0 a.AtlasWidth a.AtlasHeight
          (if a.PaddingStyle = NoPadding then 0 else 1) null null ∧
        a1.AtlasData = List.replicate (a.AtlasWidth * a.AtlasHeight * a.Stride) 0 ∧
        a1.AtlasData.length = a.AtlasWidth * a.AtlasHeight * a.Stride ∧
        (∀ b ∈ a1.AtlasData, b = 0) ∧
        a1.AtlasWidth = a.AtlasWidth ∧ a1.AtlasHeight = a.AtlasHeight ∧
        a1.Stride = a.Stride ∧ a1.PaddingStyle = a.PaddingStyle ∧
        a1.bNeedsUpdate = a.bNeedsUpdate) ∧
    ((a.RootNode.isSet = true ∨ a.AtlasData.length ≠ 0) → InitAtlasData a = none) := by
  constructor
  · intro hpre
    obtain ⟨hroot, hlen, hlt⟩ := hpre
    obtain ⟨hcount, hu⟩ := (AllocationCount_eq a).1 hlt
    have hnil : a.AtlasData = [] := List.length_eq_zero.mp hlen
    have hbuf : a.AtlasData ++
        List.replicate (u32 (u32 (a.AtlasWidth * a.AtlasHeight) * a.Stride)) 0 =
        List.replicate (a.AtlasWidth * a.AtlasHeight * a.Stride) 0 := by
      rw [hnil, List.nil_append, hu]
    refine ⟨hcount, { a with
      RootNode := node 0 0 a.AtlasWidth a.AtlasHeight
        (if a.PaddingStyle = NoPadding then 0 else 1) null null
      AtlasData := a.AtlasData ++
        List.replicate (u32 (u32 (a.AtlasWidth * a.AtlasHeight) * a.Stride)) 0 },
      by rw [InitAtlasData, if_pos ⟨hroot, hlen⟩], rfl, hbuf, ?_, ?_, rfl, rfl, rfl, rfl, rfl⟩
    · show (a.AtlasData ++ List.replicate _ 0).length = _
      rw [hbuf, List.length_replicate]
    · intro b hb
      have hb1 : b ∈ a.AtlasData ++ List.replicate
          (u32 (u32 (a.AtlasWidth * a.AtlasHeight) * a.Stride)) 0 := hb
      rw [hbuf] at hb1
      exact (List.mem_replicate.mp hb1).2
  · intro hpre
    rw [InitAtlasData, if_neg]
    intro hc
    rcases hpre with h1 | h1
    · rw [hc.1] at h1; exact Bool.false_ne_true h1
    · exact h1 hc.2

theorem C11_InitAtlasData_witness :
    (sampleAtlas DilateBorder).RootNode.isSet = false ∧
    (sampleAtlas DilateBorder).AtlasData.length = 0 ∧
    (sampleAtlas DilateBorder).AtlasWidth * (sampleAtlas DilateBorder).AtlasHeight *
      (sampleAtlas DilateBorder).Stride < 2 ^ 31 ∧
    AllocationCount (sampleAtlas DilateBorder) = 64 ∧
    InitAtlasData (sampleAtlas DilateBorder) = some (sampleInit DilateBorder) ∧
    (sampleInit DilateBorder).RootNode = node 0 0 8 8 1 null null ∧
    (sampleInit DilateBorder).AtlasData = List.replicate 64 0 ∧
    InitAtlasData (sampleInit DilateBorder) = none :=
  ⟨rfl, rfl, by decide,
    ((C11_InitAtlasData (sampleAtlas DilateBorder)).1 ⟨rfl, rfl, by decide⟩).1,
    rfl, rfl, rfl,
    (C11_InitAtlasData (sampleInit DilateBorder)).2 (Or.inl rfl)⟩

/-- `DestroyNodes` on a slot that exists deletes the slots in the order
left subtree, right subtree, the slot itself. -/
theorem DestroyNodes_eq : ∀ (t : FAtlasedTextureSlot), t.isSet = true →
    DestroyNodes t = some (postOrder t) := by
  intro t
  induction t with
  | null => intro h; exact absurd h (by simp [FAtlasedTextureSlot.isSet])
  | node X Y W H P l r ihl ihr =>
    intro _
    have hl : (if l.isSet then DestroyNodes l else some []) = some (postOrder l) := by
      cases l with
      | null => simp [FAtlasedTextureSlot.isSet, postOrder]
      | node _ _ _ _ _ _ _ => rw [if_pos (by rfl)]; exact ihl rfl
    have hr : (if r.isSet then DestroyNodes r else some []) = some (postOrder r) := by
      cases r with
      | null => simp [FAtlasedTextureSlot.isSet, postOrder]
      | node _ _ _ _ _ _ _ => rw [if_pos (by rfl)]; exact ihr rfl
    rw [DestroyNodes, hl, hr]
    rfl

theorem mem_postOrder : ∀ (t : FAtlasedTextureSlot) (p : List Bool),
    p ∈ postOrder t ↔ (slotAt t p).isSet = true := by
  intro t
  induction t with
  | null => intro p; simp [postOrder, slotAt_null, FAtlasedTextureSlot.isSet]
  | node X Y W H P l r ihl ihr =>
    intro p
    cases p with
    | nil => simp [postOrder, slotAt_nil, FAtlasedTextureSlot.isSet]
    | cons b q =>
      cases b with
      | false =>
        have e : slotAt (node X Y W H P l r) (false :: q) = slotAt l q := rfl
        rw [e, ← ihl q]
        simp [postOrder]
      | true =>
        have e : slotAt (node X Y W H P l r) (true :: q) = slotAt r q := rfl
        rw [e, ← ihr q]
        simp [postOrder]

theorem nodup_postOrder : ∀ (t : FAtlasedTextureSlot), (postOrder t).Nodup := by
  intro t
  induction t with
  | null => simp [postOrder]
  | node X Y W H P l r ihl ihr =>
    simp only [postOrder]
    rw [List.nodup_append, List.nodup_append]
    refine ⟨⟨?_, ?_, ?_⟩, List.nodup_singleton _, ?_⟩
    · exact ihl.map (fun a b hab => by injection hab)
    · exact ihr.map (fun a b hab => by injection hab)
    · intro a ha hb
      simp only [List.mem_map] at ha hb
      obtain ⟨x, _, rfl⟩ := ha
      obtain ⟨y, _, hy⟩ := hb
      injection hy with h1 _
      exact Bool.noConfusion h1
    · intro a ha hb
      simp only [List.mem_append, List.mem_map, List.mem_singleton] at ha hb
      subst hb
      rcases ha with ⟨x, _, hx⟩ | ⟨x, _, hx⟩ <;> exact List.noConfusion hx

/-- C12 (Empty tears everything down): on an atlas that has a root, in
particular in every state reached from `InitAtlasData` by `AddTexture`
calls, `Empty` deletes the slots of the tree in the order left subtree,
right subtree, then the slot itself; every slot of the tree is deleted, none
twice; afterwards the root is absent and the buffer has length 0, so
`InitAtlasData` succeeds again. -/
theorem C12_empty_tears_down (a : FSlateTextureAtlas) (hroot : a.RootNode.isSet = true) :
    ∃ a1, Empty a = some (postOrder a.RootNode, a1) ∧
      (postOrder a.RootNode).Nodup ∧
      (∀ p : List Bool, p ∈ postOrder a.RootNode ↔ (slotAt a.RootNode p).isSet = true) ∧
      a1.RootNode = null ∧ a1.AtlasData.length = 0 ∧
      (a1.RootNode.isSet = false ∧ a1.AtlasData.length = 0) ∧
      (InitAtlasData a1).isSome = true := by
  refine ⟨{ a with RootNode := null, AtlasData := [] }, ?_, nodup_postOrder _,
    mem_postOrder _, rfl, rfl, ⟨rfl, rfl⟩, ?_⟩
  · rw [Empty, DestroyNodes_eq _ hroot]
  · rw [InitAtlasData, if_pos ⟨rfl, rfl⟩]; rfl

theorem C12_empty_tears_down_witness :
    (sampleRun NoPadding).RootNode.isSet = true ∧
    ∃ a1, Empty (sampleRun NoPadding) = some (postOrder (sampleRun NoPadding).RootNode, a1) ∧
      (postOrder (sampleRun NoPadding).RootNode).Nodup ∧
      (∀ p : List Bool, p ∈ postOrder (sampleRun NoPadding).RootNode ↔
        (slotAt (sampleRun NoPadding).RootNode p).isSet = true) ∧
      a1.RootNode = null ∧ a1.AtlasData.length = 0 ∧
      (a1.RootNode.isSet = false ∧ a1.AtlasData.length = 0) ∧
      (InitAtlasData a1).isSome = true :=
  ⟨rfl, C12_empty_tears_down (sampleRun NoPadding) rfl⟩

/-- `AddTexture` on an atlas without a root dereferences the null root. -/
theorem AddTexture_null (a : FSlateTextureAtlas) (w h : Nat) (d : List Nat)
    (hroot : a.RootNode.isSet = false) : AddTexture a w h d = none := by
  unfold AddTexture FindSlotForTextureRoot
  simp [hroot]

/-- The dirty flag an atlas starts with has no part in what `AddTexture`
returns, in the tree or in the buffer. -/
theorem AddTexture_flag (a : FSlateTextureAtlas) (b : Bool) (w h : Nat) (d : List Nat) :
    (AddTexture { a with bNeedsUpdate := b } w h d).map Outcome =
      (AddTexture a w h d).map Outcome := by
  by_cases hroot : a.RootNode.isSet = true
  · rw [AddTexture_eq a w h d hroot, AddTexture_eq { a with bNeedsUpdate := b } w h d hroot]
    rcases FindSlotForTexture a.PaddingStyle a.RootNode w h with ⟨_ | p, t1⟩
    · rfl
    · simp only []
      by_cases hwh : w > 0 ∧ h > 0
      · rw [if_pos hwh, if_pos hwh]
        have e : CopyDataIntoSlot
            { AtlasData := a.AtlasData, RootNode := t1, AtlasWidth := a.AtlasWidth,
              AtlasHeight := a.AtlasHeight, Stride := a.Stride, PaddingStyle := a.PaddingStyle,
              bNeedsUpdate := b } (slotAt t1 p) d =
            CopyDataIntoSlot
            { AtlasData := a.AtlasData, RootNode := t1, AtlasWidth := a.AtlasWidth,
              AtlasHeight := a.AtlasHeight, Stride := a.Stride, PaddingStyle := a.PaddingStyle,
              bNeedsUpdate := a.bNeedsUpdate } (slotAt t1 p) d := by
          unfold CopyDataIntoSlot; rfl
        rw [e]
      · rw [if_neg hwh, if_neg hwh]; rfl
  · have hr : a.RootNode.isSet = false := by
      cases hh : a.RootNode.isSet
      · rfl
      · exact absurd hh hroot
    rw [AddTexture_null a w h d hr, AddTexture_null { a with bNeedsUpdate := b } w h d hr]

/-- C13 (the next insertion alone does not recreate the root): after the run
`sampleRequests` on the 8 x 8 sample atlas, `Empty` succeeds and leaves no
root and an empty buffer, and the next `AddTexture` dereferences the null
root: no root is created and no placement is returned. -/
theorem C13_clear_resets_counterexample :
    ∃ tr a1, Empty (sampleRun NoPadding) = some (tr, a1) ∧
      a1.RootNode = null ∧ a1.AtlasData = [] ∧
      AddTexture a1 1 1 [9] = none :=
  ⟨_, _, rfl, rfl, rfl, rfl⟩

/-- C13 (Clear resets fully, amended): after `Empty`, `AddTexture` alone finds
no root (it dereferences the null root), but `InitAtlasData` applies again,
and once it has run the next insertion behaves as the same insertion on a
freshly constructed atlas of the same dimensions, stride and padding style
after its `InitAtlasData`: the root is the full-canvas leaf, the buffer is
all zero before the copy, and the returned placement, the resulting tree and
the resulting buffer bytes are the same. -/
theorem C13_clear_resets (a a1 f : FSlateTextureAtlas) (tr : List (List Bool))
    (w h : Nat) (d : List Nat)
    (hE : Empty a = some (tr, a1))
    (hfR : f.RootNode = null) (hfD : f.AtlasData = [])
    (hfW : f.AtlasWidth = a.AtlasWidth) (hfH : f.AtlasHeight = a.AtlasHeight)
    (hfS : f.Stride = a.Stride) (hfP : f.PaddingStyle = a.PaddingStyle) :
    AddTexture a1 w h d = none ∧
    ∃ i1 i2, InitAtlasData a1 = some i1 ∧ InitAtlasData f = some i2 ∧
      i1.RootNode = node 0 0 a.AtlasWidth a.AtlasHeight
        (if a.PaddingStyle = NoPadding then 0 else 1) null null ∧
      i2.RootNode = i1.RootNode ∧ i2.AtlasData = i1.AtlasData ∧
      (∀ b ∈ i1.AtlasData, b = 0) ∧
      (AddTexture i1 w h d).map Outcome = (AddTexture i2 w h d).map Outcome := by
  unfold Empty at hE
  rcases hD : DestroyNodes a.RootNode with _ | del
  · simp [hD] at hE
  · simp only [hD, Option.some.injEq, Prod.mk.injEq] at hE
    obtain ⟨_, rfl⟩ := hE
    obtain ⟨fd, fr, fw, fh, fs, fp, fb⟩ := f
    simp only at hfR hfD hfW hfH hfS hfP
    subst hfR hfD hfW hfH hfS hfP
    refine ⟨AddTexture_null _ w h d rfl, ?_⟩
    refine ⟨{ a with
        RootNode := node 0 0 a.AtlasWidth a.AtlasHeight
          (if a.PaddingStyle = NoPadding then 0 else 1) null null
        AtlasData := [] ++
          List.replicate (u32 (u32 (a.AtlasWidth * a.AtlasHeight) * a.Stride)) 0 },
      { a with
        RootNode := node 0 0 a.AtlasWidth a.AtlasHeight
          (if a.PaddingStyle = NoPadding then 0 else 1) null null
        AtlasData := [] ++
          List.replicate (u32 (u32 (a.AtlasWidth * a.AtlasHeight) * a.Stride)) 0
        bNeedsUpdate := fb }, ?_, ?_, rfl, rfl, rfl, ?_, ?_⟩
    · rw [InitAtlasData, if_pos ⟨rfl, rfl⟩]
    · rw [InitAtlasData, if_pos ⟨rfl, rfl⟩]
    · intro b hb
      have hb1 : b ∈ [] ++ List.replicate
          (u32 (u32 (a.AtlasWidth * a.AtlasHeight) * a.Stride)) 0 := hb
      rw [List.nil_append] at hb1
      exact (List.mem_replicate.mp hb1).2
    · exact (AddTexture_flag _ fb w h d).symm

theorem C13_clear_resets_witness :
    ∃ tr a1, Empty (sampleRun NoPadding) = some (tr, a1) ∧
      AddTexture a1 2 2 [5, 6, 7, 8] = none ∧
      ∃ i1 i2, InitAtlasData a1 = some i1 ∧ InitAtlasData (sampleAtlas NoPadding) = some i2 ∧
        i1.RootNode = node 0 0 8 8 0 null null ∧
        i2.RootNode = i1.RootNode ∧ i2.AtlasData = i1.AtlasData ∧
        (AddTexture i1 2 2 [5, 6, 7, 8]).map Outcome =
          (AddTexture i2 2 2 [5, 6, 7, 8]).map Outcome :=
  ⟨_, _, rfl,
    (C13_clear_resets (sampleRun NoPadding) _ (sampleAtlas NoPadding) _ 2 2 [5, 6, 7, 8]
      rfl rfl rfl rfl rfl rfl rfl).1,
    _, _, rfl, rfl, rfl, rfl, rfl, rfl⟩

/-- Along a run of `AddTexture` calls from any atlas: slots stay, occupied
slots stay occupied with the same rectangle, and no returned pointer is a
slot that was occupied at the start. -/
theorem AddTextures_keep :
    ∀ (reqs : List (Nat × Nat × List Nat)) (a a2 : FSlateTextureAtlas)
      (res : List (Option (List Bool))),
      AddTextures a reqs = some (res, a2) →
      (∀ q, (slotAt a.RootNode q).isSet = true →
        (slotAt a2.RootNode q).isSet = true ∧
        (Occupied a.RootNode q →
          Occupied a2.RootNode q ∧
          (slotAt a2.RootNode q).X = (slotAt a.RootNode q).X ∧
          (slotAt a2.RootNode q).Y = (slotAt a.RootNode q).Y ∧
          (slotAt a2.RootNode q).Width = (slotAt a.RootNode q).Width ∧
          (slotAt a2.RootNode q).Height = (slotAt a.RootNode q).Height)) ∧
      (∀ (i : Nat) (p : List Bool), res[i]? = some (some p) → ¬ Occupied a.RootNode p) := by
  intro reqs
  induction reqs with
  | nil =>
    intro a a2 res hrun
    simp only [AddTextures, Option.some.injEq, Prod.mk.injEq] at hrun
    obtain ⟨rfl, rfl⟩ := hrun
    refine ⟨?_, ?_⟩
    · intro q hq; exact ⟨hq, fun ho => ⟨ho, rfl, rfl, rfl, rfl⟩⟩
    · intro i p hi; simp at hi
  | cons req rest ih =>
    intro a a2 res hrun
    obtain ⟨w, h, d⟩ := req
    simp only [AddTextures] at hrun
    rcases hadd : AddTexture a w h d with _ | ⟨r, a1⟩
    · simp [hadd] at hrun
    · simp only [hadd] at hrun
      rcases hrest : AddTextures a1 rest with _ | ⟨rs, a3⟩
      · simp [hrest] at hrun
      · simp only [hrest, Option.some.injEq, Prod.mk.injEq] at hrun
        obtain ⟨rfl, rfl⟩ := hrun
        obtain ⟨_, hfind, _, _, _, _⟩ := AddTexture_find hadd
        obtain ⟨hkeep, hnew⟩ := ih a1 a3 rs hrest
        have step : ∀ q, (slotAt a.RootNode q).isSet = true →
            (slotAt a1.RootNode q).isSet = true ∧
            (Occupied a.RootNode q →
              Occupied a1.RootNode q ∧
              (slotAt a1.RootNode q).X = (slotAt a.RootNode q).X ∧
              (slotAt a1.RootNode q).Y = (slotAt a.RootNode q).Y ∧
              (slotAt a1.RootNode q).Width = (slotAt a.RootNode q).Width ∧
              (slotAt a1.RootNode q).Height = (slotAt a.RootNode q).Height) := by
          intro q hq
          cases r with
          | none =>
            rw [find_none _ _ _ _ _ hfind]
            exact ⟨hq, fun ho => ⟨ho, rfl, rfl, rfl, rfl⟩⟩
          | some p =>
            obtain ⟨hleaf, hocc, hnocc, hfr⟩ := find_some_frame hfind
            by_cases hqp : q = p
            · subst hqp
              exact ⟨hocc.present, fun ho => absurd ho hnocc⟩
            · obtain ⟨f1, f2, f3, f4, f5, f6⟩ := hfr q hqp hq
              exact ⟨f1, fun ho => ⟨f6 ho, f2, f3, f4, f5⟩⟩
        refine ⟨?_, ?_⟩
        · intro q hq
          obtain ⟨s1, s2⟩ := step q hq
          obtain ⟨k1, k2⟩ := hkeep q s1
          refine ⟨k1, fun ho => ?_⟩
          obtain ⟨o1, x1, y1, w1, h1⟩ := s2 ho
          obtain ⟨o2, x2, y2, w2, h2⟩ := k2 o1
          exact ⟨o2, by omega, by omega, by omega, by omega⟩
        · intro i p hi
          cases i with
          | zero =>
            simp only [List.getElem?_cons_zero, Option.some.injEq] at hi
            subst hi
            exact (find_some_frame hfind).2.2.1
          | succ i =>
            simp only [List.getElem?_cons_succ] at hi
            have n2 := hnew i p hi
            exact fun ho => n2 ((step p ho.present).2 ho).1

/-- C15 (occupied nodes are never reused): when `FindSlotForTexture` returns a
slot, that slot was childless before and has both children set afterwards;
along every later run of `AddTexture` calls on the atlas holding the resulting
tree, the slot keeps both children and its `X`, `Y`, `Width` and `Height`,
and no later call returns it again. -/
theorem C15_occupied_never_reused (ps : ESlateTextureAtlasPaddingStyle)
    (t : FAtlasedTextureSlot) (w h : Nat) (p : List Bool) (a1 a2 : FSlateTextureAtlas)
    (reqs : List (Nat × Nat × List Nat)) (res : List (Option (List Bool)))
    (hfind : FindSlotForTexture ps t w h = (some p, a1.RootNode))
    (hrun : AddTextures a1 reqs = some (res, a2)) :
    (slotAt t p).isLeaf = true ∧
    Occupied a1.RootNode p ∧ Occupied a2.RootNode p ∧
    (∀ i : Nat, res[i]? ≠ some (some p)) ∧
    (slotAt a2.RootNode p).X = (slotAt a1.RootNode p).X ∧
    (slotAt a2.RootNode p).Y = (slotAt a1.RootNode p).Y ∧
    (slotAt a2.RootNode p).Width = (slotAt a1.RootNode p).Width ∧
    (slotAt a2.RootNode p).Height = (slotAt a1.RootNode p).Height := by
  obtain ⟨hleaf, hocc, _, _⟩ := find_some_frame hfind
  obtain ⟨hkeep, hnew⟩ := AddTextures_keep reqs a1 a2 res hrun
  obtain ⟨o2, x2, y2, w2, h2⟩ := (hkeep p hocc.present).2 hocc
  exact ⟨hleaf, hocc, o2, fun i hi => hnew i p hi hocc, x2, y2, w2, h2⟩

theorem C15_occupied_never_reused_witness :
    ∃ res a2,
      FindSlotForTexture NoPadding (sampleInit NoPadding).RootNode 2 2 =
        (some [], (samplePlaced NoPadding).RootNode) ∧
      AddTextures (samplePlaced NoPadding)
        [(2, 2, [5, 6, 7, 8]), (3, 3, [1, 2, 3, 4, 5, 6, 7, 8, 9])] = some (res, a2) ∧
      res = [some [false], some [true]] ∧
      (slotAt (sampleInit NoPadding).RootNode []).isLeaf = true ∧
      Occupied (samplePlaced NoPadding).RootNode [] ∧ Occupied a2.RootNode [] ∧
      (∀ i : Nat, res[i]? ≠ some (some [])) ∧
      (slotAt a2.RootNode []).X = (slotAt (samplePlaced NoPadding).RootNode []).X ∧
      (slotAt a2.RootNode []).Y = (slotAt (samplePlaced NoPadding).RootNode []).Y ∧
      (slotAt a2.RootNode []).Width = (slotAt (samplePlaced NoPadding).RootNode []).Width ∧
      (slotAt a2.RootNode []).Height = (slotAt (samplePlaced NoPadding).RootNode []).Height :=
  ⟨_, _, rfl, rfl, rfl,
    C15_occupied_never_reused NoPadding (sampleInit NoPadding).RootNode 2 2 []
      (samplePlaced NoPadding) _
      [(2, 2, [5, 6, 7, 8]), (3, 3, [1, 2, 3, 4, 5, 6, 7, 8, 9])] _ rfl rfl⟩

/-- The pointers a run of `AddTexture` calls returns and the tree it leaves
are those of the packer run on the requested sizes alone. -/
theorem AddTextures_FindSlots :
    ∀ (reqs : List (Nat × Nat × List Nat)) (a a2 : FSlateTextureAtlas)
      (res : List (Option (List Bool))),
      AddTextures a reqs = some (res, a2) →
      FindSlots a.PaddingStyle a.RootNode (reqs.map (fun r => (r.1, r.2.1))) =
        (res, a2.RootNode) := by
  intro reqs
  induction reqs with
  | nil =>
    intro a a2 res hrun
    simp only [AddTextures, Option.some.injEq, Prod.mk.injEq] at hrun
    obtain ⟨rfl, rfl⟩ := hrun
    rfl
  | cons req rest ih =>
    intro a a2 res hrun
    obtain ⟨w, h, d⟩ := req
    simp only [AddTextures] at hrun
    rcases hadd : AddTexture a w h d with _ | ⟨r, a1⟩
    · simp [hadd] at hrun
    · simp only [hadd] at hrun
      rcases hrest : AddTextures a1 rest with _ | ⟨rs, a3⟩
      · simp [hrest] at hrun
      · simp only [hrest, Option.some.injEq, Prod.mk.injEq] at hrun
        obtain ⟨rfl, rfl⟩ := hrun
        obtain ⟨_, hfind, _, _, _, ePS⟩ := AddTexture_find hadd
        have h1 := ih a1 a3 rs hrest
        rw [ePS] at h1
        simp only [List.map_cons, FindSlots, hfind, h1]

/-- C16 (packing determinism and data-independence): the pointer `AddTexture`
returns and the tree it leaves are the result of `FindSlotForTexture` on the
prior tree, the padding style and the requested width and height, in which
neither the pixel bytes nor the buffer occur; and two atlases with the same
tree and padding style, given requests of the same sizes in the same order,
return the same pointers and end with the same tree, whatever the pixel
bytes, the buffers, the strides and the canvas fields are. -/
theorem C16_packing_deterministic (a b a2 b2 : FSlateTextureAtlas)
    (reqsA reqsB : List (Nat × Nat × List Nat)) (resA resB : List (Option (List Bool)))
    (hT : b.RootNode = a.RootNode) (hP : b.PaddingStyle = a.PaddingStyle)
    (hreq : reqsB.map (fun r => (r.1, r.2.1)) = reqsA.map (fun r => (r.1, r.2.1)))
    (hA : AddTextures a reqsA = some (resA, a2))
    (hB : AddTextures b reqsB = some (resB, b2)) :
    resB = resA ∧ b2.RootNode = a2.RootNode ∧
    (resA, a2.RootNode) =
      FindSlots a.PaddingStyle a.RootNode (reqsA.map (fun r => (r.1, r.2.1))) ∧
    (∀ (w h : Nat) (d : List Nat) (r : Option (List Bool)) (a1 : FSlateTextureAtlas),
      AddTexture a w h d = some (r, a1) →
      (r, a1.RootNode) = FindSlotForTexture a.PaddingStyle a.RootNode w h) := by
  have eA := AddTextures_FindSlots reqsA a a2 resA hA
  have eB := AddTextures_FindSlots reqsB b b2 resB hB
  rw [hT, hP, hreq, eA] at eB
  simp only [Prod.mk.injEq] at eB
  refine ⟨eB.1.symm, eB.2.symm, eA.symm, ?_⟩
  intro w h d r a1 hadd
  exact (AddTexture_find hadd).2.1.symm

theorem C16_packing_deterministic_witness :
    ∃ resA a2 resB b2,
      AddTextures (sampleInit DilateBorder) sampleRequests = some (resA, a2) ∧
      AddTextures { sampleInit DilateBorder with
          AtlasData := List.replicate 64 7, bNeedsUpdate := true }
        [(2, 2, [9, 9, 9, 9]), (1, 1, [0]), (0, 3, [4, 4])] = some (resB, b2) ∧
      a2.AtlasData ≠ b2.AtlasData ∧
      resB = resA ∧ b2.RootNode = a2.RootNode :=
  ⟨_, _, _, _, rfl, rfl, by decide,
    (C16_packing_deterministic (sampleInit DilateBorder)
      { sampleInit DilateBorder with AtlasData := List.replicate 64 7, bNeedsUpdate := true }
      _ _ sampleRequests [(2, 2, [9, 9, 9, 9]), (1, 1, [0]), (0, 3, [4, 4])] _ _
      rfl rfl rfl rfl rfl).1,
    (C16_packing_deterministic (sampleInit DilateBorder)
      { sampleInit DilateBorder with AtlasData := List.replicate 64 7, bNeedsUpdate := true }
      _ _ sampleRequests [(2, 2, [9, 9, 9, 9]), (1, 1, [0]), (0, 3, [4, 4])] _ _
      rfl rfl rfl rfl rfl).2.1⟩

/-! ## The split and the search order -/

/-- The split of a childless slot of width and height below `2^31` that lies
inside the `uint32` coordinate range. -/
theorem find_leaf_split {ps : ESlateTextureAtlasPaddingStyle} {X Y W H P w h : Nat}
    {p : List Bool} {s : FAtlasedTextureSlot}
    (hf : FindSlotForTexture ps (node X Y W H P null null) w h = (some p, s))
    (hW : W < 2 ^ 31) (hH : H < 2 ^ 31) (hx : X + W < 2 ^ 32) (hy : Y + H < 2 ^ 32) :
    u32 (w + TotalPadding ps) ≤ W ∧ u32 (h + TotalPadding ps) ≤ H ∧
    s = if H - u32 (h + TotalPadding ps) ≤ W - u32 (w + TotalPadding ps) then
        node X Y (u32 (w + TotalPadding ps)) (u32 (h + TotalPadding ps)) P
          (node X (Y + u32 (h + TotalPadding ps)) (u32 (w + TotalPadding ps))
            (H - u32 (h + TotalPadding ps)) (PaddingOf ps) null null)
          (node (X + u32 (w + TotalPadding ps)) Y (W - u32 (w + TotalPadding ps)) H
            (PaddingOf ps) null null)
      else
        node X Y (u32 (w + TotalPadding ps)) (u32 (h + TotalPadding ps)) P
          (node (X + u32 (w + TotalPadding ps)) Y (W - u32 (w + TotalPadding ps))
            (u32 (h + TotalPadding ps)) (PaddingOf ps) null null)
          (node X (Y + u32 (h + TotalPadding ps)) W (H - u32 (h + TotalPadding ps))
            (PaddingOf ps) null null) := by
  rw [find_leaf] at hf
  unfold TotalPadding
  generalize u32 (w + u32 (PaddingOf ps * 2)) = pw at hf ⊢
  generalize u32 (h + u32 (PaddingOf ps * 2)) = ph at hf ⊢
  by_cases hfit : pw > W ∨ ph > H
  · rw [if_pos hfit] at hf; simp at hf
  · rw [if_neg hfit] at hf
    have h1 : pw ≤ W := by omega
    have h2 : ph ≤ H := by omega
    have e1 : MaxInt32Zero (u32sub W pw) = W - pw := by
      rw [u32sub_of_le h1 (by omega)]; exact MaxInt32Zero_of_lt (by omega)
    have e2 : MaxInt32Zero (u32sub H ph) = H - ph := by
      rw [u32sub_of_le h2 (by omega)]; exact MaxInt32Zero_of_lt (by omega)
    have e3 : u32 (X + pw) = X + pw := u32_of_lt (by omega)
    have e4 : u32 (Y + ph) = Y + ph := u32_of_lt (by omega)
    rw [e1, e2, e3, e4] at hf
    refine ⟨h1, h2, ?_⟩
    by_cases hs : H - ph ≤ W - pw
    · rw [if_pos hs] at hf ⊢
      simp only [Prod.mk.injEq] at hf
      exact hf.2.symm
    · rw [if_neg hs] at hf ⊢
      simp only [Prod.mk.injEq] at hf
      exact hf.2.symm

/-- C17 (split geometry): in an atlas set up by `InitAtlasData` and filled by
any run of `AddTexture` calls, let `FindSlotForTexture` place a request in a
childless slot `{x, y, w, h}` with `w, h < 2^31`, and let `(pw, ph)` be the
padded size the slot is shrunk to, `remW = w - pw`, `remH = h - ph`.  Then
`pw ≤ w`, `ph ≤ h`, the slot keeps `x, y`, and if `remH ≤ remW` its children
are `Left = {x, y + ph, pw, remH}` and `Right = {x + pw, y, remW, h}`,
otherwise `Left = {x + pw, y, remW, ph}` and `Right = {x, y + ph, w, remH}`;
both children are created, childless, whatever the remainders are. -/
theorem C17_split_geometry (a0 a1 a2 : FSlateTextureAtlas)
    (reqs : List (Nat × Nat × List Nat)) (res : List (Option (List Bool)))
    (rw rh : Nat) (p : List Bool) (t1 : FAtlasedTextureSlot)
    (hAW : a0.AtlasWidth < 2 ^ 32) (hAH : a0.AtlasHeight < 2 ^ 32)
    (hinit : InitAtlasData a0 = some a1)
    (hrun : AddTextures a1 reqs = some (res, a2))
    (hfind : FindSlotForTexture a2.PaddingStyle a2.RootNode rw rh = (some p, t1))
    (hw : (slotAt a2.RootNode p).Width < 2 ^ 31)
    (hh : (slotAt a2.RootNode p).Height < 2 ^ 31) :
    (slotAt a2.RootNode p).isLeaf = true ∧
    (slotAt t1 p).Width = u32 (rw + TotalPadding a2.PaddingStyle) ∧
    (slotAt t1 p).Height = u32 (rh + TotalPadding a2.PaddingStyle) ∧
    (slotAt t1 p).Width ≤ (slotAt a2.RootNode p).Width ∧
    (slotAt t1 p).Height ≤ (slotAt a2.RootNode p).Height ∧
    (slotAt t1 p).X = (slotAt a2.RootNode p).X ∧
    (slotAt t1 p).Y = (slotAt a2.RootNode p).Y ∧
    (slotAt t1 p).Left.isLeaf = true ∧ (slotAt t1 p).Right.isLeaf = true ∧
    ((slotAt a2.RootNode p).Height - (slotAt t1 p).Height ≤
        (slotAt a2.RootNode p).Width - (slotAt t1 p).Width →
      (slotAt t1 p).Left =
        node (slotAt a2.RootNode p).X ((slotAt a2.RootNode p).Y + (slotAt t1 p).Height)
          (slotAt t1 p).Width ((slotAt a2.RootNode p).Height - (slotAt t1 p).Height)
          (PaddingOf a2.PaddingStyle) null null ∧
      (slotAt t1 p).Right =
        node ((slotAt a2.RootNode p).X + (slotAt t1 p).Width) (slotAt a2.RootNode p).Y
          ((slotAt a2.RootNode p).Width - (slotAt t1 p).Width) (slotAt a2.RootNode p).Height
          (PaddingOf a2.PaddingStyle) null null) ∧
    (¬ (slotAt a2.RootNode p).Height - (slotAt t1 p).Height ≤
        (slotAt a2.RootNode p).Width - (slotAt t1 p).Width →
      (slotAt t1 p).Left =
        node ((slotAt a2.RootNode p).X + (slotAt t1 p).Width) (slotAt a2.RootNode p).Y
          ((slotAt a2.RootNode p).Width - (slotAt t1 p).Width) (slotAt t1 p).Height
          (PaddingOf a2.PaddingStyle) null null ∧
      (slotAt t1 p).Right =
        node (slotAt a2.RootNode p).X ((slotAt a2.RootNode p).Y + (slotAt t1 p).Height)
          (slotAt a2.RootNode p).Width ((slotAt a2.RootNode p).Height - (slotAt t1 p).Height)
          (PaddingOf a2.PaddingStyle) null null) := by
  obtain ⟨_, _, eW, eH, _⟩ := InitAtlasData_root hinit
  obtain ⟨hP, _, _, _, _⟩ :=
    AddTextures_inv reqs a1 a2 res hrun (by omega) (by omega) (InitAtlasData_packed hinit)
  obtain ⟨X, Y, W, H, P, s, h1, h2, h3⟩ := find_some _ rw rh _ t1 p hfind
  have hb := hP.bounds p (by rw [h1]; rfl)
  rw [h1] at hb hw hh
  simp only [X_node, Y_node, Width_node, Height_node] at hb hw hh
  have hself : slotAt t1 p = s := by
    rw [h3]; exact slotAt_replaceAt_self s _ p (by rw [h1]; rfl)
  obtain ⟨f1, f2, f3⟩ := find_leaf_split h2 hw hh (by omega) (by omega)
  rw [hself, h1]
  simp only [X_node, Y_node, Width_node, Height_node]
  by_cases hs : H - u32 (rh + TotalPadding a2.PaddingStyle) ≤
      W - u32 (rw + TotalPadding a2.PaddingStyle)
  · rw [if_pos hs] at f3
    subst f3
    exact ⟨rfl, rfl, rfl, f1, f2, rfl, rfl, rfl, rfl, fun _ => ⟨rfl, rfl⟩,
      fun hn => absurd hs hn⟩
  · rw [if_neg hs] at f3
    subst f3
    exact ⟨rfl, rfl, rfl, f1, f2, rfl, rfl, rfl, rfl, fun hn => absurd hn hs,
      fun _ => ⟨rfl, rfl⟩⟩

theorem C17_split_geometry_witness :
    ∃ res a2 t1,
      AddTextures (sampleInit DilateBorder) [(2, 2, [1, 2, 3, 4])] = some (res, a2) ∧
      FindSlotForTexture a2.PaddingStyle a2.RootNode 1 1 = (some [false], t1) ∧
      slotAt a2.RootNode [false] = node 0 4 4 4 1 null null ∧
      slotAt t1 [false] = node 0 4 3 3 1 (node 0 7 3 1 1 null null) (node 3 4 1 4 1 null null) ∧
      (slotAt a2.RootNode [false]).isLeaf = true ∧
      (slotAt t1 [false]).Width ≤ (slotAt a2.RootNode [false]).Width ∧
      (slotAt t1 [false]).Left.isLeaf = true ∧ (slotAt t1 [false]).Right.isLeaf = true :=
  ⟨_, _, _, rfl, rfl, rfl, rfl,
    (C17_split_geometry (sampleAtlas DilateBorder) (sampleInit DilateBorder) _
      [(2, 2, [1, 2, 3, 4])] _
      1 1 [false] _ (by decide) (by decide) rfl rfl rfl (by decide) (by decide)).1,
    (C17_split_geometry (sampleAtlas DilateBorder) (sampleInit DilateBorder) _
      [(2, 2, [1, 2, 3, 4])] _
      1 1 [false] _ (by decide) (by decide) rfl rfl rfl (by decide) (by decide)).2.2.2.1,
    rfl, rfl⟩

theorem slotAt_false (X Y W H P : Nat) (l r : FAtlasedTextureSlot) (q : List Bool) :
    slotAt (node X Y W H P l r) (false :: q) = slotAt l q := rfl

theorem slotAt_true (X Y W H P : Nat) (l r : FAtlasedTextureSlot) (q : List Bool) :
    slotAt (node X Y W H P l r) (true :: q) = slotAt r q := rfl

/-- The childless slots of a tree are the slots at its leaf paths, in the
same order. -/
theorem leaves_eq : ∀ (t : FAtlasedTextureSlot), leaves t = (leafPaths t).map (slotAt t) := by
  intro t
  induction t with
  | null => rfl
  | node X Y W H P l r ihl ihr =>
    by_cases hc : (l.isSet || r.isSet) = true
    · simp only [leaves, leafPaths, hc, if_true, List.map_append, List.map_map]
      rw [ihl, ihr]
      rfl
    · simp only [leaves, leafPaths, hc, if_false, List.map_cons, List.map_nil, slotAt_nil]
      rfl

/-- When the search fails, no childless slot passes the fit test. -/
theorem find_none_paths {ps : ESlateTextureAtlasPaddingStyle} {w h : Nat}
    {t : FAtlasedTextureSlot} (hf : (FindSlotForTexture ps t w h).1 = none) :
    ∀ q ∈ leafPaths t, ¬ Fits ps w h (slotAt t q) := by
  intro q hq
  have hmem : slotAt t q ∈ leaves t := by
    rw [leaves_eq]; exact List.mem_map_of_mem _ hq
  exact (find_none_iff ps w h t).mp hf _ hmem

/-- When the search succeeds, the slot it returns is the first childless slot
in left-before-right order that passes the fit test. -/
theorem find_first (ps : ESlateTextureAtlasPaddingStyle) (w h : Nat) :
    ∀ (t t1 : FAtlasedTextureSlot) (p : List Bool),
      FindSlotForTexture ps t w h = (some p, t1) →
      ∃ pre post, leafPaths t = pre ++ p :: post ∧
        (∀ q ∈ pre, ¬ Fits ps w h (slotAt t q)) ∧ Fits ps w h (slotAt t p) := by
  intro t
  induction t with
  | null => intro t1 p h1; simp [find_null] at h1
  | node X Y W H P l r ihl ihr =>
    intro t1 p h1
    by_cases hc : (l.isSet || r.isSet) = true
    · rw [find_interior ps X Y W H P l r w h hc] at h1
      simp only [leafPaths, hc, if_true]
      rcases hL : FindSlotForTexture ps l w h with ⟨_ | q, l1⟩
      · rcases hR : FindSlotForTexture ps r w h with ⟨_ | q, r1⟩
        · simp [hL, hR] at h1
        · simp only [hL, hR, Prod.mk.injEq, Option.some.injEq] at h1
          obtain ⟨rfl, _⟩ := h1
          obtain ⟨pre, post, e, hpre, hfit⟩ := ihr r1 q hR
          have hnone := find_none_paths (show (FindSlotForTexture ps l w h).1 = none by rw [hL])
          refine ⟨(leafPaths l).map (fun p => false :: p) ++ pre.map (fun p => true :: p),
            post.map (fun p => true :: p), ?_, ?_, ?_⟩
          · rw [e]; simp
          · intro x hx
            simp only [List.mem_append, List.mem_map] at hx
            rcases hx with ⟨y, hy, rfl⟩ | ⟨y, hy, rfl⟩
            · rw [slotAt_false]; exact hnone y hy
            · rw [slotAt_true]; exact hpre y hy
          · rw [slotAt_true]; exact hfit
      · simp only [hL, Prod.mk.injEq, Option.some.injEq] at h1
        obtain ⟨rfl, _⟩ := h1
        obtain ⟨pre, post, e, hpre, hfit⟩ := ihl l1 q hL
        refine ⟨pre.map (fun p => false :: p),
          post.map (fun p => false :: p) ++ (leafPaths r).map (fun p => true :: p), ?_, ?_, ?_⟩
        · rw [e]; simp
        · intro x hx
          simp only [List.mem_map] at hx
          obtain ⟨y, hy, rfl⟩ := hx
          rw [slotAt_false]; exact hpre y hy
        · rw [slotAt_false]; exact hfit
    · obtain ⟨rfl, rfl⟩ := not_interior hc
      obtain ⟨rfl, f1, f2, _⟩ := find_leaf_some h1
      refine ⟨[], [], ?_, ?_, ?_⟩
      · simp [leafPaths, FAtlasedTextureSlot.isSet]
      · intro x hx; simp at hx
      · rw [slotAt_nil]; exact ⟨f1, f2⟩

/-- The search turns right at a slot only after the search of its left
subtree has failed. -/
theorem find_right_after_left (ps : ESlateTextureAtlasPaddingStyle) (w h : Nat) :
    ∀ (t t1 : FAtlasedTextureSlot) (p q r : List Bool),
      FindSlotForTexture ps t w h = (some p, t1) → p = q ++ true :: r →
      (FindSlotForTexture ps (slotAt t (q ++ [false])) w h).1 = none := by
  intro t
  induction t with
  | null => intro t1 p q r h1; simp [find_null] at h1
  | node X Y W H P l r ihl ihr =>
    intro t1 p q r0 h1 hp
    by_cases hc : (l.isSet || r.isSet) = true
    · rw [find_interior ps X Y W H P l r w h hc] at h1
      rcases hL : FindSlotForTexture ps l w h with ⟨_ | p1, l1⟩
      · rcases hR : FindSlotForTexture ps r w h with ⟨_ | p1, r1⟩
        · simp [hL, hR] at h1
        · simp only [hL, hR, Prod.mk.injEq, Option.some.injEq] at h1
          obtain ⟨rfl, _⟩ := h1
          cases q with
          | nil =>
            rw [List.nil_append, slotAt_false, slotAt_nil, hL]
          | cons b q1 =>
            simp only [List.cons_append, List.cons.injEq] at hp
            obtain ⟨rfl, hp1⟩ := hp
            rw [List.cons_append, slotAt_true]
            exact ihr r1 p1 q1 r0 hR hp1
      · simp only [hL, Prod.mk.injEq, Option.some.injEq] at h1
        obtain ⟨rfl, _⟩ := h1
        cases q with
        | nil => simp at hp
        | cons b q1 =>
          simp only [List.cons_append, List.cons.injEq] at hp
          obtain ⟨rfl, hp1⟩ := hp
          rw [List.cons_append, slotAt_false]
          exact ihl l1 p1 q1 r0 hL hp1
    · obtain ⟨rfl, rfl⟩ := not_interior hc
      obtain ⟨rfl, _⟩ := find_leaf_some h1
      cases q <;> simp at hp

/-- C18 (the fit is a `uint32` comparison): with padding active, a request of
size `(2^32 - 2) x (2^32 - 1)` is placed in a 4 x 4 childless slot, whose
width and height are far below `reqW + totalPadding` and
`reqH + totalPadding`. -/
theorem C18_first_fit_counterexample :
    ∃ t1, FindSlotForTexture PadWithZero (node 0 0 4 4 1 null null) 4294967294 4294967295
        = (some [], t1) ∧
      slotAt (node 0 0 4 4 1 null null) [] = node 0 0 4 4 1 null null ∧
      ¬ ((node 0 0 4 4 1 null null).Width ≥ 4294967294 + TotalPadding PadWithZero) ∧
      ¬ ((node 0 0 4 4 1 null null).Height ≥ 4294967295 + TotalPadding PadWithZero) :=
  ⟨_, rfl, rfl, by decide, by decide⟩

/-- C18 (left-first first fit, amended): on success `FindSlotForTexture`
returns the first childless slot, in left-before-right depth-first order of
the tree, that passes the fit test of the code, in which the padded sizes are
`uint32` sums; no childless slot earlier in that order passes it, and the
search turns right at a slot only when the search of its left subtree has
failed.  For a request whose padded sizes `reqW + totalPadding` and
`reqH + totalPadding` do not exceed `2^32 - 1`, the fit test is
`width ≥ reqW + totalPadding` and `height ≥ reqH + totalPadding`. -/
theorem C18_first_fit (ps : ESlateTextureAtlasPaddingStyle) (t t1 : FAtlasedTextureSlot)
    (w h : Nat) (p : List Bool) (hfind : FindSlotForTexture ps t w h = (some p, t1)) :
    ∃ pre post, leafPaths t = pre ++ p :: post ∧
      (slotAt t p).isLeaf = true ∧
      Fits ps w h (slotAt t p) ∧
      (∀ q ∈ pre, ¬ Fits ps w h (slotAt t q)) ∧
      (∀ q r : List Bool, p = q ++ true :: r →
        (FindSlotForTexture ps (slotAt t (q ++ [false])) w h).1 = none) ∧
      (w + TotalPadding ps ≤ 2 ^ 32 - 1 → h + TotalPadding ps ≤ 2 ^ 32 - 1 →
        ((slotAt t p).Width ≥ w + TotalPadding ps ∧
          (slotAt t p).Height ≥ h + TotalPadding ps) ∧
        ∀ q ∈ pre, ¬ ((slotAt t q).Width ≥ w + TotalPadding ps ∧
          (slotAt t q).Height ≥ h + TotalPadding ps)) := by
  obtain ⟨pre, post, e, hpre, hfit⟩ := find_first ps w h t t1 p hfind
  refine ⟨pre, post, e, (find_some_frame hfind).1, hfit, hpre,
    fun q r hp => find_right_after_left ps w h t t1 p q r hfind hp, ?_⟩
  intro hw hh
  have ew : u32 (w + TotalPadding ps) = w + TotalPadding ps := u32_of_lt (by omega)
  have eh : u32 (h + TotalPadding ps) = h + TotalPadding ps := u32_of_lt (by omega)
  unfold Fits at hfit hpre
  rw [ew, eh] at hfit
  refine ⟨hfit, fun q hq => ?_⟩
  have := hpre q hq
  rw [ew, eh] at this
  exact this

theorem C18_first_fit_witness :
    ∃ t1, FindSlotForTexture NoPadding (sampleRun NoPadding).RootNode 3 3 = (some [true], t1) ∧
      ∃ pre post, leafPaths (sampleRun NoPadding).RootNode = pre ++ [true] :: post ∧
        (slotAt (sampleRun NoPadding).RootNode [true]).isLeaf = true ∧
        Fits NoPadding 3 3 (slotAt (sampleRun NoPadding).RootNode [true]) ∧
        (∀ q ∈ pre, ¬ Fits NoPadding 3 3 (slotAt (sampleRun NoPadding).RootNode q)) ∧
        (∀ q r : List Bool, [true] = q ++ true :: r →
          (FindSlotForTexture NoPadding
            (slotAt (sampleRun NoPadding).RootNode (q ++ [false])) 3 3).1 = none) ∧
        (3 + TotalPadding NoPadding ≤ 2 ^ 32 - 1 → 3 + TotalPadding NoPadding ≤ 2 ^ 32 - 1 →
          ((slotAt (sampleRun NoPadding).RootNode [true]).Width ≥ 3 + TotalPadding NoPadding ∧
            (slotAt (sampleRun NoPadding).RootNode [true]).Height ≥
              3 + TotalPadding NoPadding) ∧
          ∀ q ∈ pre, ¬ ((slotAt (sampleRun NoPadding).RootNode q).Width ≥
              3 + TotalPadding NoPadding ∧
            (slotAt (sampleRun NoPadding).RootNode q).Height ≥ 3 + TotalPadding NoPadding)) :=
  ⟨_, rfl, C18_first_fit NoPadding (sampleRun NoPadding).RootNode _ 3 3 [true] rfl⟩

/-- C19 (the search is not best fit): on the 8 x 8 sample atlas without
padding, after a 2 x 2 and a 3 x 3 bitmap have been added, the childless
slots are `{0, 2, 2, 6}`, `{5, 0, 3, 3}` and `{2, 3, 6, 5}` in search order.
A 2 x 2 request is placed in the first, of area 12, although the second also
fits it and has the smaller area 9. -/
theorem C19_best_fit_fails :
    ∃ res a2 t1,
      AddTextures (sampleInit NoPadding)
        [(2, 2, [1, 2, 3, 4]), (3, 3, [1, 2, 3, 4, 5, 6, 7, 8, 9])] = some (res, a2) ∧
      leafPaths a2.RootNode = [[false], [true, false], [true, true]] ∧
      FindSlotForTexture a2.PaddingStyle a2.RootNode 2 2 = (some [false], t1) ∧
      slotAt a2.RootNode [false] = node 0 2 2 6 0 null null ∧
      slotAt a2.RootNode [true, false] = node 5 0 3 3 0 null null ∧
      (slotAt a2.RootNode [true, false]).Width ≥ 2 + TotalPadding a2.PaddingStyle ∧
      (slotAt a2.RootNode [true, false]).Height ≥ 2 + TotalPadding a2.PaddingStyle ∧
      Area (slotAt a2.RootNode [true, false]) = 9 ∧
      Area (slotAt a2.RootNode [false]) = 12 ∧
      Area (slotAt a2.RootNode [true, false]) < Area (slotAt a2.RootNode [false]) :=
  ⟨_, _, _, rfl, rfl, rfl, rfl, rfl, by decide, by decide, rfl, rfl, by decide⟩

/-- C20 (the fit check wraps around): with padding active, the request
`(2^32 - 1) x (2^32 - 1)` has `reqW + totalPadding = 2^32 + 1 > 8`, yet
`FindSlotForTexture` does not fail on the 8 x 8 childless slot: it accepts
it, shrinks it to 1 x 1 and splits it. -/
theorem C20_fit_check_wraps :
    ∃ s, (node 0 0 8 8 1 null null).isLeaf = true ∧
      4294967295 < 2 ^ 32 ∧
      4294967295 + TotalPadding DilateBorder > (node 0 0 8 8 1 null null).Width ∧
      4294967295 + TotalPadding DilateBorder > (node 0 0 8 8 1 null null).Height ∧
      FindSlotForTexture DilateBorder (node 0 0 8 8 1 null null) 4294967295 4294967295
        = (some [], s) ∧
      s = node 0 0 1 1 1 (node 0 1 1 7 1 null null) (node 1 0 7 8 1 null null) :=
  ⟨_, rfl, by decide, by decide, by decide, rfl, rfl⟩

/-! ## Tear-down without a root -/

/-- `DestroyNodes` returns exactly on a slot that exists. -/
theorem DestroyNodes_isSome (t : FAtlasedTextureSlot) :
    (DestroyNodes t).isSome = t.isSet := by
  cases t with
  | null => rfl
  | node X Y W H P l r => rw [DestroyNodes_eq (node X Y W H P l r) rfl]; rfl

/-- C25 (Empty needs a root): `Empty` completes without fault if and only if
the root slot is present.  On an atlas whose root is absent `DestroyNodes` is
entered with a null slot, whose `Left` field it reads: a fault.  This is the
state before `InitAtlasData` and the state a completed `Empty` leaves, so a
second `Empty`, and the destructor's `Empty` after an explicit one, fault:
`Empty` is not idempotent. -/
theorem C25_empty_needs_root (a : FSlateTextureAtlas) :
    ((Empty a).isSome = true ↔ a.RootNode.isSet = true) ∧
    (a.RootNode.isSet = false → DestroyNodes a.RootNode = none ∧ Empty a = none ∧
      Destructor a = none) ∧
    (∀ tr a1, Empty a = some (tr, a1) →
      a1.RootNode.isSet = false ∧ Empty a1 = none ∧ Destructor a1 = none) := by
  have hnull : ∀ b : FSlateTextureAtlas, b.RootNode.isSet = false →
      DestroyNodes b.RootNode = none ∧ Empty b = none ∧ Destructor b = none := by
    intro b hb
    have e : DestroyNodes b.RootNode = none := by
      rw [isSet_eq_false hb]; rfl
    have e2 : Empty b = none := by rw [Empty, e]
    exact ⟨e, e2, e2⟩
  refine ⟨?_, hnull a, ?_⟩
  · constructor
    · intro h
      cases hr : a.RootNode.isSet
      · rw [(hnull a hr).2.1] at h; exact absurd h (by simp)
      · rfl
    · intro h
      rw [Empty, DestroyNodes_eq _ h]; rfl
  · intro tr a1 hE
    unfold Empty at hE
    rcases hD : DestroyNodes a.RootNode with _ | del
    · simp [hD] at hE
    · simp only [hD, Option.some.injEq, Prod.mk.injEq] at hE
      obtain ⟨_, rfl⟩ := hE
      exact ⟨rfl, (hnull { a with RootNode := null, AtlasData := [] } rfl).2⟩

/-! ## Visual logger -/

/-- C26 (frame cache item construction fails): the constructor copies the
member `OwnerName` from itself, so the parameter `InOwnerName` has no effect:
built in storage that holds the name 0, `FFrameCacheItem(1, 5)` has
`OwnerName` 0, not 1; its `Entry` is the entry 5 passed in. -/
theorem C26_owner_name_not_set :
    (FFrameCacheItem.construct (0 : Nat) (1 : Nat) (5 : Nat)).OwnerName = 0 ∧
    (FFrameCacheItem.construct (0 : Nat) (1 : Nat) (5 : Nat)).OwnerName ≠ 1 ∧
    (FFrameCacheItem.construct (0 : Nat) (1 : Nat) (5 : Nat)).Entry = 5 :=
  ⟨rfl, by decide, rfl⟩

/-! ## Exact tiling of the canvas -/

theorem Tiled.packed {t : FAtlasedTextureSlot} {x y w h : Nat} (ht : Tiled t x y w h) :
    Packed t x y w h := by
  induction ht with
  | leaf => exact Packed.leaf (le_refl _) (le_refl _)
  | vsplit hw hh _ _ ihl ihr => exact Packed.vsplit hw hh ihl ihr
  | hsplit hw hh _ _ ihl ihr => exact Packed.hsplit hw hh ihl ihr

theorem area_split {W H w h : Nat} (hw : W ≤ w) (hh : H ≤ h) :
    W * H + W * (h - H) + (w - W) * h = w * h ∧
    W * H + (w - W) * H + w * (h - H) = w * h := by
  have e1 : W * H + W * (h - H) = W * h := by
    rw [← Nat.mul_add]; congr 1; omega
  have e2 : W * h + (w - W) * h = w * h := by
    rw [← Nat.add_mul]; congr 1; omega
  have e3 : W * H + (w - W) * H = w * H := by
    rw [← Nat.add_mul]; congr 1; omega
  have e4 : w * H + w * (h - H) = w * h := by
    rw [← Nat.mul_add]; congr 1; omega
  constructor
  · rw [e1, e2]
  · rw [e3, e4]

/-- The areas of the slots of a tree that tiles a region sum to the area of
the region. -/
theorem Tiled.area {t : FAtlasedTextureSlot} {x y w h : Nat} (ht : Tiled t x y w h) :
    totalArea t = w * h := by
  induction ht with
  | leaf => simp [totalArea]
  | @vsplit X Y W H P w h l r hw hh _ _ ihl ihr =>
    simp only [totalArea, ihl, ihr]
    exact (area_split hw hh).1
  | @hsplit X Y W H P w h l r hw hh _ _ ihl ihr =>
    simp only [totalArea, ihl, ihr]
    exact (area_split hw hh).2

theorem Tiled.replace_tile {t : FAtlasedTextureSlot} {x y w h : Nat} (ht : Tiled t x y w h)
    {X Y W H P : Nat} {s : FAtlasedTextureSlot} (hs : Tiled s X Y W H) :
    ∀ (p : List Bool), slotAt t p = node X Y W H P null null →
      Tiled (FAtlasedTextureSlot.replaceAt t p s) x y w h := by
  induction ht with
  | leaf =>
    intro p hp
    match p with
    | [] =>
      simp only [slotAt, node.injEq] at hp
      obtain ⟨rfl, rfl, rfl, rfl, _⟩ := hp
      rw [replaceAt_nil]
      exact hs
    | false :: p => simp [slotAt, slotAt_null] at hp
    | true :: p => simp [slotAt, slotAt_null] at hp
  | vsplit hw hh hl hr ihl ihr =>
    intro p hp
    match p with
    | [] =>
      simp only [slotAt, node.injEq] at hp
      have := hl.packed.nonnull
      simp [hp.2.2.2.2.2.1, FAtlasedTextureSlot.isSet] at this
    | false :: p => exact Tiled.vsplit hw hh (ihl p hp) hr
    | true :: p => exact Tiled.vsplit hw hh hl (ihr p hp)
  | hsplit hw hh hl hr ihl ihr =>
    intro p hp
    match p with
    | [] =>
      simp only [slotAt, node.injEq] at hp
      have := hl.packed.nonnull
      simp [hp.2.2.2.2.2.1, FAtlasedTextureSlot.isSet] at this
    | false :: p => exact Tiled.hsplit hw hh (ihl p hp) hr
    | true :: p => exact Tiled.hsplit hw hh hl (ihr p hp)

/-- The split of a childless slot tiles the rectangle of that slot. -/
theorem find_leaf_tiled {ps : ESlateTextureAtlasPaddingStyle} {X Y W H P w h : Nat}
    {p : List Bool} {s : FAtlasedTextureSlot}
    (hf : FindSlotForTexture ps (node X Y W H P null null) w h = (some p, s))
    (hW : W < 2 ^ 31) (hH : H < 2 ^ 31) (hx : X + W < 2 ^ 32) (hy : Y + H < 2 ^ 32) :
    Tiled s X Y W H := by
  obtain ⟨f1, f2, f3⟩ := find_leaf_split hf hW hH hx hy
  rw [f3]
  split
  · exact Tiled.vsplit f1 f2 Tiled.leaf Tiled.leaf
  · exact Tiled.hsplit f1 f2 Tiled.leaf Tiled.leaf

/-- The packer keeps the tree an exact tiling of its region, when the region
is smaller than `2^31` in both directions. -/
theorem find_tiled {ps : ESlateTextureAtlasPaddingStyle} {t t1 : FAtlasedTextureSlot}
    {x y w h rw rh : Nat} {r : Option (List Bool)} (ht : Tiled t x y w h)
    (hx : x + w < 2 ^ 31) (hy : y + h < 2 ^ 31)
    (hf : FindSlotForTexture ps t rw rh = (r, t1)) : Tiled t1 x y w h := by
  cases r with
  | none => rw [find_none ps rw rh t t1 hf]; exact ht
  | some p =>
    obtain ⟨X, Y, W, H, P, s, h1, h2, h3⟩ := find_some ps rw rh t t1 p hf
    have hb := ht.packed.bounds p (by rw [h1]; rfl)
    rw [h1] at hb
    simp only [X_node, Y_node, Width_node, Height_node] at hb
    rw [h3]
    exact ht.replace_tile
      (find_leaf_tiled h2 (by omega) (by omega) (by omega) (by omega)) p h1

/-- A run of `AddTexture` calls keeps the tree an exact tiling of the
canvas. -/
theorem AddTextures_tiled :
    ∀ (reqs : List (Nat × Nat × List Nat)) (a a2 : FSlateTextureAtlas)
      (res : List (Option (List Bool))) (w h : Nat),
      AddTextures a reqs = some (res, a2) → w < 2 ^ 31 → h < 2 ^ 31 →
      Tiled a.RootNode 0 0 w h → Tiled a2.RootNode 0 0 w h := by
  intro reqs
  induction reqs with
  | nil =>
    intro a a2 res w h hrun _ _ ht
    simp only [AddTextures, Option.some.injEq, Prod.mk.injEq] at hrun
    rw [← hrun.2]; exact ht
  | cons req rest ih =>
    intro a a2 res w h hrun hw hh ht
    obtain ⟨rw, rh, d⟩ := req
    simp only [AddTextures] at hrun
    rcases hadd : AddTexture a rw rh d with _ | ⟨r, a1⟩
    · simp [hadd] at hrun
    · simp only [hadd] at hrun
      rcases hrest : AddTextures a1 rest with _ | ⟨rs, a3⟩
      · simp [hrest] at hrun
      · simp only [hrest, Option.some.injEq, Prod.mk.injEq] at hrun
        obtain ⟨_, rfl⟩ := hrun
        obtain ⟨_, hfind, _⟩ := AddTexture_find hadd
        exact ih a1 a3 rs w h hrest hw hh (find_tiled ht (by omega) (by omega) hfind)

/-- The three rectangles a split leaves tile the rectangle of the slot that
was split. -/
theorem find_leaf_tiles {ps : ESlateTextureAtlasPaddingStyle} {X Y W H P w h : Nat}
    {p : List Bool} {s : FAtlasedTextureSlot}
    (hf : FindSlotForTexture ps (node X Y W H P null null) w h = (some p, s))
    (hW : W < 2 ^ 31) (hH : H < 2 ^ 31) (hx : X + W < 2 ^ 32) (hy : Y + H < 2 ^ 32) :
    (∀ px py, InRect (node X Y W H P null null) px py ↔
      (InRect s px py ∨ InRect s.Left px py ∨ InRect s.Right px py)) ∧
    (∀ px py, ¬ (InRect s px py ∧ InRect s.Left px py) ∧
      ¬ (InRect s px py ∧ InRect s.Right px py) ∧
      ¬ (InRect s.Left px py ∧ InRect s.Right px py)) ∧
    Area s + Area s.Left + Area s.Right = Area (node X Y W H P null null) := by
  obtain ⟨f1, f2, f3⟩ := find_leaf_split hf hW hH hx hy
  generalize u32 (w + TotalPadding ps) = pw at f1 f2 f3
  generalize u32 (h + TotalPadding ps) = ph at f1 f2 f3
  by_cases hs : H - ph ≤ W - pw
  · rw [if_pos hs] at f3
    subst f3
    simp only [InRect, Area, Left_node, Right_node, X_node, Y_node, Width_node, Height_node]
    refine ⟨fun px py => by omega, fun px py => by omega, (area_split f1 f2).1⟩
  · rw [if_neg hs] at f3
    subst f3
    simp only [InRect, Area, Left_node, Right_node, X_node, Y_node, Width_node, Height_node]
    refine ⟨fun px py => by omega, fun px py => by omega, (area_split f1 f2).2⟩

/-- C24 (canvas tiling is preserved): in an atlas set up by `InitAtlasData`
with `AtlasWidth, AtlasHeight < 2^31`, after any run of `AddTexture` calls,
the rectangles of the slots of the tree are pairwise non-overlapping and
their areas sum to `AtlasWidth * AtlasHeight`.  Every further split keeps
this: the shrunk slot and its two children lie in, cover and do not overlap
inside the former rectangle of the childless slot they replace, their areas
sum to its area, and the areas of the new tree again sum to
`AtlasWidth * AtlasHeight`. -/
theorem C24_canvas_tiling (a0 a1 a2 : FSlateTextureAtlas)
    (reqs : List (Nat × Nat × List Nat)) (res : List (Option (List Bool)))
    (hAW : a0.AtlasWidth < 2 ^ 31) (hAH : a0.AtlasHeight < 2 ^ 31)
    (hinit : InitAtlasData a0 = some a1)
    (hrun : AddTextures a1 reqs = some (res, a2)) :
    totalArea a2.RootNode = a0.AtlasWidth * a0.AtlasHeight ∧
    (∀ p q : List Bool, p ≠ q → (slotAt a2.RootNode p).isSet = true →
      (slotAt a2.RootNode q).isSet = true →
      ¬ Overlap (slotAt a2.RootNode p) (slotAt a2.RootNode q)) ∧
    (∀ (rw rh : Nat) (p : List Bool) (t1 : FAtlasedTextureSlot),
      FindSlotForTexture a2.PaddingStyle a2.RootNode rw rh = (some p, t1) →
      (slotAt a2.RootNode p).isLeaf = true ∧
      (∀ px py, InRect (slotAt a2.RootNode p) px py ↔
        (InRect (slotAt t1 p) px py ∨ InRect (slotAt t1 p).Left px py ∨
          InRect (slotAt t1 p).Right px py)) ∧
      (∀ px py, ¬ (InRect (slotAt t1 p) px py ∧ InRect (slotAt t1 p).Left px py) ∧
        ¬ (InRect (slotAt t1 p) px py ∧ InRect (slotAt t1 p).Right px py) ∧
        ¬ (InRect (slotAt t1 p).Left px py ∧ InRect (slotAt t1 p).Right px py)) ∧
      Area (slotAt t1 p) + Area (slotAt t1 p).Left + Area (slotAt t1 p).Right =
        Area (slotAt a2.RootNode p) ∧
      totalArea t1 = a0.AtlasWidth * a0.AtlasHeight) := by
  obtain ⟨hroot, _, eW, eH, _⟩ := InitAtlasData_root hinit
  have ht1 : Tiled a1.RootNode 0 0 a0.AtlasWidth a0.AtlasHeight := by
    rw [hroot]; exact Tiled.leaf
  have ht2 := AddTextures_tiled reqs a1 a2 res _ _ hrun hAW hAH ht1
  refine ⟨ht2.area, ?_, ?_⟩
  · intro p q hne hp hq hov
    obtain ⟨px, py, h1, h2⟩ := hov
    exact ht2.packed.disjoint p q hne hp hq px py ⟨h1, h2⟩
  · intro rw rh p t1 hfind
    obtain ⟨X, Y, W, H, P, s, h1, h2, h3⟩ := find_some _ rw rh _ t1 p hfind
    have hb := ht2.packed.bounds p (by rw [h1]; rfl)
    have hself : slotAt t1 p = s := by
      rw [h3]; exact slotAt_replaceAt_self s _ p (by rw [h1]; rfl)
    rw [h1] at hb
    simp only [X_node, Y_node, Width_node, Height_node] at hb
    obtain ⟨g1, g2, g3⟩ :=
      find_leaf_tiles h2 (by omega) (by omega) (by omega) (by omega)
    rw [hself, h1]
    exact ⟨rfl, g1, g2, g3, (find_tiled ht2 (by omega) (by omega) hfind).area⟩

theorem C24_canvas_tiling_witness :
    ∃ res a2 t1,
      AddTextures (sampleInit DilateBorder) sampleRequests = some (res, a2) ∧
      FindSlotForTexture a2.PaddingStyle a2.RootNode 1 1 = (some [true, true], t1) ∧
      totalArea a2.RootNode = 8 * 8 ∧
      ¬ Overlap (slotAt a2.RootNode []) (slotAt a2.RootNode [true]) ∧
      totalArea t1 = 8 * 8 :=
  ⟨_, _, _, rfl, rfl,
    (C24_canvas_tiling (sampleAtlas DilateBorder) (sampleInit DilateBorder) _ sampleRequests _
      (by decide) (by decide) rfl rfl).1,
    (C24_canvas_tiling (sampleAtlas DilateBorder) (sampleInit DilateBorder) _ sampleRequests _
      (by decide) (by decide) rfl rfl).2.1 [] [true] (by decide) rfl rfl,
    ((C24_canvas_tiling (sampleAtlas DilateBorder) (sampleInit DilateBorder) _ sampleRequests _
      (by decide) (by decide) rfl rfl).2.2 1 1 [true, true] _ rfl).2.2.2.2⟩

/-! ## The blit stays inside its arrays -/

theorem Memcpy_none_moved (Dest Src : List Nat) : Memcpy Dest 0 Src 0 0 = some Dest := by
  rw [Memcpy_of_le (by omega) (by omega)]
  simp

theorem Memzero_none_zeroed (Dest : List Nat) : Memzero Dest 0 0 = some Dest := by
  rw [Memzero_of_le (by omega)]
  simp

/-- With pixels of zero bytes every copy is empty: `CopyRow` at destination
offset 0 returns the buffer as it is. -/
theorem CopyRow_stride_zero (ps : ESlateTextureAtlasPaddingStyle) (buf : List Nat)
    (crd : FCopyRowData) (hd : crd.DestData = 0) : CopyRow ps 0 buf crd = some buf := by
  unfold CopyRow
  simp only [Nat.mul_zero, u32_zero, Nat.add_zero, hd, Memcpy_none_moved, Memzero_none_zeroed]
  split
  · split <;> rfl
  · rfl

theorem ZeroRow_stride_zero (buf : List Nat) (crd : FCopyRowData) (hd : crd.DestData = 0) :
    ZeroRow 0 buf crd = some buf := by
  unfold ZeroRow
  simp only [Nat.mul_zero, u32_zero, Nat.add_zero, hd, Memzero_none_zeroed]

theorem CopyRows_stride_zero (ps : ESlateTextureAtlasPaddingStyle) (crd : FCopyRowData)
    (P : Nat) (hd : crd.DestData = 0) :
    ∀ (n Row : Nat) (buf : List Nat), CopyRows ps 0 crd P n Row buf = some buf := by
  intro n
  induction n with
  | zero => intro Row buf; rfl
  | succ n ih =>
    intro Row buf
    have e := CopyRow_stride_zero ps buf
      { crd with SrcRow := u32sub Row P, DestRow := Row } hd
    simp only [CopyRows, e]
    exact ih (Row + 1) buf

/-- With pixels of zero bytes `CopyDataIntoSlot` accesses no byte and returns
the buffer as it is. -/
theorem CopyDataIntoSlot_stride_zero (a : FSlateTextureAtlas) (s : FAtlasedTextureSlot)
    (Data : List Nat) (hS : a.Stride = 0) : CopyDataIntoSlot a s Data = some a.AtlasData := by
  have c1 : ∀ (ps : ESlateTextureAtlasPaddingStyle) (b D : List Nat) (sr dr wd sw dw : Nat),
      CopyRow ps 0 b
        { SrcData := D, DestData := 0, SrcRow := sr, DestRow := dr,
          RowWidth := wd, SrcTextureWidth := sw, DestTextureWidth := dw } = some b :=
    fun ps b D sr dr wd sw dw => CopyRow_stride_zero ps b _ rfl
  have c2 : ∀ (b D : List Nat) (sr dr wd sw dw : Nat),
      ZeroRow 0 b
        { SrcData := D, DestData := 0, SrcRow := sr, DestRow := dr,
          RowWidth := wd, SrcTextureWidth := sw, DestTextureWidth := dw } = some b :=
    fun b D sr dr wd sw dw => ZeroRow_stride_zero b _ rfl
  have c3 : ∀ (ps : ESlateTextureAtlasPaddingStyle) (b D : List Nat)
      (sr dr wd sw dw P n Row : Nat),
      CopyRows ps 0
        { SrcData := D, DestData := 0, SrcRow := sr, DestRow := dr,
          RowWidth := wd, SrcTextureWidth := sw, DestTextureWidth := dw } P n Row b = some b :=
    fun ps b D sr dr wd sw dw P n Row => CopyRows_stride_zero ps _ P rfl n Row b
  unfold CopyDataIntoSlot
  simp only [hS, Nat.mul_zero, u32_zero, Nat.add_zero]
  generalize a.PaddingStyle = ps
  cases ps <;> simp [PaddingOf, c1, c2, c3]

/-- On an atlas whose buffer size did not wrap around, the blit into the slot
the packer returns for a non-empty request completes when the source holds at
least `w * h * Stride` bytes and the padded sizes do not wrap around. -/
theorem blit_returns {a : FSlateTextureAtlas} {w h : Nat} {d : List Nat}
    {p : List Bool} {t1 : FAtlasedTextureSlot} (hinv : AtlasInv a) (hS : 0 < a.Stride)
    (hw : 1 ≤ w) (hh : 1 ≤ h)
    (hw2 : w + TotalPadding a.PaddingStyle < 2 ^ 32)
    (hh2 : h + TotalPadding a.PaddingStyle < 2 ^ 32)
    (hd : w * h * a.Stride ≤ d.length)
    (hfind : FindSlotForTexture a.PaddingStyle a.RootNode w h = (some p, t1)) :
    ∃ b1, CopyDataIntoSlot { a with RootNode := t1 } (slotAt t1 p) d = some b1 := by
  obtain ⟨hW, hH, hP, hl, hs⟩ := hinv
  have hP1 : Packed t1 0 0 a.AtlasWidth a.AtlasHeight :=
    find_packed hP (by omega) (by omega) hfind
  obtain ⟨X, Y, W, H, Pd, s, h1, h2, h3⟩ := find_some _ w h _ _ p hfind
  obtain ⟨_, _, _, sX, sY, sW, sH, _, _, sSet⟩ := find_leaf_some h2
  have hself : slotAt t1 p = s := by
    rw [h3]; exact slotAt_replaceAt_self s _ p (by rw [h1]; rfl)
  have hb := hP1.bounds p (by rw [hself]; exact sSet)
  rw [u32_of_lt hw2, TotalPadding_eq_two_mul] at sW
  rw [u32_of_lt hh2, TotalPadding_eq_two_mul] at sH
  rw [hself] at hb ⊢
  cases s with
  | null => simp [FAtlasedTextureSlot.isSet] at sSet
  | node X1 Y1 W1 H1 P1 l1 r1 =>
    simp only [X_node, Y_node, Width_node, Height_node] at sX sY sW sH hb
    subst sW sH
    have hlen1 : (Y1 + (h + 2 * PaddingOf a.PaddingStyle)) * a.AtlasWidth * a.Stride
        ≤ a.AtlasData.length := by
      rw [hl]
      apply Nat.mul_le_mul_right
      rw [Nat.mul_comm a.AtlasWidth]
      exact Nat.mul_le_mul_right _ (by omega)
    obtain ⟨b1, c1, _⟩ := CopyDataIntoSlot_spec
      { a with RootNode := t1 } X1 Y1 w h P1 l1 r1 d hS hw hh (by simp only; omega)
      hlen1 (by simp only; omega) hd
    exact ⟨b1, c1⟩

/-- On an atlas whose buffer size did not wrap around, `AddTexture` of a
non-empty bitmap that the packer places completes without fault when the
source array (fewer than `2^31` bytes, as every array) holds at least
`w * h * Stride` bytes. -/
theorem AddTexture_returns {a : FSlateTextureAtlas} {w h : Nat} {d : List Nat}
    {p : List Bool} {t1 : FAtlasedTextureSlot} (hinv : AtlasInv a)
    (hw : 1 ≤ w) (hh : 1 ≤ h)
    (hd : w * h * a.Stride ≤ d.length) (htyp : d.length < 2 ^ 31)
    (hfind : FindSlotForTexture a.PaddingStyle a.RootNode w h = (some p, t1)) :
    ∃ b1, CopyDataIntoSlot { a with RootNode := t1 } (slotAt t1 p) d = some b1 ∧
      AddTexture a w h d =
        some (some p, { a with RootNode := t1, AtlasData := b1, bNeedsUpdate := true }) := by
  have hroot : a.RootNode.isSet = true := hinv.2.2.1.nonnull
  have hblit : ∃ b1, CopyDataIntoSlot { a with RootNode := t1 } (slotAt t1 p) d = some b1 := by
    by_cases hS : a.Stride = 0
    · exact ⟨_, CopyDataIntoSlot_stride_zero { a with RootNode := t1 } _ d hS⟩
    · have hS1 : 0 < a.Stride := Nat.pos_of_ne_zero hS
      obtain ⟨d1, d2⟩ := dims_le_size hw hh hS1
      have tp : TotalPadding a.PaddingStyle ≤ 2 := by
        rw [TotalPadding_eq]; split <;> omega
      exact blit_returns hinv hS1 hw hh (by omega) (by omega) hd hfind
  obtain ⟨b1, hb1⟩ := hblit
  refine ⟨b1, hb1, ?_⟩
  rw [AddTexture_eq a w h d hroot, hfind]
  simp only
  rw [if_pos (show w > 0 ∧ h > 0 from ⟨hw, hh⟩), hb1]

/-- C23 (blit stays in bounds): on an atlas set up by `InitAtlasData` with
`AtlasWidth * AtlasHeight * Stride < 2^32`, in any state reached by
`AddTexture` calls, for a request with `TextureWidth ≥ 1` and
`TextureHeight ≥ 1` that the packer places and a source array of at least
`TextureWidth * TextureHeight * Stride` bytes (an array holds fewer than
`2^31` bytes), `CopyDataIntoSlot` completes: none of the checked copies and
fills of `CopyDataIntoSlot`, `CopyRow` and `ZeroRow` leaves the source array
or the atlas buffer, whatever the padding style; `AddTexture` returns the
slot, and the buffer keeps its length. -/
theorem C23_blit_in_bounds (a0 a1 a2 : FSlateTextureAtlas)
    (reqs : List (Nat × Nat × List Nat)) (res : List (Option (List Bool)))
    (W H : Nat) (Data : List Nat) (p : List Bool) (t1 : FAtlasedTextureSlot)
    (hAW : a0.AtlasWidth < 2 ^ 32) (hAH : a0.AtlasHeight < 2 ^ 32)
    (hsize : a0.AtlasWidth * a0.AtlasHeight * a0.Stride < 2 ^ 32)
    (hinit : InitAtlasData a0 = some a1)
    (hrun : AddTextures a1 reqs = some (res, a2))
    (hW : 1 ≤ W) (hH : 1 ≤ H)
    (hData : W * H * a0.Stride ≤ Data.length) (hArr : Data.length < 2 ^ 31)
    (hfind : FindSlotForTexture a2.PaddingStyle a2.RootNode W H = (some p, t1)) :
    ∃ buf, CopyDataIntoSlot { a2 with RootNode := t1 } (slotAt t1 p) Data = some buf ∧
      buf.length = a2.AtlasData.length ∧
      ∃ a3, AddTexture a2 W H Data = some (some p, a3) ∧ a3.AtlasData = buf := by
  have hinv1 := AtlasInv_init hinit hAW hAH hsize
  have hinv := AtlasInv_run hinv1 hrun
  obtain ⟨_, _, _, _, eS, _⟩ := InitAtlasData_root hinit
  obtain ⟨_, ⟨_, _, cS, _⟩, _⟩ := AddTextures_inv reqs a1 a2 res hrun hinv1.1 hinv1.2.1
    hinv1.2.2.1
  obtain ⟨b1, hb1, hadd⟩ := AddTexture_returns hinv hW hH (by rw [cS, eS]; exact hData)
    hArr hfind
  exact ⟨b1, hb1, CopyDataIntoSlot_length hb1, _, hadd, rfl⟩

theorem C23_blit_in_bounds_witness :
    ∃ res a2 t1,
      AddTextures (sampleInit PadWithZero) sampleRequests = some (res, a2) ∧
      FindSlotForTexture a2.PaddingStyle a2.RootNode 2 1 = (some [true, true], t1) ∧
      ∃ buf, CopyDataIntoSlot { a2 with RootNode := t1 } (slotAt t1 [true, true]) [7, 8]
          = some buf ∧
        buf.length = a2.AtlasData.length ∧
        ∃ a3, AddTexture a2 2 1 [7, 8] = some (some [true, true], a3) ∧ a3.AtlasData = buf :=
  ⟨_, _, _, rfl, rfl,
    C23_blit_in_bounds (sampleAtlas PadWithZero) (sampleInit PadWithZero) _ sampleRequests _
      2 1 [7, 8] [true, true] _ (by decide) (by decide) (by decide) rfl rfl
      (by decide) (by decide) (by decide) (by decide) rfl⟩

/-! ## The frame of the blit -/

/-- A pixel index determines its row and column. -/
theorem pixel_unique {AW r1 c1 r2 c2 : Nat} (h1 : c1 < AW) (h2 : c2 < AW)
    (h : r1 * AW + c1 = r2 * AW + c2) : r1 = r2 ∧ c1 = c2 := by
  rcases Nat.lt_trichotomy r1 r2 with hlt | heq | hgt
  · have := Nat.mul_le_mul_right AW (show r1 + 1 ≤ r2 from hlt)
    rw [Nat.add_mul, Nat.one_mul] at this
    omega
  · subst heq
    exact ⟨rfl, by omega⟩
  · have := Nat.mul_le_mul_right AW (show r2 + 1 ≤ r1 from hgt)
    rw [Nat.add_mul, Nat.one_mul] at this
    omega

theorem Pixel_stride_zero (buf : List Nat) (k : Nat) : Pixel 0 buf k = [] := by
  unfold Pixel
  exact ReadBytes_zero _ _

/-- What `AddTexture` leaves untouched, on an atlas whose buffer size did not
wrap around and for a source array of at least `w * h * Stride` bytes: every
pixel that is not a pixel of the returned slot. -/
theorem AddTexture_frame {a a1 : FSlateTextureAtlas} {w h : Nat} {d : List Nat}
    {r : Option (List Bool)} (hinv : AtlasInv a)
    (hd : w * h * a.Stride ≤ d.length) (htyp : d.length < 2 ^ 31)
    (hadd : AddTexture a w h d = some (r, a1)) :
    ∀ k, (∀ p, r = some p → ∀ r1 c1, r1 < (slotAt a1.RootNode p).Height →
        c1 < (slotAt a1.RootNode p).Width →
        k ≠ (slotAt a1.RootNode p).Y * a.AtlasWidth + (slotAt a1.RootNode p).X +
          r1 * a.AtlasWidth + c1) →
      Pixel a.Stride a1.AtlasData k = Pixel a.Stride a.AtlasData k := by
  intro k hk
  by_cases hS : a.Stride = 0
  · rw [hS, Pixel_stride_zero, Pixel_stride_zero]
  · have hS1 : 0 < a.Stride := Nat.pos_of_ne_zero hS
    obtain ⟨hroot, hfind, _⟩ := AddTexture_find hadd
    cases r with
    | none =>
      rw [AddTexture_eq a w h d hroot, hfind] at hadd
      simp only [Option.some.injEq, Prod.mk.injEq, true_and] at hadd
      rw [← hadd]
    | some p =>
      by_cases hwh : w > 0 ∧ h > 0
      · obtain ⟨d1, d2⟩ := dims_le_size (show 1 ≤ w by omega) (show 1 ≤ h by omega) hS1
        have tp : TotalPadding a.PaddingStyle ≤ 2 := by
          rw [TotalPadding_eq]; split <;> omega
        obtain ⟨sW, sH, _, _, hrows⟩ := AddTexture_blit hinv hS1 (show 1 ≤ w by omega)
          (show 1 ≤ h by omega) (by omega) (by omega) hd hadd
        apply hrows.2.2 k
        intro r1 c1 _ hr1 hc1
        exact hk p rfl r1 c1 (by rw [sH]; exact hr1) (by rw [sW]; exact hc1)
      · rw [AddTexture_eq a w h d hroot, hfind] at hadd
        simp only at hadd
        rw [if_neg hwh] at hadd
        simp only [Option.some.injEq, Prod.mk.injEq, true_and] at hadd
        rw [← hadd]

/-- Pixels that agree outside a set of pixels give bytes that agree outside
the bytes of those pixels. -/
theorem bytes_of_pixels_frame {S AW : Nat} {buf buf0 : List Nat} (R : Nat → Nat → Prop)
    (hS : 0 < S) (hAW : 0 < AW)
    (hpix : ∀ row col, col < AW → ¬ R col row →
      Pixel S buf (row * AW + col) = Pixel S buf0 (row * AW + col)) :
    ∀ i : Nat, (∀ row col, R col row →
        ¬ ((row * AW + col) * S ≤ i ∧ i < (row * AW + col) * S + S)) →
      buf[i]? = buf0[i]? := by
  intro i hi
  have hk : i / S * S + i % S = i := by
    rw [Nat.mul_comm]; exact Nat.div_add_mod i S
  have hj : i % S < S := Nat.mod_lt i hS
  have hrc : i / S / AW * AW + i / S % AW = i / S := by
    rw [Nat.mul_comm]; exact Nat.div_add_mod (i / S) AW
  have hc : i / S % AW < AW := Nat.mod_lt _ hAW
  by_cases hin : R (i / S % AW) (i / S / AW)
  · have := hi _ _ hin
    rw [hrc] at this
    omega
  · have hp := hpix _ _ hc hin
    rw [hrc] at hp
    have e := congrArg (fun l : List Nat => l[i % S]?) hp
    simp only [Pixel, ReadBytes_getElem?, if_pos hj, hk] at e
    exact e

/-- C22 (the frame fails when the buffer size wraps around): on the
1431655766 x 3 atlas with 3 bytes per pixel the buffer has 6 bytes; the
packer returns the slot `{0, 0, 1, 2}` for a 1 x 2 request and the blit
completes, but its second row lands on byte offset 2, and the bytes of pixel
`(row 0, column 1)`, which is outside the slot, change from `[0, 0, 0]` to
`[5, 6, 0]`. -/
theorem C22_blitter_frame_counterexample :
    ∃ a1 t1 buf, InitAtlasData (wrapAtlas NoPadding 3) = some a1 ∧
      FindSlotForTexture a1.PaddingStyle a1.RootNode 1 2 = (some [], t1) ∧
      slotAt t1 [] = node 0 0 1 2 0 (node 0 2 1 1 0 null null)
        (node 1 0 1431655765 3 0 null null) ∧
      CopyDataIntoSlot { a1 with RootNode := t1 } (slotAt t1 []) [1, 2, 3, 4, 5, 6]
        = some buf ∧
      ¬ (1 < (slotAt t1 []).X + (slotAt t1 []).Width) ∧
      Pixel 3 a1.AtlasData (0 * 1431655766 + 1) = [0, 0, 0] ∧
      Pixel 3 buf (0 * 1431655766 + 1) = [5, 6, 0] ∧
      Pixel 3 buf (0 * 1431655766 + 1) ≠ Pixel 3 a1.AtlasData (0 * 1431655766 + 1) :=
  ⟨_, _, _, rfl, rfl, rfl, rfl, by decide, rfl, rfl, by decide⟩

/-- C22 (blitter frame, amended): on an atlas set up by `InitAtlasData` with
`AtlasWidth * AtlasHeight * Stride < 2^32`, in any state reached by
`AddTexture` calls, for a request with `TextureWidth ≥ 1` and
`TextureHeight ≥ 1` that the packer places and a source array of at least
`TextureWidth * TextureHeight * Stride` bytes (an array holds fewer than
`2^31` bytes), `CopyDataIntoSlot` completes, for every padding style, and
changes only bytes of pixels `(row, col)` with
`slot.Y ≤ row < slot.Y + slot.Height` and `slot.X ≤ col < slot.X + slot.Width`:
every pixel outside the rectangle of the slot, and every byte that is not a
byte of a pixel of the rectangle, is unchanged, and the buffer length is
unchanged. -/
theorem C22_blitter_frame (a0 a1 a2 : FSlateTextureAtlas)
    (reqs : List (Nat × Nat × List Nat)) (res : List (Option (List Bool)))
    (W H : Nat) (Data : List Nat) (p : List Bool) (t1 : FAtlasedTextureSlot)
    (hAW : a0.AtlasWidth < 2 ^ 32) (hAH : a0.AtlasHeight < 2 ^ 32)
    (hsize : a0.AtlasWidth * a0.AtlasHeight * a0.Stride < 2 ^ 32)
    (hinit : InitAtlasData a0 = some a1)
    (hrun : AddTextures a1 reqs = some (res, a2))
    (hW : 1 ≤ W) (hH : 1 ≤ H)
    (hData : W * H * a0.Stride ≤ Data.length) (hArr : Data.length < 2 ^ 31)
    (hfind : FindSlotForTexture a2.PaddingStyle a2.RootNode W H = (some p, t1)) :
    ∃ buf, CopyDataIntoSlot { a2 with RootNode := t1 } (slotAt t1 p) Data = some buf ∧
      buf.length = a2.AtlasData.length ∧
      (∀ row col, col < a0.AtlasWidth → ¬ InRect (slotAt t1 p) col row →
        Pixel a0.Stride buf (row * a0.AtlasWidth + col) =
          Pixel a0.Stride a2.AtlasData (row * a0.AtlasWidth + col)) ∧
      (∀ i : Nat, (∀ row col, InRect (slotAt t1 p) col row →
          ¬ ((row * a0.AtlasWidth + col) * a0.Stride ≤ i ∧
            i < (row * a0.AtlasWidth + col) * a0.Stride + a0.Stride)) →
        buf[i]? = a2.AtlasData[i]?) := by
  have hinv1 := AtlasInv_init hinit hAW hAH hsize
  have hinv := AtlasInv_run hinv1 hrun
  obtain ⟨_, _, eW, _, eS, _⟩ := InitAtlasData_root hinit
  obtain ⟨_, ⟨cW, _, cS, _⟩, _⟩ := AddTextures_inv reqs a1 a2 res hrun hinv1.1 hinv1.2.1
    hinv1.2.2.1
  have hd : W * H * a2.Stride ≤ Data.length := by rw [cS, eS]; exact hData
  obtain ⟨b1, hb1, hadd⟩ := AddTexture_returns hinv hW hH hd hArr hfind
  have hlen := CopyDataIntoSlot_length hb1
  have hfr := AddTexture_frame hinv hd hArr hadd
  simp only at hfr
  have hP1 : Packed t1 0 0 a2.AtlasWidth a2.AtlasHeight :=
    find_packed hinv.2.2.1 (by have := hinv.1; omega) (by have := hinv.2.1; omega) hfind
  have hb := hP1.bounds p (find_some_frame hfind).2.1.present
  have eAW : a2.AtlasWidth = a0.AtlasWidth := by rw [cW, eW]
  have eSt : a2.Stride = a0.Stride := by rw [cS, eS]
  rw [eAW] at hfr hb
  rw [eSt] at hfr
  have hpix : ∀ row col, col < a0.AtlasWidth → ¬ InRect (slotAt t1 p) col row →
      Pixel a0.Stride b1 (row * a0.AtlasWidth + col) =
        Pixel a0.Stride a2.AtlasData (row * a0.AtlasWidth + col) := by
    intro row col hcol hnin
    apply hfr
    intro q hq r1 c1 hr1 hc1 heq
    simp only [Option.some.injEq] at hq
    subst hq
    rw [pixel_index] at heq
    obtain ⟨e1, e2⟩ := pixel_unique hcol (by omega) heq
    apply hnin
    unfold InRect
    omega
  refine ⟨b1, hb1, hlen, hpix, ?_⟩
  intro i hi
  by_cases hS : a0.Stride = 0
  · have := CopyDataIntoSlot_stride_zero { a2 with RootNode := t1 } (slotAt t1 p) Data
      (by rw [← eSt] at hS; exact hS)
    rw [hb1] at this
    simp only [Option.some.injEq] at this
    rw [this]
  · by_cases hA : a0.AtlasWidth = 0
    · have l0 : a2.AtlasData.length = 0 := by
        rw [hinv.2.2.2.1, eAW, hA]; simp
      have l1 : b1.length = 0 := by
        have : b1.length = a2.AtlasData.length := hlen
        omega
      rw [List.length_eq_zero.mp l0, List.length_eq_zero.mp l1]
    · exact bytes_of_pixels_frame (fun col row => InRect (slotAt t1 p) col row)
        (Nat.pos_of_ne_zero hS) (Nat.pos_of_ne_zero hA) hpix i hi

theorem C22_blitter_frame_witness :
    ∃ res a2 t1,
      AddTextures (sampleInit DilateBorder) sampleRequests = some (res, a2) ∧
      FindSlotForTexture a2.PaddingStyle a2.RootNode 2 1 = (some [true, true], t1) ∧
      slotAt t1 [true, true] = node 4 5 4 3 1 (node 4 8 4 0 1 null null)
        (node 8 5 0 3 1 null null) ∧
      ∃ buf, CopyDataIntoSlot { a2 with RootNode := t1 } (slotAt t1 [true, true]) [7, 8]
          = some buf ∧
        buf.length = a2.AtlasData.length ∧
        (∀ row col, col < (sampleAtlas DilateBorder).AtlasWidth →
          ¬ InRect (slotAt t1 [true, true]) col row →
          Pixel (sampleAtlas DilateBorder).Stride buf
              (row * (sampleAtlas DilateBorder).AtlasWidth + col) =
            Pixel (sampleAtlas DilateBorder).Stride a2.AtlasData
              (row * (sampleAtlas DilateBorder).AtlasWidth + col)) ∧
        (∀ i : Nat, (∀ row col, InRect (slotAt t1 [true, true]) col row →
            ¬ ((row * (sampleAtlas DilateBorder).AtlasWidth + col) *
                  (sampleAtlas DilateBorder).Stride ≤ i ∧
              i < (row * (sampleAtlas DilateBorder).AtlasWidth + col) *
                  (sampleAtlas DilateBorder).Stride + (sampleAtlas DilateBorder).Stride)) →
          buf[i]? = a2.AtlasData[i]?) :=
  ⟨_, _, _, rfl, rfl, rfl,
    C22_blitter_frame (sampleAtlas DilateBorder) (sampleInit DilateBorder) _ sampleRequests _
      2 1 [7, 8] [true, true] _ (by decide) (by decide) (by decide) rfl rfl
      (by decide) (by decide) (by decide) (by decide) rfl⟩

/-! ## Earlier placements survive -/

/-- Along a run of `AddTexture` calls on an atlas whose buffer size did not
wrap around, with source arrays of at least the requested size, the pixels
of a slot that is occupied at the start are not written. -/
theorem AddTextures_survive :
    ∀ (reqs : List (Nat × Nat × List Nat)) (a a2 : FSlateTextureAtlas)
      (res : List (Option (List Bool))),
      AtlasInv a →
      (∀ req ∈ reqs, req.1 * req.2.1 * a.Stride ≤ req.2.2.length ∧ req.2.2.length < 2 ^ 31) →
      AddTextures a reqs = some (res, a2) →
      ∀ q, Occupied a.RootNode q → ∀ r c, r < (slotAt a.RootNode q).Height →
        c < (slotAt a.RootNode q).Width →
        Pixel a.Stride a2.AtlasData
            (((slotAt a.RootNode q).Y + r) * a.AtlasWidth + ((slotAt a.RootNode q).X + c)) =
          Pixel a.Stride a.AtlasData
            (((slotAt a.RootNode q).Y + r) * a.AtlasWidth + ((slotAt a.RootNode q).X + c)) := by
  intro reqs
  induction reqs with
  | nil =>
    intro a a2 res _ _ hrun q _ r c _ _
    simp only [AddTextures, Option.some.injEq, Prod.mk.injEq] at hrun
    rw [← hrun.2]
  | cons req rest ih =>
    intro a a2 res hinv hsrc hrun q hq r c hr hc
    obtain ⟨w, h, d⟩ := req
    simp only [AddTextures] at hrun
    rcases hadd : AddTexture a w h d with _ | ⟨r0, a1⟩
    · simp [hadd] at hrun
    · simp only [hadd] at hrun
      rcases hrest : AddTextures a1 rest with _ | ⟨rs, a3⟩
      · simp [hrest] at hrun
      · simp only [hrest, Option.some.injEq, Prod.mk.injEq] at hrun
        obtain ⟨_, rfl⟩ := hrun
        have hstep : AddTextures a [(w, h, d)] = some ([r0], a1) := by
          simp [AddTextures, hadd]
        have hinv1 : AtlasInv a1 := AtlasInv_run hinv hstep
        obtain ⟨_, hfind, eW, _, eS, _⟩ := AddTexture_find hadd
        obtain ⟨hkeep, hnew⟩ := AddTextures_keep _ a a1 _ hstep
        obtain ⟨hq1, eX, eY, eWd, eHt⟩ := (hkeep q hq.present).2 hq
        have hsrc0 := hsrc (w, h, d) (List.mem_cons_self _ _)
        have h1 := ih a1 a3 rs hinv1
          (fun req hreq => by rw [eS]; exact hsrc req (List.mem_cons_of_mem _ hreq))
          hrest q hq1 r c (by rw [eHt]; exact hr) (by rw [eWd]; exact hc)
        rw [eS, eW, eX, eY] at h1
        rw [h1]
        apply AddTexture_frame hinv hsrc0.1 hsrc0.2 hadd
        intro p hp r1 c1 hr1 hc1 heq
        subst hp
        have hne : q ≠ p := by
          intro e
          subst e
          exact hnew 0 q rfl hq
        have hP1 := hinv1.2.2.1
        have hpset := (find_some_frame hfind).2.1.present
        have bq := hP1.bounds q hq1.present
        have bp := hP1.bounds p hpset
        rw [eW] at bq bp
        rw [pixel_index] at heq
        obtain ⟨e1, e2⟩ := pixel_unique (by omega) (by omega) heq
        apply hP1.disjoint q p hne hq1.present hpset
          ((slotAt a.RootNode q).X + c) ((slotAt a.RootNode q).Y + r)
        unfold InRect
        omega

theorem ExpectedPixel_stride_zero (ps : ESlateTextureAtlasPaddingStyle) (Data : List Nat)
    (W H r c : Nat) : ExpectedPixel ps 0 Data W H r c = [] := by
  cases ps <;> simp [ExpectedPixel, Pixel_stride_zero]

/-- C21 (an earlier placement is overwritten when the buffer size wraps
around): on the 1431655766 x 3 atlas with 3 bytes per pixel, whose buffer
has 6 bytes, a 1 x 1 bitmap `[1, 2, 3]` is placed in the slot `{0, 0, 1, 1}`
and a second 1 x 1 bitmap `[4, 5, 6]` in the slot `{0, 1, 1, 1}`, both
without fault; the second blit starts at byte offset 2, and afterwards the
pixel of the first placement reads `[1, 2, 4]`. -/
theorem C21_survival_counterexample :
    ∃ a1 a2 a3, InitAtlasData (wrapAtlas NoPadding 3) = some a1 ∧
      AddTexture a1 1 1 [1, 2, 3] = some (some [], a2) ∧
      AddTexture a2 1 1 [4, 5, 6] = some (some [false], a3) ∧
      slotAt a3.RootNode [] = node 0 0 1 1 0 (slotAt a3.RootNode [false])
        (slotAt a3.RootNode [true]) ∧
      (slotAt a3.RootNode [false]).X = 0 ∧ (slotAt a3.RootNode [false]).Y = 1 ∧
      (slotAt a3.RootNode [false]).Width = 1 ∧ (slotAt a3.RootNode [false]).Height = 1 ∧
      Pixel 3 a2.AtlasData ((0 + 0) * 1431655766 + (0 + 0)) = [1, 2, 3] ∧
      Pixel 3 a3.AtlasData ((0 + 0) * 1431655766 + (0 + 0)) = [1, 2, 4] ∧
      Pixel 3 a3.AtlasData ((0 + 0) * 1431655766 + (0 + 0)) ≠
        Pixel 3 a2.AtlasData ((0 + 0) * 1431655766 + (0 + 0)) :=
  ⟨_, _, _, rfl, rfl, rfl, rfl, rfl, rfl, rfl, rfl, rfl, rfl, by decide⟩

/-- C21 (earlier textures survive later insertions, amended): on an atlas set
up by `InitAtlasData` with `AtlasWidth * AtlasHeight * Stride < 2^32`, let a
run of `AddTexture` calls be followed by a successful `AddTexture` of a
`W x H` bitmap, `W, H ≥ 1`, with a source of `W * H * Stride` bytes, and
then by any further run of `AddTexture` calls whose sources have the right
size (an array holds fewer than `2^31` bytes).  After the whole sequence the
slot of that placement has the same rectangle, every pixel of the rectangle
holds the bytes it held right after the insertion, which are the expected
pixel of the blit (source interior plus padding border), and so does every
row of the rectangle read as a run of bytes. -/
theorem C21_earlier_textures_survive (a0 a1 a2 a3 a4 : FSlateTextureAtlas)
    (reqs1 reqs2 : List (Nat × Nat × List Nat)) (res1 res2 : List (Option (List Bool)))
    (W H : Nat) (Data : List Nat) (p : List Bool)
    (hAW : a0.AtlasWidth < 2 ^ 32) (hAH : a0.AtlasHeight < 2 ^ 32)
    (hsize : a0.AtlasWidth * a0.AtlasHeight * a0.Stride < 2 ^ 32)
    (hinit : InitAtlasData a0 = some a1)
    (hrun1 : AddTextures a1 reqs1 = some (res1, a2))
    (hW : 1 ≤ W) (hH : 1 ≤ H)
    (hData : Data.length = W * H * a0.Stride) (hArr : Data.length < 2 ^ 31)
    (hadd : AddTexture a2 W H Data = some (some p, a3))
    (hsrc : ∀ req ∈ reqs2, req.2.2.length = req.1 * req.2.1 * a0.Stride ∧
      req.2.2.length < 2 ^ 31)
    (hrun2 : AddTextures a3 reqs2 = some (res2, a4)) :
    ((slotAt a4.RootNode p).X = (slotAt a3.RootNode p).X ∧
      (slotAt a4.RootNode p).Y = (slotAt a3.RootNode p).Y ∧
      (slotAt a4.RootNode p).Width = (slotAt a3.RootNode p).Width ∧
      (slotAt a4.RootNode p).Height = (slotAt a3.RootNode p).Height) ∧
    (∀ r c, r < (slotAt a3.RootNode p).Height → c < (slotAt a3.RootNode p).Width →
      Pixel a0.Stride a4.AtlasData
          (((slotAt a3.RootNode p).Y + r) * a0.AtlasWidth + ((slotAt a3.RootNode p).X + c)) =
        Pixel a0.Stride a3.AtlasData
          (((slotAt a3.RootNode p).Y + r) * a0.AtlasWidth + ((slotAt a3.RootNode p).X + c)) ∧
      Pixel a0.Stride a4.AtlasData
          (((slotAt a3.RootNode p).Y + r) * a0.AtlasWidth + ((slotAt a3.RootNode p).X + c)) =
        ExpectedPixel a0.PaddingStyle a0.Stride Data W H r c) ∧
    (∀ r, r < (slotAt a3.RootNode p).Height →
      ReadBytes a4.AtlasData
          ((((slotAt a3.RootNode p).Y + r) * a0.AtlasWidth + (slotAt a3.RootNode p).X)
            * a0.Stride)
          ((slotAt a3.RootNode p).Width * a0.Stride) =
        ReadBytes a3.AtlasData
          ((((slotAt a3.RootNode p).Y + r) * a0.AtlasWidth + (slotAt a3.RootNode p).X)
            * a0.Stride)
          ((slotAt a3.RootNode p).Width * a0.Stride)) := by
  have hinv1 := AtlasInv_init hinit hAW hAH hsize
  have hinv2 := AtlasInv_run hinv1 hrun1
  obtain ⟨_, _, eW, _, eS, ePS, _⟩ := InitAtlasData_root hinit
  obtain ⟨_, ⟨cW, _, cS, cPS⟩, _⟩ := AddTextures_inv reqs1 a1 a2 res1 hrun1 hinv1.1 hinv1.2.1
    hinv1.2.2.1
  have hstep : AddTextures a2 [(W, H, Data)] = some ([some p], a3) := by
    simp [AddTextures, hadd]
  have hinv3 : AtlasInv a3 := AtlasInv_run hinv2 hstep
  obtain ⟨_, hfind, dW, _, dS, _⟩ := AddTexture_find hadd
  have eAW : a3.AtlasWidth = a0.AtlasWidth := by rw [dW, cW, eW]
  have eSt : a3.Stride = a0.Stride := by rw [dS, cS, eS]
  have eSt2 : a2.Stride = a0.Stride := by rw [cS, eS]
  have ePs2 : a2.PaddingStyle = a0.PaddingStyle := by rw [cPS, ePS]
  have hocc : Occupied a3.RootNode p := (find_some_frame hfind).2.1
  obtain ⟨hkeep, _⟩ := AddTextures_keep reqs2 a3 a4 res2 hrun2
  obtain ⟨_, kX, kY, kW, kH⟩ := (hkeep p hocc.present).2 hocc
  have hsurv := AddTextures_survive reqs2 a3 a4 res2 hinv3
    (fun req hreq => by
      rw [eSt]; have := hsrc req hreq; exact ⟨by omega, this.2⟩)
    hrun2 p hocc
  rw [eSt, eAW] at hsurv
  have hexp : ∀ r c, r < (slotAt a3.RootNode p).Height → c < (slotAt a3.RootNode p).Width →
      Pixel a0.Stride a3.AtlasData
          (((slotAt a3.RootNode p).Y + r) * a0.AtlasWidth + ((slotAt a3.RootNode p).X + c)) =
        ExpectedPixel a0.PaddingStyle a0.Stride Data W H r c := by
    intro r c hr hc
    by_cases hS : a0.Stride = 0
    · rw [hS, Pixel_stride_zero, ExpectedPixel_stride_zero]
    · have hS1 : 0 < a0.Stride := Nat.pos_of_ne_zero hS
      obtain ⟨d1, d2⟩ := dims_le_size hW hH hS1
      have tp : TotalPadding a2.PaddingStyle ≤ 2 := by
        rw [TotalPadding_eq]; split <;> omega
      obtain ⟨sW, sH, _, _, hrows⟩ := AddTexture_blit hinv2 (by rw [eSt2]; exact hS1) hW hH
        (by omega) (by omega) (by rw [eSt2, hData]) hadd
      have := hrows.2.1 r c (Nat.zero_le _) (by rw [← sH]; exact hr) (by rw [← sW]; exact hc)
      rw [pixel_index, eSt2, ePs2, cW, eW] at this
      exact this
  refine ⟨⟨kX, kY, kW, kH⟩, ?_, ?_⟩
  · intro r c hr hc
    have h1 := hsurv r c hr hc
    exact ⟨h1, by rw [h1]; exact hexp r c hr hc⟩
  · intro r hr
    apply ReadBytes_of_pixels
    intro c hc
    have h1 := hsurv r c hr hc
    rw [← Nat.add_assoc] at h1
    exact h1

theorem C21_earlier_textures_survive_witness :
    ∃ res1 a2 a3 res2 a4,
      AddTextures (sampleInit DilateBorder) [(2, 2, [1, 2, 3, 4])] = some (res1, a2) ∧
      AddTexture a2 1 1 [9] = some (some [false], a3) ∧
      AddTextures a3 [(0, 3, []), (2, 1, [7, 8]), (1, 1, [5])] = some (res2, a4) ∧
      res2 = [some [true], some [true, true], none] ∧
      a4.AtlasData ≠ a3.AtlasData ∧
      slotAt a3.RootNode [false] = node 0 4 3 3 1 (slotAt a3.RootNode [false, false])
        (slotAt a3.RootNode [false, true]) ∧
      ∀ r c, r < (slotAt a3.RootNode [false]).Height → c < (slotAt a3.RootNode [false]).Width →
        Pixel (sampleAtlas DilateBorder).Stride a4.AtlasData
            (((slotAt a3.RootNode [false]).Y + r) * (sampleAtlas DilateBorder).AtlasWidth
              + ((slotAt a3.RootNode [false]).X + c)) =
          Pixel (sampleAtlas DilateBorder).Stride a3.AtlasData
            (((slotAt a3.RootNode [false]).Y + r) * (sampleAtlas DilateBorder).AtlasWidth
              + ((slotAt a3.RootNode [false]).X + c)) ∧
        Pixel (sampleAtlas DilateBorder).Stride a4.AtlasData
            (((slotAt a3.RootNode [false]).Y + r) * (sampleAtlas DilateBorder).AtlasWidth
              + ((slotAt a3.RootNode [false]).X + c)) =
          ExpectedPixel (sampleAtlas DilateBorder).PaddingStyle
            (sampleAtlas DilateBorder).Stride [9] 1 1 r c :=
  ⟨_, _, _, _, _, rfl, rfl, rfl, rfl, by decide, rfl,
    (C21_earlier_textures_survive (sampleAtlas DilateBorder) (sampleInit DilateBorder) _ _ _
      [(2, 2, [1, 2, 3, 4])] [(0, 3, []), (2, 1, [7, 8]), (1, 1, [5])] _ _ 1 1 [9] [false]
      (by decide) (by decide) (by decide) rfl rfl (by decide) (by decide) (by decide)
      (by decide) rfl (by decide) rfl).2.1⟩

end SlateAtlas
